import Mathlib

/-! # Safe Land Rwanda, off-chain identity-security core

A shallow embedding of the throttling, code-generation and role-hierarchy
code of `offchain/pkg`, of the bearer tokens of `offchain/pkg/auth`, of the OTP
and password-reset services of `offchain/data` and of the checks of the
handlers that use them, with the properties the specification states about it.

Conventions of the embedding.

* A clock reading (`time.Time`, as returned by `time.Now()`) is an `Int`: the
  number of nanoseconds since an arbitrary origin. A `time.Duration` is an
  `Int` number of nanoseconds. `t.Add(d)` is `t + d`, `t.Sub(u)` is `t - u`,
  `t.After(u)` is `u < t`. Saturation of `Add`/`Sub` at the ends of the int64
  range is outside the model: clock readings and durations are taken in the
  range where Go computes them exactly.
* The clock is an explicit argument `now` of every operation that calls
  `time.Now()`.
* A Go `map[string]V` is a function `String → Option V`; `delete(m, k)` maps
  `k` to `none`, and reading a missing key of a `map[string][]T` gives the
  empty slice.
* A run-time panic (index out of range) is the result `none`.
-/

namespace SafeLand

/-! ## `offchain/pkg/utils/rate_limit.go`: the sliding-window limiter -/

/-- One second, in nanoseconds (`time.Second`). -/
def Second : Int := 1000000000

/-- One minute, in nanoseconds (`time.Minute`). -/
def Minute : Int := 60 * Second

/-- The struct `RateLimiter`: the recorded attempts per key, the limit and the
window. The mutex and the ticker carry no data. -/
structure RateLimiter where
  attempts : String → Option (List Int)
  limit : Int
  window : Int

/-- The constructor `NewRateLimiter(limit, window)`: an empty map. -/
def NewRateLimiter (limit : Int) (window : Int) : RateLimiter :=
  { attempts := fun _ => none, limit := limit, window := window }

/-- The read `rl.attempts[key]`: the slice stored for `key`, empty when the key
is absent. -/
def RateLimiter.recorded (rl : RateLimiter) (key : String) : List Int :=
  (rl.attempts key).getD []

/-- The loop shared by `IsAllowed` and `cleanupExpired`: keep, in order, the
attempts that are `After(windowStart)`. -/
def validAttempts (windowStart : Int) (attempts : List Int) : List Int :=
  attempts.filter (fun attempt => decide (windowStart < attempt))

/-- The triple `(allowed, remaining, retryAfter)` returned by `IsAllowed`. -/
structure Verdict where
  allowed : Bool
  remaining : Int
  retryAfter : Int
deriving DecidableEq, Repr

/-- The method `RateLimiter.IsAllowed(key)` read at clock `now`. The result is
the returned triple and the limiter afterwards; `none` is the index-out-of-range
panic of `validAttempts[0]` on an empty slice. -/
def RateLimiter.IsAllowed (rl : RateLimiter) (now : Int) (key : String) :
    Option (Verdict × RateLimiter) :=
  let windowStart := now - rl.window
  let valid := validAttempts windowStart (rl.recorded key)
  if (valid.length : Int) < rl.limit then
    let valid1 := valid ++ [now]
    some (⟨true, rl.limit - (valid1.length : Int), 0⟩,
      { rl with attempts := fun k => if k = key then some valid1 else rl.attempts k })
  else
    match valid with
    | [] => none
    | oldestAttempt :: _ => some (⟨false, 0, oldestAttempt + rl.window - now⟩, rl)

/-- The method `RateLimiter.Reset(key)`: delete the key. -/
def RateLimiter.Reset (rl : RateLimiter) (key : String) : RateLimiter :=
  { rl with attempts := fun k => if k = key then none else rl.attempts k }

/-- The method `RateLimiter.cleanupExpired()` read at clock `now`: every stored
key keeps its valid attempts, and is deleted when none is left. -/
def RateLimiter.cleanupExpired (rl : RateLimiter) (now : Int) : RateLimiter :=
  let windowStart := now - rl.window
  { rl with attempts := fun key =>
      match rl.attempts key with
      | none => none
      | some attempts =>
        let valid := validAttempts windowStart attempts
        if valid.length = 0 then none else some valid }

/-- A call on a limiter. -/
inductive Call where
  | IsAllowed (key : String)
  | Reset (key : String)
  | cleanupExpired
deriving DecidableEq, Repr

/-- What an `IsAllowed` call answered: the clock reading, the key, the triple. -/
structure Outcome where
  now : Int
  key : String
  verdict : Verdict
deriving DecidableEq, Repr

/-- One call at clock `now`: the limiter afterwards and the answers given (one
for `IsAllowed`, none for the other two). -/
def RateLimiter.step (rl : RateLimiter) (now : Int) : Call → Option (RateLimiter × List Outcome)
  | Call.IsAllowed key =>
    match rl.IsAllowed now key with
    | none => none
    | some (v, rl1) => some (rl1, [⟨now, key, v⟩])
  | Call.Reset key => some (rl.Reset key, [])
  | Call.cleanupExpired => some (rl.cleanupExpired now, [])

/-- A sequence of timed calls, in the order made; `log` is the list of answers
given so far, the answers of the run are appended to it. -/
def RateLimiter.run (rl : RateLimiter) (log : List Outcome) :
    List (Int × Call) → Option (RateLimiter × List Outcome)
  | [] => some (rl, log)
  | (now, c) :: rest =>
    match rl.step now c with
    | none => none
    | some (rl1, out) => RateLimiter.run rl1 (log ++ out) rest

/-- The calls are made at non-decreasing clock readings. -/
def NonDecreasing (calls : List (Int × Call)) : Prop :=
  calls.Pairwise (fun a b => a.1 ≤ b.1)

/-- The number of answers in `log` that allowed `key` at a clock reading in the
interval `(t - window, t]`. -/
def allowedWithin (log : List Outcome) (key : String) (window t : Int) : Nat :=
  log.countP (fun o => decide (o.key = key) && o.verdict.allowed &&
    decide (t - window < o.now) && decide (o.now ≤ t))

/-- The number of answers in `log` that allowed `key` at a clock reading after
`windowStart`. -/
def allowedSince (log : List Outcome) (key : String) (windowStart : Int) : Nat :=
  log.countP (fun o => decide (o.key = key) && o.verdict.allowed &&
    decide (windowStart < o.now))

/-- The invariant of a run, for one key and a lower bound `c` of the clock
readings to come: the limit and window are `L` and `W`; at every later clock
reading the attempts of `key` that are still valid are as many as the answers
that allowed `key` inside the window; and no window holds more than `L` allowed
answers. -/
def WindowInv (L W : Int) (key : String) (c : Int) (rl : RateLimiter)
    (log : List Outcome) : Prop :=
  rl.limit = L ∧ rl.window = W ∧
  (∀ now, c ≤ now →
    (validAttempts (now - W) (rl.recorded key)).length = allowedSince log key (now - W)) ∧
  (∀ t, (allowedWithin log key W t : Int) ≤ L)

/-- The invariant behind `retryAfter`: the window is `W`, and the attempts
stored for every key are in non-decreasing order and none is later than the
clock reading `c`. -/
def OrderedInv (W c : Int) (rl : RateLimiter) : Prop :=
  rl.window = W ∧
  ∀ key, (rl.recorded key).Pairwise (fun a b => a ≤ b) ∧ ∀ x ∈ rl.recorded key, x ≤ c

/-! ## `offchain/pkg/utils/rate_limit.go`: the resend cooldown -/

/-- The struct `ResendCooldown`: the last send per key and the duration. -/
structure ResendCooldown where
  cooldown : String → Option Int
  duration : Int

/-- The constructor `NewResendCooldown(duration)`. -/
def NewResendCooldown (duration : Int) : ResendCooldown :=
  { cooldown := fun _ => none, duration := duration }

/-- The bound below which `wholeSeconds` is the value of the source's
`int64(d.Seconds())`: `2^24` seconds, about 194 days, in nanoseconds. -/
def exactSecondsBound : Int := 16777216 * Second

/-- The conversion `int64(d.Seconds())`, for `|d|` below `exactSecondsBound`.
`Seconds` computes `float64(d / Second) + float64(d % Second) / 1e9` and the
conversion to int64 truncates toward zero. The fraction is at most
`0.999999999`. Below `2^24` the float64 values next to a whole number are at
most `2^-29` (about `1.86e-9`) apart, so a sum that lies `1e-9` short of the
next whole number is rounded to a value still short of it, and the result is
the truncated integer quotient. From `2^24` seconds on the spacing is `2^-28`
and a fraction of `0.999999999` is rounded up to the next whole number: the
source gives `16777217` for `16777216999999999` nanoseconds, this definition
`16777216`. Statements about the value are therefore made only for durations
below `exactSecondsBound`. -/
def wholeSeconds (d : Int) : Int := Int.tdiv d Second

/-- The remaining time `d` rounded up to whole seconds, as the specification
words it: the least integer `n` with `d ≤ n` seconds. -/
def ceilSeconds (d : Int) : Int := -((-d) / Second)

/-- The method `ResendCooldown.CanResend(key)` read at clock `now`:
`(canResend, secondsUntilCanResend)`. -/
def ResendCooldown.CanResend (rc : ResendCooldown) (now : Int) (key : String) : Bool × Int :=
  match rc.cooldown key with
  | none => (true, 0)
  | some lastSend =>
    let nextAllowed := lastSend + rc.duration
    if nextAllowed < now then (true, 0)
    else (false, wholeSeconds (nextAllowed - now))

/-- The method `ResendCooldown.SetCooldown(key)` read at clock `now`. -/
def ResendCooldown.SetCooldown (rc : ResendCooldown) (now : Int) (key : String) : ResendCooldown :=
  { rc with cooldown := fun k => if k = key then some now else rc.cooldown k }

/-- The method `ResendCooldown.Reset(key)`. -/
def ResendCooldown.Reset (rc : ResendCooldown) (key : String) : ResendCooldown :=
  { rc with cooldown := fun k => if k = key then none else rc.cooldown k }

/-! ## `offchain/pkg/utils/token_generator.go` -/

/-- The constant `charset` of `GenerateOTP`. -/
def charset : String := "ABCDEFGHJKLMNPQRSTUVWXYZ23456789"

/-- The bytes of `charset`; every one is ASCII, so bytes and characters agree. -/
def charsetBytes : List Char := charset.toList

/-- The expression `charset[int(b)%len(charset)]` for a byte `b`. -/
def charsetAt (b : Fin 256) : Char :=
  charsetBytes.get ⟨b.val % charsetBytes.length, Nat.mod_lt _ (by decide)⟩

/-- The entropy source behind `rand.Read`: either it fails with an error, or it
delivers a stream of bytes, of which a read of `n` bytes takes the first `n`. -/
abbrev Entropy := Except String (Nat → Fin 256)

/-- The call `rand.Read(b)` for a slice of `n` bytes. -/
def randRead (src : Entropy) (n : Nat) : Except String (List (Fin 256)) :=
  match src with
  | Except.error err => Except.error err
  | Except.ok bytes => Except.ok ((List.range n).map bytes)

/-- The length `GenerateOTP` works with: the argument when it lies in `[4, 12]`,
otherwise 6. -/
def otpLength (length : Int) : Int :=
  if length < 4 ∨ length > 12 then 6 else length

/-- The method `TokenGenerator.GenerateOTP(length)` over an entropy source. -/
def GenerateOTP (length : Int) (src : Entropy) : Except String String :=
  let length := otpLength length
  match randRead src length.toNat with
  | Except.error err => Except.error ("failed to generate OTP: " ++ err)
  | Except.ok b => Except.ok (String.mk (b.map charsetAt))

/-! ## `offchain/pkg/roles/roles.go` -/

/-- The role constant `SuperAdmin`. -/
def SuperAdmin : String := "superAdmin"
/-- The role constant `NLA`. -/
def NLA : String := "nla"
/-- The role constant `Admin`. -/
def Admin : String := "admin"
/-- The role constant `Manager`. -/
def Manager : String := "manager"
/-- The role constant `Agent`. -/
def Agent : String := "agent"
/-- The role constant `Notary`. -/
def Notary : String := "notary"
/-- The role constant `Blocker`. -/
def Blocker : String := "blocker"
/-- The role constant `Paterns`. -/
def Paterns : String := "paterns"
/-- The role constant `Buyer`. -/
def Buyer : String := "buyer"

/-- The map literal `RoleHierarchy`, as its list of entries (the keys are
pairwise distinct). -/
def RoleHierarchy : List (String × Int) :=
  [(SuperAdmin, 9), (NLA, 8), (Admin, 7), (Manager, 6), (Agent, 5),
   (Notary, 4), (Blocker, 3), (Paterns, 2), (Buyer, 1)]

/-- The function `GetRoleLevel(role)`: the level in the map, 0 when absent. -/
def GetRoleLevel (role : String) : Int :=
  match RoleHierarchy.lookup role with
  | some level => level
  | none => 0

/-- The function `CanAssignRole(sourceRole, targetRole)`. -/
def CanAssignRole (sourceRole targetRole : String) : Bool :=
  if sourceRole = SuperAdmin ∨ sourceRole = NLA then true
  else
    let sourceLevel := GetRoleLevel sourceRole
    let targetLevel := GetRoleLevel targetRole
    decide (sourceLevel > targetLevel)

/-- The body of the loop of `GetHighestRole`: the pair `(highest, highestLevel)`
after looking at `role`. -/
def highestStep (acc : String × Int) (role : String) : String × Int :=
  let level := GetRoleLevel role
  if level > acc.2 then (role, level) else acc

/-- The function `GetHighestRole(userRoles)`. -/
def GetHighestRole : List String → String
  | [] => ""
  | first :: rest => (rest.foldl highestStep (first, GetRoleLevel first)).1

/-! ## `offchain/pkg/utils/hash.go` and `hex` encoding -/

/-- The sixteen digits of the lowercase hexadecimal encoding (`%x`,
`hex.EncodeToString`). -/
def hexDigits : List Char := "0123456789abcdef".toList

/-- One hexadecimal digit; the argument is below 16 at every use. -/
def hexDigit (n : Nat) : Char := hexDigits.getD n '0'

/-- The lowercase hexadecimal encoding of a byte sequence, two digits a byte:
`hex.EncodeToString(b)` and `fmt.Sprintf("%x", b)`. -/
def hexEncode (bytes : List (Fin 256)) : String :=
  String.mk (bytes.flatMap (fun b => [hexDigit (b.val / 16), hexDigit (b.val % 16)]))

/-- The struct `HashProvider`. The field `sha256` is not a field of the Go
struct: it stands for the standard-library function `sha256.Sum256` applied to
the bytes of a string, a parameter of the model whose result is an array of 32
bytes. The HMAC secret is `none` for a nil slice. -/
structure HashProvider where
  hmacSecret : Option (List (Fin 256))
  sha256 : String → Fin 32 → Fin 256

/-- The method `HashProvider.HashOTP(otp)`: the digest in hexadecimal. -/
def HashProvider.HashOTP (hp : HashProvider) (otp : String) : String :=
  hexEncode ((List.finRange 32).map (hp.sha256 otp))

/-- The method `HashProvider.VerifyOTP(otp, hash)`: `hmac.Equal` on the two byte
strings is their equality. -/
def HashProvider.VerifyOTP (hp : HashProvider) (otp hash : String) : Bool :=
  decide (hp.HashOTP otp = hash)

/-! ## `offchain/data/models` and the persistence collaborator

A table is the list of its rows in the order of their primary keys. The
statements of the program are read as follows: `Where(cond).First(&x)` finds the
first row that meets `cond` and fails when there is none; `Where(cond).Update`
and `Model(&x).Updates` rewrite the named columns of every row that meets the
condition (for `Model(&x)`: the row with the primary key of `x`); `Create`
appends a row under the next primary key and fails when the row repeats a value
of a column declared unique (`database.ConnectDB` migrates the declared
constraints). A statement fails in no other way, except the two updates and the
commit inside the transaction of `ConfirmPasswordReset`, whose failures are
inputs of that operation. The columns `CreatedAt` and `UpdatedAt` are left out:
an update statement also stamps `updated_at` of each row it rewrites
(`autoUpdateTime`), so what is said here of a rewritten row concerns the columns
of the structures below and not that timestamp.
-/

/-- The model `models.OTP`. -/
structure OTP where
  ID : Nat
  Email : String
  Phone : String
  OTPCode : String
  VerificationCode : String
  Status : String
  ExpiresAt : Int
  VerifiedAt : Option Int
deriving DecidableEq, Repr

/-- The error text of the database for a repeated value in a unique column. -/
def duplicateKey : String := "duplicate key value violates unique constraint"

/-- The statement `db.Create(otp)` on the table `otps`: the column
`verification_code` is unique. -/
def createOTP (db : List OTP) (otp : OTP) : Except String (List OTP) :=
  if otp.VerificationCode ∈ db.map (fun r => r.VerificationCode) then Except.error duplicateKey
  else Except.ok (db ++ [{ otp with ID := db.length + 1 }])

/-! ## `offchain/data/otp_service.go` -/

/-- The struct `OTPService`: the table `otps` behind `db`, the hash provider,
the limiter, the cooldown and the expiry. The token generator has no state and
`maxAttempts` is never read. -/
structure OTPService where
  db : List OTP
  hashProvider : HashProvider
  rateLimiter : RateLimiter
  resendCooldown : ResendCooldown
  otpExpiry : Int

/-- The constructor `NewOTPService(db, hashProvider)`. -/
def NewOTPService (db : List OTP) (hashProvider : HashProvider) : OTPService :=
  { db := db, hashProvider := hashProvider, rateLimiter := NewRateLimiter 5 (15 * Minute),
    resendCooldown := NewResendCooldown (2 * Minute), otpExpiry := 10 * Minute }

/-- The struct `SendOTPRequest`. -/
structure SendOTPRequest where
  Phone : String
  Channel : String
deriving DecidableEq, Repr

/-- The struct `SendOTPResponse`. -/
structure SendOTPResponse where
  Success : Bool
  Message : String
  VerificationCode : String
  ExpiryMinutes : Int
deriving DecidableEq, Repr

/-- The struct `VerifyOTPRequest`. -/
structure VerifyOTPRequest where
  VerificationCode : String
  OTPCode : String
deriving DecidableEq, Repr

/-- The struct `VerifyOTPResponse`. -/
structure VerifyOTPResponse where
  Success : Bool
  Message : String
deriving DecidableEq, Repr

/-- The function `generateUUID()`, over its two readings of the clock, in
nanoseconds since the Unix epoch: `"%d-%d"` of the first and of half the
second (Go's integer division truncates toward zero). -/
def generateUUID (now1 now2 : Int) : String :=
  toString now1 ++ "-" ++ toString (Int.tdiv now2 2)

/-- The six readings of the clock that one `SendOTP` call makes, in the order of
the code: in `IsAllowed`, in `CanResend`, twice in `generateUUID`, for
`ExpiresAt`, and in `SetCooldown`. -/
structure SendClock where
  isAllowed : Int
  canResend : Int
  uuid1 : Int
  uuid2 : Int
  expiresAt : Int
  setCooldown : Int
deriving DecidableEq, Repr

/-- The supersede statement of `SendOTP`:
`Model(&models.OTP{}).Where("phone = ?", phone).Update("status", "expired")`.
The condition names the phone alone, not the status. In the database the
statement also stamps `updated_at` of the rows it rewrites, a column outside
this model; a row of another phone is not touched at all. -/
def expirePhone (db : List OTP) (phone : String) : List OTP :=
  db.map (fun r => if r.Phone = phone then { r with Status := "expired" } else r)

/-- The method `OTPService.SendOTP(req)`: the returned response or error, and
the service afterwards; `none` is a panic of the limiter. -/
def OTPService.SendOTP (s : OTPService) (clock : SendClock) (src : Entropy)
    (req : SendOTPRequest) : Option (Except String SendOTPResponse × OTPService) :=
  if req.Phone = "" then some (Except.error "phone is required", s)
  else
    match s.rateLimiter.IsAllowed clock.isAllowed req.Phone with
    | none => none
    | some (v, rl1) =>
      let s1 := { s with rateLimiter := rl1 }
      if v.allowed = false then
        some (Except.error ("rate limited, retry after "
          ++ toString (wholeSeconds v.retryAfter) ++ " seconds"), s1)
      else
        let (canResend, secondsUntil) := s1.resendCooldown.CanResend clock.canResend req.Phone
        if canResend = false then
          some (Except.error ("too frequent requests, wait "
            ++ toString secondsUntil ++ " seconds"), s1)
        else
          let s2 := { s1 with db := expirePhone s1.db req.Phone }
          match GenerateOTP 6 src with
          | Except.error err => some (Except.error ("failed to generate OTP: " ++ err), s2)
          | Except.ok otpCode =>
            let otpHash := s2.hashProvider.HashOTP otpCode
            let otp : OTP :=
              { ID := 0, Email := "", Phone := req.Phone, OTPCode := otpHash,
                VerificationCode := generateUUID clock.uuid1 clock.uuid2,
                Status := "active", ExpiresAt := clock.expiresAt + s2.otpExpiry,
                VerifiedAt := none }
            match createOTP s2.db otp with
            | Except.error err => some (Except.error ("failed to save OTP: " ++ err), s2)
            | Except.ok db2 =>
              some (Except.ok
                  { Success := true, Message := "OTP sent to " ++ req.Phone,
                    VerificationCode := otp.VerificationCode, ExpiryMinutes := 10 },
                { s2 with db := db2,
                          resendCooldown :=
                            s2.resendCooldown.SetCooldown clock.setCooldown req.Phone })

/-- The update statement of `VerifyOTP`:
`Model(&otp).Updates({"status": "verified", "verified_at": now})`, on the row
with the primary key `id`. -/
def markVerified (db : List OTP) (id : Nat) (now : Int) : List OTP :=
  db.map (fun r =>
    if r.ID = id then { r with Status := "verified", VerifiedAt := some now } else r)

/-- The method `OTPService.VerifyOTP(req)`, with its two readings of the clock:
for the expiry check and for `verified_at`. -/
def OTPService.VerifyOTP (s : OTPService) (now1 now2 : Int) (req : VerifyOTPRequest) :
    Except String VerifyOTPResponse × OTPService :=
  match s.db.find? (fun r => decide (r.VerificationCode = req.VerificationCode)) with
  | none => (Except.error "invalid verification code", s)
  | some otp =>
    if otp.ExpiresAt < now1 then (Except.error "OTP has expired", s)
    else if s.hashProvider.VerifyOTP req.OTPCode otp.OTPCode = false then
      (Except.error "invalid OTP code", s)
    else
      (Except.ok { Success := true, Message := "OTP verified successfully" },
        { s with
          db := markVerified s.db otp.ID now2,
          rateLimiter := s.rateLimiter.Reset otp.Phone,
          resendCooldown := s.resendCooldown.Reset otp.Phone })

/-- A call on the OTP service, with the inputs it reads from the clock and the
entropy source. -/
inductive OTPCall where
  | SendOTP (clock : SendClock) (src : Entropy) (req : SendOTPRequest)
  | VerifyOTP (now1 now2 : Int) (req : VerifyOTPRequest)

/-- One call: the service afterwards. -/
def OTPService.step (s : OTPService) : OTPCall → Option OTPService
  | OTPCall.SendOTP clock src req => (s.SendOTP clock src req).map Prod.snd
  | OTPCall.VerifyOTP now1 now2 req => some (s.VerifyOTP now1 now2 req).2

/-- A sequence of calls, in the order made. -/
def OTPService.run (s : OTPService) : List OTPCall → Option OTPService
  | [] => some s
  | c :: rest =>
    match s.step c with
    | none => none
    | some s1 => OTPService.run s1 rest

/-- The row that a `SendOTP` call builds for the generated code `otpCode`, under
the primary key it gets in the table. -/
def issuedOTP (s : OTPService) (clock : SendClock) (req : SendOTPRequest)
    (otpCode : String) : OTP :=
  { ID := s.db.length + 1, Email := "", Phone := req.Phone,
    OTPCode := s.hashProvider.HashOTP otpCode,
    VerificationCode := generateUUID clock.uuid1 clock.uuid2,
    Status := "active", ExpiresAt := clock.expiresAt + s.otpExpiry, VerifiedAt := none }

/-- The rows of the table that belong to `phone` and have status `active`. -/
def activeFor (db : List OTP) (phone : String) : List OTP :=
  db.filter (fun r => decide (r.Phone = phone) && decide (r.Status = "active"))

/-- The table holds a row for the handle `handle`, found first under it, with
the stored code `code`, the expiry `expiry` and the phone `phone`. -/
def IssuedRow (db : List OTP) (handle code : String) (expiry : Int) (phone : String) : Prop :=
  ∃ r, db.find? (fun r => decide (r.VerificationCode = handle)) = some r ∧
    r.OTPCode = code ∧ r.ExpiresAt = expiry ∧ r.Phone = phone

/-! ## `offchain/api/handlers/notification_handler.go`: the OTP records -/

/-- The struct `OTPRequest`; the field `Type` is written `Type_`. -/
structure OTPRequest where
  Email : String
  Phone : String
  Type_ : String
deriving DecidableEq, Repr

/-- The function `generateMixedOTP(length)`: the same alphabet as `GenerateOTP`,
and the fixed code `A1B2C3` when the entropy source fails. -/
def generateMixedOTP (length : Nat) (src : Entropy) : String :=
  match randRead src length with
  | Except.error _ => "A1B2C3"
  | Except.ok b => String.mk (b.map charsetAt)

/-- The row that `sendSMSOTP` and `sendEmailOTP` save: `subject` is the phone of
the request for the first and its email for the second, `handle` is the result
of `uuid.NewString()`. -/
def handlerOTP (subject otp handle : String) (now : Int) : OTP :=
  { ID := 0, Email := "", Phone := subject, OTPCode := otp, VerificationCode := handle,
    Status := "active", ExpiresAt := now + 10 * Minute, VerifiedAt := none }

/-- The table after `sendEmailOTP(c, req)`: when the mail is sent (`smtpErr` is
`none`) the row is created, otherwise the handler returns before it. -/
def sendEmailOTP (db : List OTP) (now : Int) (src : Entropy) (handle : String)
    (smtpErr : Option String) (req : OTPRequest) : List OTP :=
  let otp := generateMixedOTP 6 src
  match smtpErr with
  | some _ => db
  | none =>
    match createOTP db (handlerOTP req.Email otp handle now) with
    | Except.error _ => db
    | Except.ok db1 => db1

/-- The table after `sendSMSOTP(c, req)`: when the SMS gateway steps succeed
(`smsErr` is `none`) the row is created, otherwise the handler returns before
it. -/
def sendSMSOTP (db : List OTP) (now : Int) (src : Entropy) (handle : String)
    (smsErr : Option String) (req : OTPRequest) : List OTP :=
  let otp := generateMixedOTP 6 src
  match smsErr with
  | some _ => db
  | none =>
    match createOTP db (handlerOTP req.Phone otp handle now) with
    | Except.error _ => db
    | Except.ok db1 => db1

/-! ## `offchain/data/auth_service.go`: password strength -/

/-- The characters of the class
`[!@#$%^&*()_+\-=\[\]{};':"\\|,.<>/?]` that `validatePassword` asks for. The two
braces, the apostrophe, the double quote and the backslash are given by their
code points 123, 125, 39, 34 and 92. -/
def specialChars : List Char :=
  ['!', '@', '#', '$', '%', '^', '&', '*', '(', ')', '_', '+', '-', '=', '[', ']',
   Char.ofNat 123, Char.ofNat 125, ';', Char.ofNat 39, ':', Char.ofNat 34, Char.ofNat 92,
   '|', ',', '.', '<', '>', '/', '?']

/-- The unanchored match `regexp.MustCompile("[lo-hi]").MatchString(s)` of a
one-range class: some character of `s` lies between `lo` and `hi`. -/
def matchesRange (lo hi : Char) (s : String) : Bool :=
  s.toList.any (fun c => decide (lo.toNat ≤ c.toNat) && decide (c.toNat ≤ hi.toNat))

/-- The unanchored match of the class of special characters. -/
def matchesSpecial (s : String) : Bool :=
  s.toList.any (fun c => decide (c ∈ specialChars))

/-- The method `AuthService.validatePassword(password)`: `Except.ok ()` is the
nil error. `len(password)` is the number of bytes of the UTF-8 encoding. -/
def validatePassword (password : String) : Except String Unit :=
  if password.utf8ByteSize < 8 then
    Except.error "password must be at least 8 characters long"
  else if matchesRange 'A' 'Z' password = false then
    Except.error "password must contain at least one uppercase letter"
  else if matchesRange 'a' 'z' password = false then
    Except.error "password must contain at least one lowercase letter"
  else if matchesRange '0' '9' password = false then
    Except.error "password must contain at least one number"
  else if matchesSpecial password = false then
    Except.error "password must contain at least one special character"
  else Except.ok ()

/-! ## `offchain/data/auth_service.go`: password reset -/

/-- One hour, in nanoseconds (`time.Hour`). -/
def Hour : Int := 60 * Minute

/-- The model `models.User`, with the columns the password reset reads and
writes: the primary key, the email, the password and the soft-delete stamp of
`gorm.Model`, which every query on the table filters on. -/
structure User where
  ID : Nat
  Email : String
  Password : String
  DeletedAt : Option Int
deriving DecidableEq, Repr

/-- The model `models.PasswordReset`. -/
structure PasswordReset where
  ID : Nat
  UserID : Nat
  Email : String
  Token : String
  Status : String
  ExpiresAt : Int
  UsedAt : Option Int
deriving DecidableEq, Repr

/-- The statement `db.Create(reset)` on the table `password_resets`: the column
`token` has a unique index. -/
def createPasswordReset (resets : List PasswordReset) (reset : PasswordReset) :
    Except String (List PasswordReset) :=
  if reset.Token ∈ resets.map (fun r => r.Token) then Except.error duplicateKey
  else Except.ok (resets ++ [{ reset with ID := resets.length + 1 }])

/-- The method `TokenGenerator.GenerateToken()`: 32 bytes of the entropy source
in hexadecimal. -/
def GenerateToken (src : Entropy) : Except String String :=
  match randRead src 32 with
  | Except.error err => Except.error ("failed to generate token: " ++ err)
  | Except.ok b => Except.ok (hexEncode b)

/-- The struct `AuthService`: the tables `users` and `password_resets` behind
`db`, the limiter and the expiry. The token generator has no state. -/
structure AuthService where
  users : List User
  resets : List PasswordReset
  rateLimiter : RateLimiter
  resetExpiry : Int

/-- The constructor `NewAuthService(db, hashProvider)`. -/
def NewAuthService (users : List User) (resets : List PasswordReset) : AuthService :=
  { users := users, resets := resets, rateLimiter := NewRateLimiter 3 Hour,
    resetExpiry := 2 * Hour }

/-- The struct `RequestPasswordResetResponse`. -/
structure RequestPasswordResetResponse where
  Success : Bool
  Message : String
  Token : String
deriving DecidableEq, Repr

/-- The struct `ConfirmPasswordResetRequest`. -/
structure ConfirmPasswordResetRequest where
  Token : String
  Password : String
deriving DecidableEq, Repr

/-- The struct `ConfirmPasswordResetResponse`. -/
structure ConfirmPasswordResetResponse where
  Success : Bool
  Message : String
deriving DecidableEq, Repr

/-- The lookup `Where("email = ?", email).First(&user)` on `users`. -/
def findUserByEmail (users : List User) (email : String) : Option User :=
  users.find? (fun u => decide (u.Email = email) && decide (u.DeletedAt = none))

/-- The lookup `Where("token = ? AND status = ?", token, "active").First(&reset)`
on `password_resets`. -/
def findActiveReset (resets : List PasswordReset) (token : String) : Option PasswordReset :=
  resets.find? (fun r => decide (r.Token = token) && decide (r.Status = "active"))

/-- The method `AuthService.RequestPasswordReset(email)`, with its two readings
of the clock (in `IsAllowed` and for `ExpiresAt`); `none` is a panic of the
limiter. -/
def AuthService.RequestPasswordReset (s : AuthService) (now1 now2 : Int) (src : Entropy)
    (email : String) : Option (Except String RequestPasswordResetResponse × AuthService) :=
  match s.rateLimiter.IsAllowed now1 email with
  | none => none
  | some (v, rl1) =>
    let s1 := { s with rateLimiter := rl1 }
    if v.allowed = false then
      some (Except.ok
        { Success := true,
          Message := "If this email exists, a password reset link has been sent",
          Token := "" }, s1)
    else
      match findUserByEmail s1.users email with
      | none =>
        some (Except.ok
          { Success := true,
            Message := "If this email exists, a password reset link has been sent",
            Token := "" }, s1)
      | some user =>
        match GenerateToken src with
        | Except.error err => some (Except.error ("failed to generate token: " ++ err), s1)
        | Except.ok token =>
          let reset : PasswordReset :=
            { ID := 0, UserID := user.ID, Email := email, Token := token, Status := "active",
              ExpiresAt := now2 + s1.resetExpiry, UsedAt := none }
          match createPasswordReset s1.resets reset with
          | Except.error err =>
            some (Except.error ("failed to save reset token: " ++ err), s1)
          | Except.ok resets1 =>
            some (Except.ok
              { Success := true,
                Message := "If this email exists, a password reset link has been sent",
                Token := token }, { s1 with resets := resets1 })

/-- The failures of the statements inside the transaction of
`ConfirmPasswordReset`: of the update of the user, of the update of the reset
row, and of the commit; `none` is success. -/
structure TxFaults where
  updateUser : Option String
  updateReset : Option String
  commit : Option String
deriving DecidableEq, Repr

/-- The statement
`tx.Model(&models.User{}).Where("id = ?", id).Update("password", hash)`. -/
def setPassword (users : List User) (id : Nat) (hash : String) : List User :=
  users.map (fun u =>
    if u.ID = id ∧ u.DeletedAt = none then { u with Password := hash } else u)

/-- The statement `tx.Model(&reset).Updates({"status": "used", "used_at": now})`,
on the row with the primary key `id`. -/
def markUsed (resets : List PasswordReset) (id : Nat) (now : Int) : List PasswordReset :=
  resets.map (fun r => if r.ID = id then { r with Status := "used", UsedAt := some now } else r)

/-- The call `s.db.Transaction(func(tx) ...)` of `ConfirmPasswordReset`: the two
updates in order, each returning its error, then the commit; an error rolls the
tables back, so only the committed tables are a result. -/
def resetTransaction (users : List User) (resets : List PasswordReset)
    (reset : PasswordReset) (passwordHash : String) (now : Int) (faults : TxFaults) :
    Except String (List User × List PasswordReset) :=
  match faults.updateUser with
  | some err => Except.error err
  | none =>
    let users1 := setPassword users reset.UserID passwordHash
    match faults.updateReset with
    | some err => Except.error err
    | none =>
      let resets1 := markUsed resets reset.ID now
      match faults.commit with
      | some err => Except.error err
      | none => Except.ok (users1, resets1)

/-- The method `AuthService.ConfirmPasswordReset(req)`, with its two readings of
the clock (for the expiry check and for `used_at`), the result `bcrypt` of
`bcrypt.GenerateFromPassword` on the password, and the failures of the
transaction. -/
def AuthService.ConfirmPasswordReset (s : AuthService) (now1 now2 : Int)
    (bcrypt : Except String String) (faults : TxFaults) (req : ConfirmPasswordResetRequest) :
    Except String ConfirmPasswordResetResponse × AuthService :=
  match validatePassword req.Password with
  | Except.error err => (Except.error err, s)
  | Except.ok _ =>
    match findActiveReset s.resets req.Token with
    | none => (Except.error "invalid or expired reset link", s)
    | some reset =>
      if reset.ExpiresAt < now1 then (Except.error "reset link has expired", s)
      else
        match bcrypt with
        | Except.error err => (Except.error ("failed to hash password: " ++ err), s)
        | Except.ok passwordHash =>
          match resetTransaction s.users s.resets reset passwordHash now2 faults with
          | Except.error err => (Except.error ("failed to update password: " ++ err), s)
          | Except.ok (users1, resets1) =>
            (Except.ok { Success := true, Message := "Password reset successfully" },
              { s with users := users1, resets := resets1 })

/-- A call on the auth service, with the inputs it reads from the clock, the
entropy source, bcrypt and the store. -/
inductive AuthCall where
  | RequestPasswordReset (now1 now2 : Int) (src : Entropy) (email : String)
  | ConfirmPasswordReset (now1 now2 : Int) (bcrypt : Except String String)
      (faults : TxFaults) (req : ConfirmPasswordResetRequest)

/-- One call: the service afterwards. -/
def AuthService.step (s : AuthService) : AuthCall → Option AuthService
  | AuthCall.RequestPasswordReset now1 now2 src email =>
    (s.RequestPasswordReset now1 now2 src email).map Prod.snd
  | AuthCall.ConfirmPasswordReset now1 now2 bcrypt faults req =>
    some (s.ConfirmPasswordReset now1 now2 bcrypt faults req).2

/-- A sequence of calls, in the order made. -/
def AuthService.run (s : AuthService) : List AuthCall → Option AuthService
  | [] => some s
  | c :: rest =>
    match s.step c with
    | none => none
    | some s1 => AuthService.run s1 rest

/-- No row of the table with the token `token` has status `active`, and the
table holds the token. -/
def TokenSpent (resets : List PasswordReset) (token : String) : Prop :=
  token ∈ resets.map (fun r => r.Token) ∧
  ∀ r ∈ resets, r.Token = token → r.Status ≠ "active"

/-! ## `offchain/pkg/utils/hash.go`: the other digests and the HMAC -/

/-- The method `HashProvider.HashPassword(password)`. -/
def HashProvider.HashPassword (hp : HashProvider) (password : String) : String :=
  hexEncode ((List.finRange 32).map (hp.sha256 password))

/-- The method `HashProvider.HashToken(token)`. -/
def HashProvider.HashToken (hp : HashProvider) (token : String) : String :=
  hexEncode ((List.finRange 32).map (hp.sha256 token))

/-- The method `HashProvider.VerifyPassword(password, hash)`. -/
def HashProvider.VerifyPassword (hp : HashProvider) (password hash : String) : Bool :=
  decide (hp.HashPassword password = hash)

/-- The method `HashProvider.VerifyToken(token, hash)`. -/
def HashProvider.VerifyToken (hp : HashProvider) (token hash : String) : Bool :=
  decide (hp.HashToken token = hash)

/-- The standard-library function behind `hmac.New(sha256.New, secret)`, `Write`
and `Sum`: from the secret and the data to the bytes of the signature. It is a
parameter of the model. -/
abbrev HmacSha256 := List (Fin 256) → String → List (Fin 256)

/-- The method `HashProvider.GenerateHMAC(data)`. -/
def HashProvider.GenerateHMAC (hp : HashProvider) (mac : HmacSha256) (data : String) : String :=
  match hp.hmacSecret with
  | none => ""
  | some secret =>
    if secret.length = 0 then ""
    else hexEncode (mac secret data)

/-- The method `HashProvider.VerifyHMAC(data, signature)`. -/
def HashProvider.VerifyHMAC (hp : HashProvider) (mac : HmacSha256) (data signature : String) :
    Bool :=
  match hp.hmacSecret with
  | none => false
  | some secret =>
    if secret.length = 0 then false
    else decide (hp.GenerateHMAC mac data = signature)

/-! ## `offchain/api/handlers/notification_handler.go`: the reset token -/

/-- The function `generateResetToken()`: 32 bytes of the entropy source in
hexadecimal, and the result `uuid` of `uuid.NewString()` when the source
fails. -/
def generateResetToken (src : Entropy) (uuid : String) : String :=
  match randRead src 32 with
  | Except.error _ => uuid
  | Except.ok b => hexEncode b

/-! ## `offchain/pkg/auth/auth.go`

The library `golang-jwt/jwt/v4` is outside the repository. A signed token is
taken as its header algorithm, its claims and the key its signature was
computed with; the signature check of `jwt.Parse` under a key passes exactly
when that key is the key of the token. `Parse` validates the registered claims
`exp`, `nbf` and `iat` when they are present as numbers, and no other claim.
The function `config.Config(key)` is a parameter: the configuration, from
entry names to values.
-/

/-- The value of a claim: a string, a number or a list of strings. -/
inductive ClaimValue where
  | str (s : String)
  | num (n : Int)
  | strs (l : List String)
deriving DecidableEq, Repr

/-- The type `jwt.MapClaims`, as the list of its entries. -/
abbrev MapClaims := List (String × ClaimValue)

/-- A signed token. -/
structure Token where
  alg : String
  claims : MapClaims
  key : String
deriving DecidableEq, Repr

/-- The header `Authorization` of a request: absent or empty, a string that is
no token, or a token. -/
inductive Authorization where
  | missing
  | malformed
  | token (t : Token)
deriving DecidableEq, Repr

/-- The number under `name` in the claims, if there is one. -/
def numClaim (claims : MapClaims) (name : String) : Option Int :=
  match claims.lookup name with
  | some (ClaimValue.num n) => some n
  | _ => none

/-- The method `MapClaims.Valid()` of the library at the Unix time `nowUnix`:
`exp` not passed, `iat` and `nbf` not in the future, each only when present. -/
def claimsValid (nowUnix : Int) (claims : MapClaims) : Except String Unit :=
  if (match numClaim claims "exp" with
      | some exp => decide (exp < nowUnix)
      | none => false) = true then Except.error "Token is expired"
  else if (match numClaim claims "iat" with
      | some iat => decide (nowUnix < iat)
      | none => false) = true then Except.error "Token used before issued"
  else if (match numClaim claims "nbf" with
      | some nbf => decide (nowUnix < nbf)
      | none => false) = true then Except.error "Token is not valid yet"
  else Except.ok ()

/-- The test `token.Method.(*jwt.SigningMethodHMAC)`: the algorithm is one of the
HMAC family. -/
def isHMAC (alg : String) : Bool :=
  decide (alg = "HS256") || decide (alg = "HS384") || decide (alg = "HS512")

/-- The key function that `GetUserIDFromToken` and `VerifyFrontendToken` pass to
`jwt.Parse`. -/
def accessKeyFunc (config : String → String) (t : Token) : Except String String :=
  if isHMAC t.alg then Except.ok (config "JWT_SECRET")
  else Except.error "unexpected signing method"

/-- The call `jwt.Parse(tokenString, keyFunc)` at the clock reading `now`. -/
def jwtParse (now : Int) (keyFunc : Token → Except String String) (t : Token) :
    Except String Token :=
  match keyFunc t with
  | Except.error err => Except.error err
  | Except.ok key =>
    match claimsValid (now / Second) t.claims with
    | Except.error err => Except.error err
    | Except.ok _ =>
      if t.key = key then Except.ok t else Except.error "signature is invalid"

/-- The value of a string of decimal digits, after the digits read so far;
`none` when a character is no digit. -/
def decimalValue (acc : Nat) : List Char → Option Nat
  | [] => some acc
  | c :: rest =>
    if 48 ≤ c.toNat ∧ c.toNat ≤ 57 then decimalValue (acc * 10 + (c.toNat - 48)) rest
    else none

/-- The call `strconv.Atoi(s)` with its error dropped, for numbers in the int64
range: an optional sign and decimal digits give the number, every other string
gives 0. -/
def atoi (s : String) : Int :=
  match s.toList with
  | [] => 0
  | c :: rest =>
    if c = '-' then
      (if rest = [] then 0 else -(((decimalValue 0 rest).getD 0 : Nat) : Int))
    else if c = '+' then
      (if rest = [] then 0 else (((decimalValue 0 rest).getD 0 : Nat) : Int))
    else (((decimalValue 0 (c :: rest)).getD 0 : Nat) : Int)

/-- The function `GenerateNewAccessToken(id, roles)` at the clock reading `now`;
`SignedString` does not fail on a byte-slice key. -/
def GenerateNewAccessToken (config : String → String) (now : Int) (id : String)
    (roles : List String) : Token :=
  let secret := config "JWT_SECRET"
  let minutesCount := atoi (config "ACCESS_TOKEN_EXPIRATION")
  { alg := "HS256",
    claims := [("id", ClaimValue.str id), ("role", ClaimValue.strs roles),
      ("expires", ClaimValue.num ((now + Minute * minutesCount) / Second))],
    key := secret }

/-- The function `GenerateNewRefreshToken(id)` at the clock reading `now`. -/
def GenerateNewRefreshToken (config : String → String) (now : Int) (id : String) : Token :=
  let secret := config "JWT_REFRESH_SECRET"
  let hoursCount := atoi (config "REFRESH_TOKEN_EXPIRATION")
  { alg := "HS256",
    claims := [("id", ClaimValue.str id),
      ("expires", ClaimValue.num ((now + Hour * hoursCount) / Second))],
    key := secret }

/-- The function `GenerateFrontendToken()` at the clock reading `now`. -/
def GenerateFrontendToken (config : String → String) (now : Int) : Token :=
  let secret := config "JWT_SECRET"
  { alg := "HS256",
    claims := [("type", ClaimValue.str "frontend"),
      ("expires", ClaimValue.num ((now + Hour * 24) / Second))],
    key := secret }

/-- The function `GetUserIDFromToken(c)` at the clock reading `now`: the subject
id or an error; `none` is the panic of the type assertion `claims["id"].(string)`
on a claim that is absent or no string. -/
def GetUserIDFromToken (config : String → String) (now : Int) :
    Authorization → Option (Except String String)
  | Authorization.missing => some (Except.error "missing or malformed JWT")
  | Authorization.malformed => some (Except.error "token contains an invalid number of segments")
  | Authorization.token t =>
    match jwtParse now (accessKeyFunc config) t with
    | Except.error err => some (Except.error err)
    | Except.ok token =>
      match token.claims.lookup "id" with
      | some (ClaimValue.str id) => some (Except.ok id)
      | _ => none

/-- The function `VerifyFrontendToken(c)` at the clock readings `now1` (inside
`jwt.Parse`) and `now2` (for the expiry check): `Except.ok ()` is `c.Next()`, an
error is the status 401 with its message. The claims hold no fractional number,
so `int64(exp)` is the number itself. -/
def VerifyFrontendToken (config : String → String) (now1 now2 : Int) :
    Authorization → Except String Unit
  | Authorization.missing => Except.error "Missing Authorization header"
  | Authorization.malformed =>
    Except.error "Invalid token: token contains an invalid number of segments"
  | Authorization.token t =>
    match jwtParse now1 (accessKeyFunc config) t with
    | Except.error err => Except.error ("Invalid token: " ++ err)
    | Except.ok token =>
      match token.claims.lookup "type" with
      | some (ClaimValue.str tokenType) =>
        if tokenType ≠ "frontend" then Except.error "Invalid token type"
        else
          match numClaim token.claims "expires" with
          | some exp =>
            if now2 / Second > exp then Except.error "Token expired" else Except.ok ()
          | none => Except.ok ()
      | _ => Except.error "Invalid token type"

/-! ## `offchain/api/handlers/user_handler.go`: the checks of `UpdateUserRole` -/

/-- The function `IsValidRole(role)`. -/
def IsValidRole (role : String) : Bool :=
  (RoleHierarchy.lookup role).isSome

/-- The struct `UpdateUserRoleRequest`. -/
structure UpdateUserRoleRequest where
  UserID : Nat
  Roles : List String
deriving DecidableEq, Repr

/-- The loop of `UpdateUserRole` over the requested roles: the first role that
is not valid answers 400, the first that the actor cannot assign answers 403. -/
def checkNewRoles (highestRole : String) : List String → Except (Nat × String) Unit
  | [] => Except.ok ()
  | newRole :: rest =>
    if IsValidRole newRole = false then Except.error (400, "Invalid role: " ++ newRole)
    else if CanAssignRole highestRole newRole = false then
      Except.error (403, "You cannot assign role: " ++ newRole)
    else checkNewRoles highestRole rest

/-- The handler `UpdateUserRole` from the lookup of the acting user to the end
of its permission checks, over the results of its lookups: the roles of the
acting user (`none` when `First(&currentUser, userID)` finds no user), the
parsed request, and whether the target user is found. `Except.ok ()` is the
path that goes on to save the roles; an error is the status and message
answered. -/
def updateUserRoleChecks (currentUserRoles : Option (List String))
    (req : Except String UpdateUserRoleRequest) (targetFound : Bool) :
    Except (Nat × String) Unit :=
  match currentUserRoles with
  | none => Except.error (401, "Unauthorized")
  | some userRoles =>
    let highestRole := GetHighestRole userRoles
    let canManageRoles := decide (highestRole = SuperAdmin) || decide (highestRole = NLA)
      || decide (highestRole = Admin) || decide (highestRole = Manager)
    if canManageRoles = false then
      Except.error (403, "You don't have permission to manage roles")
    else
      match req with
      | Except.error err => Except.error (400, err)
      | Except.ok r =>
        if targetFound = false then Except.error (404, "User not found")
        else checkNewRoles highestRole r.Roles

/-- The handler `UpdateUserRole` up to the end of its permission checks. Its
first statement is `userIDStr := c.Locals("user_id").(string)`: `userIDLocal` is
the value of the local when it is a string and `none` when it is not (it is nil
when no middleware has set it), and then the type assertion panics, which is the
result `none`. The identifier parsed from the string only selects the acting
user, whose lookup result is the input `currentUserRoles`. -/
def UpdateUserRole (userIDLocal : Option String) (currentUserRoles : Option (List String))
    (req : Except String UpdateUserRoleRequest) (targetFound : Bool) :
    Option (Except (Nat × String) Unit) :=
  match userIDLocal with
  | none => none
  | some _ => some (updateUserRoleChecks currentUserRoles req targetFound)

/-! ## The sliding-window limiter: theorems -/

theorem validAttempts_append (ws : Int) (l1 l2 : List Int) :
    validAttempts ws (l1 ++ l2) = validAttempts ws l1 ++ validAttempts ws l2 := by
  unfold validAttempts
  exact List.filter_append _ _

theorem validAttempts_eq_self (ws : Int) (l : List Int) (h : ∀ x ∈ l, ws < x) :
    validAttempts ws l = l := by
  unfold validAttempts
  rw [List.filter_eq_self]
  intro x hx
  exact decide_eq_true (h x hx)

theorem validAttempts_idem (a b : Int) (hab : a ≤ b) (l : List Int) :
    validAttempts b (validAttempts a l) = validAttempts b l := by
  unfold validAttempts
  rw [List.filter_filter]
  apply List.filter_congr
  intro x _
  by_cases hx : b < x
  · have hax : a < x := lt_of_le_of_lt hab hx
    simp [hx, hax]
  · simp [hx]

theorem mem_validAttempts (ws x : Int) (l : List Int) :
    x ∈ validAttempts ws l ↔ x ∈ l ∧ ws < x := by
  unfold validAttempts
  simp [List.mem_filter]

/-- The allowing branch of `IsAllowed`. -/
theorem isAllowed_allow (rl : RateLimiter) (now : Int) (key : String)
    (h : ((validAttempts (now - rl.window) (rl.recorded key)).length : Int) < rl.limit) :
    ∃ rl1, rl.IsAllowed now key =
        some (⟨true,
          rl.limit - (((validAttempts (now - rl.window) (rl.recorded key)).length : Int) + 1),
          0⟩, rl1) ∧
      rl1.limit = rl.limit ∧ rl1.window = rl.window ∧
      rl1.recorded key = validAttempts (now - rl.window) (rl.recorded key) ++ [now] ∧
      ∀ k, k ≠ key → rl1.recorded k = rl.recorded k := by
  refine ⟨{ rl with attempts := fun k =>
      if k = key then some (validAttempts (now - rl.window) (rl.recorded key) ++ [now])
      else rl.attempts k }, ?_, rfl, rfl, ?_, ?_⟩
  · unfold RateLimiter.IsAllowed
    simp only [h, if_true, List.length_append, List.length_singleton, Nat.cast_add, Nat.cast_one]
  · simp [RateLimiter.recorded]
  · intro k hk
    simp [RateLimiter.recorded, hk]

/-- The refusing branch of `IsAllowed`, with at least one valid attempt. -/
theorem isAllowed_deny (rl : RateLimiter) (now : Int) (key : String)
    (oldestAttempt : Int) (others : List Int)
    (h : ¬ ((validAttempts (now - rl.window) (rl.recorded key)).length : Int) < rl.limit)
    (hv : validAttempts (now - rl.window) (rl.recorded key) = oldestAttempt :: others) :
    rl.IsAllowed now key = some (⟨false, 0, oldestAttempt + rl.window - now⟩, rl) := by
  have h1 := h
  rw [hv] at h1
  unfold RateLimiter.IsAllowed
  simp only [hv, h1, if_false]

/-- With a limit of at least 1, `IsAllowed` does not panic: it either allows and
records `now`, or refuses and leaves the limiter as it is. -/
theorem isAllowed_cases (rl : RateLimiter) (now : Int) (key : String) (hL : 1 ≤ rl.limit) :
    (((validAttempts (now - rl.window) (rl.recorded key)).length : Int) < rl.limit ∧
      ∃ v rl1, rl.IsAllowed now key = some (v, rl1) ∧ v.allowed = true ∧
        rl1.limit = rl.limit ∧ rl1.window = rl.window ∧
        rl1.recorded key = validAttempts (now - rl.window) (rl.recorded key) ++ [now] ∧
        ∀ k, k ≠ key → rl1.recorded k = rl.recorded k) ∨
    (∃ v, rl.IsAllowed now key = some (v, rl) ∧ v.allowed = false) := by
  by_cases h : ((validAttempts (now - rl.window) (rl.recorded key)).length : Int) < rl.limit
  · left
    obtain ⟨rl1, h1, h2, h3, h4, h5⟩ := isAllowed_allow rl now key h
    exact ⟨h, _, rl1, h1, rfl, h2, h3, h4, h5⟩
  · right
    cases hv : validAttempts (now - rl.window) (rl.recorded key) with
    | nil =>
      rw [hv] at h
      simp at h
      omega
    | cons oldestAttempt others =>
      exact ⟨_, isAllowed_deny rl now key oldestAttempt others h hv, rfl⟩

theorem recorded_reset_ne (rl : RateLimiter) (key k : String) (hk : k ≠ key) :
    (rl.Reset key).recorded k = rl.recorded k := by
  simp [RateLimiter.recorded, RateLimiter.Reset, hk]

theorem recorded_reset_self (rl : RateLimiter) (key : String) :
    (rl.Reset key).recorded key = [] := by
  simp [RateLimiter.recorded, RateLimiter.Reset]

theorem recorded_cleanupExpired (rl : RateLimiter) (now : Int) (key : String) :
    (rl.cleanupExpired now).recorded key = validAttempts (now - rl.window) (rl.recorded key) := by
  unfold RateLimiter.recorded RateLimiter.cleanupExpired
  cases h : rl.attempts key with
  | none => simp [h, validAttempts]
  | some attempts =>
    simp only [h, Option.getD_some]
    by_cases hv : (validAttempts (now - rl.window) attempts).length = 0
    · simp only [hv, if_true, Option.getD_none]
      exact (List.length_eq_zero.mp hv).symm
    · simp only [hv, if_false, Option.getD_some]

theorem allowedSince_append (log out : List Outcome) (key : String) (ws : Int) :
    allowedSince (log ++ out) key ws = allowedSince log key ws + allowedSince out key ws := by
  unfold allowedSince
  exact List.countP_append _ _ _

theorem allowedWithin_append (log out : List Outcome) (key : String) (W t : Int) :
    allowedWithin (log ++ out) key W t = allowedWithin log key W t + allowedWithin out key W t := by
  unfold allowedWithin
  exact List.countP_append _ _ _

theorem allowedWithin_le_allowedSince (log : List Outcome) (key : String) (W t ws : Int)
    (h : ws ≤ t - W) : allowedWithin log key W t ≤ allowedSince log key ws := by
  unfold allowedWithin allowedSince
  apply List.countP_mono_left
  intro o _ ho
  simp only [Bool.and_eq_true, decide_eq_true_eq] at ho ⊢
  exact ⟨⟨ho.1.1.1, ho.1.1.2⟩, lt_of_le_of_lt h ho.1.2⟩

theorem allowedSince_other (now : Int) (k key : String) (v : Verdict) (ws : Int)
    (h : k ≠ key ∨ v.allowed = false) : allowedSince [⟨now, k, v⟩] key ws = 0 := by
  unfold allowedSince
  rcases h with h | h
  · simp [List.countP_cons, h]
  · simp [List.countP_cons, h]

theorem allowedWithin_other (now : Int) (k key : String) (v : Verdict) (W t : Int)
    (h : k ≠ key ∨ v.allowed = false) : allowedWithin [⟨now, k, v⟩] key W t = 0 := by
  unfold allowedWithin
  rcases h with h | h
  · simp [List.countP_cons, h]
  · simp [List.countP_cons, h]

theorem allowedWithin_single_le (o : Outcome) (key : String) (W t : Int) :
    allowedWithin [o] key W t ≤ 1 := by
  unfold allowedWithin
  exact le_trans (List.countP_le_length _) (by simp)

theorem allowedWithin_single_out (now : Int) (k key : String) (v : Verdict) (W t : Int)
    (h : ¬ (t - W < now ∧ now ≤ t)) : allowedWithin [⟨now, k, v⟩] key W t = 0 := by
  unfold allowedWithin
  rw [List.countP_eq_zero]
  intro o ho
  rw [List.mem_singleton.mp ho]
  simp only [Bool.and_eq_true, decide_eq_true_eq]
  intro h1
  exact h ⟨h1.1.2, h1.2⟩

theorem allowedSince_single (now : Int) (key : String) (v : Verdict) (ws : Int)
    (hv : v.allowed = true) :
    allowedSince [⟨now, key, v⟩] key ws = (validAttempts ws [now]).length := by
  unfold allowedSince validAttempts
  by_cases h : ws < now
  · simp [List.countP_cons, hv, h]
  · simp [List.countP_cons, hv, h]

/-- One call other than a `Reset` of `key`, at a clock reading not before `c`,
does not panic and keeps the window invariant. -/
theorem windowInv_step (L W : Int) (hL : 1 ≤ L) (key : String) (c : Int)
    (rl : RateLimiter) (log : List Outcome) (hinv : WindowInv L W key c rl log)
    (now : Int) (hc : c ≤ now) (call : Call) (hcall : call ≠ Call.Reset key) :
    ∃ rl1 out, rl.step now call = some (rl1, out) ∧ WindowInv L W key now rl1 (log ++ out) := by
  obtain ⟨hl, hw, h3, h4⟩ := hinv
  cases call with
  | IsAllowed k =>
    rcases isAllowed_cases rl now k (by rw [hl]; exact hL) with
      ⟨hlt, v, rl1, hres, hv, hl1, hw1, hrec, hoth⟩ | ⟨v, hres, hv⟩
    · refine ⟨rl1, [⟨now, k, v⟩], by simp [RateLimiter.step, hres], ?_⟩
      by_cases hk : k = key
      · subst hk
        rw [hw] at hrec hlt
        refine ⟨by rw [hl1, hl], by rw [hw1, hw], ?_, ?_⟩
        · intro now2 h2
          rw [hrec, validAttempts_append, validAttempts_idem _ _ (by omega),
            List.length_append, allowedSince_append, h3 now2 (le_trans hc h2),
            allowedSince_single _ _ _ _ hv]
        · intro t
          rw [allowedWithin_append]
          by_cases hin : t - W < now ∧ now ≤ t
          · have h5 := allowedWithin_le_allowedSince log k W t (now - W) (by omega)
            rw [← h3 now hc] at h5
            have h6 := allowedWithin_single_le ⟨now, k, v⟩ k W t
            rw [hl] at hlt
            push_cast
            omega
          · rw [allowedWithin_single_out _ _ _ _ _ _ hin]
            simpa using h4 t
      · have hrk : rl1.recorded key = rl.recorded key := hoth key (fun h => hk h.symm)
        refine ⟨by rw [hl1, hl], by rw [hw1, hw], ?_, ?_⟩
        · intro now2 h2
          rw [hrk, allowedSince_append, allowedSince_other _ _ _ _ _ (Or.inl hk),
            h3 now2 (le_trans hc h2)]
          rfl
        · intro t
          rw [allowedWithin_append, allowedWithin_other _ _ _ _ _ _ (Or.inl hk)]
          simpa using h4 t
    · refine ⟨rl, [⟨now, k, v⟩], by simp [RateLimiter.step, hres], hl, hw, ?_, ?_⟩
      · intro now2 h2
        rw [allowedSince_append, allowedSince_other _ _ _ _ _ (Or.inr hv),
          h3 now2 (le_trans hc h2)]
        rfl
      · intro t
        rw [allowedWithin_append, allowedWithin_other _ _ _ _ _ _ (Or.inr hv)]
        simpa using h4 t
  | Reset k =>
    have hk : key ≠ k := fun h => hcall (by rw [h])
    refine ⟨rl.Reset k, [], rfl, hl, hw, ?_, ?_⟩
    · intro now2 h2
      rw [recorded_reset_ne rl k key hk, List.append_nil]
      exact h3 now2 (le_trans hc h2)
    · intro t
      rw [List.append_nil]
      exact h4 t
  | cleanupExpired =>
    refine ⟨rl.cleanupExpired now, [], rfl, hl, hw, ?_, ?_⟩
    · intro now2 h2
      rw [recorded_cleanupExpired, hw, validAttempts_idem _ _ (by omega), List.append_nil]
      exact h3 now2 (le_trans hc h2)
    · intro t
      rw [List.append_nil]
      exact h4 t

/-- A run of calls at non-decreasing clock readings, none before `c` and none a
`Reset` of `key`, does not panic and keeps the window invariant. -/
theorem windowInv_run (L W : Int) (hL : 1 ≤ L) (key : String) (calls : List (Int × Call)) :
    ∀ (c : Int) (rl : RateLimiter) (log : List Outcome), WindowInv L W key c rl log →
      (∀ p ∈ calls, c ≤ p.1) → NonDecreasing calls →
      (∀ p ∈ calls, p.2 ≠ Call.Reset key) →
      ∃ rl1 log1 c1, rl.run log calls = some (rl1, log1) ∧ WindowInv L W key c1 rl1 log1 := by
  induction calls with
  | nil =>
    intro c rl log hinv _ _ _
    exact ⟨rl, log, c, rfl, hinv⟩
  | cons p rest ih =>
    intro c rl log hinv hc hmono hreset
    obtain ⟨now, call⟩ := p
    obtain ⟨rl1, out, hstep, hinv1⟩ := windowInv_step L W hL key c rl log hinv now
      (hc (now, call) (List.mem_cons_self _ _)) call (hreset (now, call) (List.mem_cons_self _ _))
    have hp := List.pairwise_cons.mp hmono
    obtain ⟨rl2, log2, c2, hrun, hinv2⟩ := ih now rl1 (log ++ out) hinv1
      (fun q hq => hp.1 q hq) hp.2 (fun q hq => hreset q (List.mem_cons_of_mem _ hq))
    refine ⟨rl2, log2, c2, ?_, hinv2⟩
    simp only [RateLimiter.run, hstep]
    exact hrun

theorem windowInv_new (L W : Int) (hL : 1 ≤ L) (key : String) (c : Int) :
    WindowInv L W key c (NewRateLimiter L W) [] := by
  refine ⟨rfl, rfl, ?_, ?_⟩
  · intro now _
    rfl
  · intro t
    simp [allowedWithin]
    omega

/-- C1. Sliding-window bound. For a limiter built with a limit `L ≥ 1` and a
window `W > 0`, every key and every sequence of calls made at non-decreasing
clock readings that holds no `Reset` of that key, the run completes and, for
every instant `t`, at most `L` of its `IsAllowed` calls for the key answered
`allowed = true` at a clock reading in `(t - W, t]`. -/
theorem sliding_window_bound (L W : Int) (hL : 1 ≤ L) (hW : 0 < W) (key : String)
    (calls : List (Int × Call)) (hmono : NonDecreasing calls)
    (hreset : ∀ p ∈ calls, p.2 ≠ Call.Reset key) :
    ∃ rl log, (NewRateLimiter L W).run [] calls = some (rl, log) ∧
      ∀ t : Int, (allowedWithin log key W t : Int) ≤ L := by
  have _ := hW
  cases calls with
  | nil =>
    exact ⟨NewRateLimiter L W, [], rfl, (windowInv_new L W hL key 0).2.2.2⟩
  | cons p rest =>
    obtain ⟨rl, log, c, hrun, hinv⟩ := windowInv_run L W hL key (p :: rest) p.1
      (NewRateLimiter L W) [] (windowInv_new L W hL key p.1)
      (by
        intro q hq
        rcases List.mem_cons.mp hq with hq | hq
        · rw [hq]
        · exact (List.pairwise_cons.mp hmono).1 q hq)
      hmono hreset
    exact ⟨rl, log, hrun, hinv.2.2.2⟩

/-- Witness of `sliding_window_bound`: a limit of 2 over a window of 10, three
calls inside one window, a sweep and a call after the window has moved on. -/
theorem sliding_window_bound_witness :
    (1 : Int) ≤ 2 ∧ (0 : Int) < 10 ∧
    NonDecreasing [(0, Call.IsAllowed "k"), (1, Call.IsAllowed "k"), (2, Call.IsAllowed "k"),
      (11, Call.cleanupExpired), (11, Call.IsAllowed "k")] ∧
    (∀ p ∈ [(0, Call.IsAllowed "k"), (1, Call.IsAllowed "k"), (2, Call.IsAllowed "k"),
      (11, Call.cleanupExpired), (11, Call.IsAllowed "k")], p.2 ≠ Call.Reset "k") ∧
    ∃ rl log, (NewRateLimiter 2 10).run []
        [(0, Call.IsAllowed "k"), (1, Call.IsAllowed "k"), (2, Call.IsAllowed "k"),
          (11, Call.cleanupExpired), (11, Call.IsAllowed "k")] = some (rl, log) ∧
      ∀ t : Int, (allowedWithin log "k" 10 t : Int) ≤ 2 :=
  ⟨by decide, by decide, by unfold NonDecreasing; decide, by decide,
    sliding_window_bound 2 10 (by decide) (by decide) "k" _
      (by unfold NonDecreasing; decide) (by decide)⟩

/-- What a returning `IsAllowed` call did: it allowed and recorded `now` after
the valid attempts, or it refused, left the limiter as it was and computed
`retryAfter` from the first valid attempt. -/
theorem isAllowed_some (rl : RateLimiter) (now : Int) (key : String) (v : Verdict)
    (rl1 : RateLimiter) (h : rl.IsAllowed now key = some (v, rl1)) :
    (v.allowed = true ∧ rl1.window = rl.window ∧
      rl1.recorded key = validAttempts (now - rl.window) (rl.recorded key) ++ [now] ∧
      ∀ k, k ≠ key → rl1.recorded k = rl.recorded k) ∨
    (v.allowed = false ∧ rl1 = rl ∧
      ∃ oldestAttempt others,
        validAttempts (now - rl.window) (rl.recorded key) = oldestAttempt :: others ∧
        v.retryAfter = oldestAttempt + rl.window - now) := by
  by_cases hlt : ((validAttempts (now - rl.window) (rl.recorded key)).length : Int) < rl.limit
  · left
    obtain ⟨rl2, h1, _, h3, h4, h5⟩ := isAllowed_allow rl now key hlt
    rw [h1] at h
    injection h with h
    injection h with hv hr
    subst hv
    subst hr
    exact ⟨rfl, h3, h4, h5⟩
  · right
    cases hv : validAttempts (now - rl.window) (rl.recorded key) with
    | nil =>
      unfold RateLimiter.IsAllowed at h
      rw [hv] at hlt
      simp only [hv, hlt, if_false] at h
      cases h
    | cons oldestAttempt others =>
      rw [isAllowed_deny rl now key oldestAttempt others hlt hv] at h
      injection h with h
      injection h with hv1 hr
      subst hv1
      subst hr
      exact ⟨rfl, rfl, oldestAttempt, others, rfl, rfl⟩

theorem validAttempts_pairwise (ws : Int) (l : List Int)
    (h : l.Pairwise (fun a b => a ≤ b)) : (validAttempts ws l).Pairwise (fun a b => a ≤ b) := by
  unfold validAttempts
  exact h.sublist (List.filter_sublist l)

theorem orderedInv_mono (W c c1 : Int) (hc : c ≤ c1) (rl : RateLimiter)
    (h : OrderedInv W c rl) : OrderedInv W c1 rl :=
  ⟨h.1, fun key => ⟨(h.2 key).1, fun x hx => le_trans ((h.2 key).2 x hx) hc⟩⟩

/-- One call at a clock reading not before `c` keeps the stored attempts in
order. -/
theorem orderedInv_step (W c : Int) (rl : RateLimiter) (hinv : OrderedInv W c rl)
    (now : Int) (hc : c ≤ now) (call : Call) (rl1 : RateLimiter) (out : List Outcome)
    (hstep : rl.step now call = some (rl1, out)) : OrderedInv W now rl1 := by
  cases call with
  | IsAllowed k =>
    unfold RateLimiter.step at hstep
    cases hres : rl.IsAllowed now k with
    | none => simp [hres] at hstep
    | some r =>
      obtain ⟨v, rl2⟩ := r
      simp only [hres, Option.some.injEq, Prod.mk.injEq] at hstep
      obtain ⟨hrl, _⟩ := hstep
      subst hrl
      rcases isAllowed_some rl now k v rl2 hres with ⟨_, hw, hrec, hoth⟩ | ⟨_, heq, _⟩
      · refine ⟨by rw [hw]; exact hinv.1, ?_⟩
        intro key
        by_cases hk : key = k
        · subst hk
          rw [hrec]
          constructor
          · rw [List.pairwise_append]
            refine ⟨validAttempts_pairwise _ _ (hinv.2 key).1, List.pairwise_singleton _ _, ?_⟩
            intro a ha b hb
            rw [List.mem_singleton.mp hb]
            exact le_trans ((hinv.2 key).2 a ((mem_validAttempts _ _ _).mp ha).1) hc
          · intro x hx
            rcases List.mem_append.mp hx with hx | hx
            · exact le_trans ((hinv.2 key).2 x ((mem_validAttempts _ _ _).mp hx).1) hc
            · rw [List.mem_singleton.mp hx]
        · rw [hoth key hk]
          exact (orderedInv_mono W c now hc rl hinv).2 key
      · rw [heq]
        exact orderedInv_mono W c now hc rl hinv
  | Reset k =>
    simp only [RateLimiter.step, Option.some.injEq, Prod.mk.injEq] at hstep
    obtain ⟨hrl, _⟩ := hstep
    subst hrl
    refine ⟨hinv.1, ?_⟩
    intro key
    by_cases hk : key = k
    · subst hk
      rw [recorded_reset_self]
      exact ⟨List.Pairwise.nil, fun x hx => by cases hx⟩
    · rw [recorded_reset_ne rl k key hk]
      exact (orderedInv_mono W c now hc rl hinv).2 key
  | cleanupExpired =>
    simp only [RateLimiter.step, Option.some.injEq, Prod.mk.injEq] at hstep
    obtain ⟨hrl, _⟩ := hstep
    subst hrl
    refine ⟨hinv.1, ?_⟩
    intro key
    rw [recorded_cleanupExpired]
    exact ⟨validAttempts_pairwise _ _ (hinv.2 key).1,
      fun x hx => le_trans ((hinv.2 key).2 x ((mem_validAttempts _ _ _).mp hx).1) hc⟩

/-- A run of calls at non-decreasing clock readings between `c` and `bound`
keeps the stored attempts in order and not later than `bound`. -/
theorem orderedInv_run (W bound : Int) (calls : List (Int × Call)) :
    ∀ (c : Int) (rl : RateLimiter) (log : List Outcome), OrderedInv W c rl → c ≤ bound →
      (∀ p ∈ calls, c ≤ p.1 ∧ p.1 ≤ bound) → NonDecreasing calls →
      ∀ rl1 log1, rl.run log calls = some (rl1, log1) → OrderedInv W bound rl1 := by
  induction calls with
  | nil =>
    intro c rl log hinv hcb _ _ rl1 log1 hrun
    simp only [RateLimiter.run, Option.some.injEq, Prod.mk.injEq] at hrun
    rw [← hrun.1]
    exact orderedInv_mono W c bound hcb rl hinv
  | cons p rest ih =>
    intro c rl log hinv hcb hrange hmono rl1 log1 hrun
    obtain ⟨now, call⟩ := p
    have hp := List.pairwise_cons.mp hmono
    have hnow := hrange (now, call) (List.mem_cons_self _ _)
    unfold RateLimiter.run at hrun
    cases hstep : rl.step now call with
    | none => simp [hstep] at hrun
    | some r =>
      obtain ⟨rl2, out⟩ := r
      simp only [hstep] at hrun
      exact ih now rl2 (log ++ out) (orderedInv_step W c rl hinv now hnow.1 call rl2 out hstep)
        hnow.2 (fun q hq => ⟨hp.1 q hq, (hrange q (List.mem_cons_of_mem _ hq)).2⟩) hp.2
        rl1 log1 hrun

theorem orderedInv_new (L W c : Int) : OrderedInv W c (NewRateLimiter L W) :=
  ⟨rfl, fun _ => ⟨List.Pairwise.nil, fun x hx => by cases hx⟩⟩

/-- C3. In every state reached from a new limiter by `IsAllowed`, `Reset` and
`cleanupExpired` calls at non-decreasing clock readings, an `IsAllowed(key)`
call at a clock reading `now` not before them that answers `allowed = false`
returns `retryAfter = oldest + window - now`, where `oldest` is the least of the
timestamps recorded for `key` that are strictly later than `now - window`. -/
theorem isAllowed_retryAfter (limit window : Int) (calls : List (Int × Call))
    (hmono : NonDecreasing calls) (now : Int) (hnow : ∀ p ∈ calls, p.1 ≤ now)
    (rl : RateLimiter) (log : List Outcome)
    (hrun : (NewRateLimiter limit window).run [] calls = some (rl, log))
    (key : String) (v : Verdict) (rl1 : RateLimiter)
    (hres : rl.IsAllowed now key = some (v, rl1)) (hden : v.allowed = false) :
    ∃ oldest, oldest ∈ rl.recorded key ∧ now - window < oldest ∧
      (∀ x ∈ rl.recorded key, now - window < x → oldest ≤ x) ∧
      v.retryAfter = oldest + window - now := by
  have hinv : OrderedInv window now rl := by
    cases calls with
    | nil =>
      simp only [RateLimiter.run, Option.some.injEq, Prod.mk.injEq] at hrun
      rw [← hrun.1]
      exact orderedInv_new limit window now
    | cons p rest =>
      exact orderedInv_run window now (p :: rest) p.1 (NewRateLimiter limit window) []
        (orderedInv_new limit window p.1) (hnow p (List.mem_cons_self _ _))
        (by
          intro q hq
          refine ⟨?_, hnow q hq⟩
          rcases List.mem_cons.mp hq with hq | hq
          · rw [hq]
          · exact (List.pairwise_cons.mp hmono).1 q hq)
        hmono rl log hrun
  obtain ⟨hw, hord⟩ := hinv
  rcases isAllowed_some rl now key v rl1 hres with ⟨hal, _⟩ | ⟨_, _, oldest, others, hvalid, hretry⟩
  · rw [hal] at hden
    cases hden
  · rw [hw] at hvalid hretry
    have hmem : oldest ∈ validAttempts (now - window) (rl.recorded key) := by
      rw [hvalid]
      exact List.mem_cons_self _ _
    have hsorted := validAttempts_pairwise (now - window) _ (hord key).1
    rw [hvalid] at hsorted
    refine ⟨oldest, ((mem_validAttempts _ _ _).mp hmem).1, ((mem_validAttempts _ _ _).mp hmem).2,
      ?_, hretry⟩
    intro x hx hlt
    have hxv : x ∈ validAttempts (now - window) (rl.recorded key) :=
      (mem_validAttempts _ _ _).mpr ⟨hx, hlt⟩
    rw [hvalid] at hxv
    rcases List.mem_cons.mp hxv with hxv | hxv
    · rw [hxv]
    · exact (List.pairwise_cons.mp hsorted).1 x hxv

/-- Witness of `isAllowed_retryAfter`: a limit of 1 over a window of 10, one
allowed call at clock 0 and a refused call at clock 5, with `retryAfter = 5`. -/
theorem isAllowed_retryAfter_witness :
    NonDecreasing [(0, Call.IsAllowed "k")] ∧
    (∀ p ∈ [((0 : Int), Call.IsAllowed "k")], p.1 ≤ 5) ∧
    (NewRateLimiter 1 10).run [] [(0, Call.IsAllowed "k")] =
      some (⟨fun k => if k = "k" then some [0] else none, 1, 10⟩, [⟨0, "k", ⟨true, 0, 0⟩⟩]) ∧
    RateLimiter.IsAllowed ⟨fun k => if k = "k" then some [0] else none, 1, 10⟩ 5 "k" =
      some (⟨false, 0, 5⟩, ⟨fun k => if k = "k" then some [0] else none, 1, 10⟩) ∧
    ∃ oldest,
      oldest ∈ RateLimiter.recorded ⟨fun k => if k = "k" then some [0] else none, 1, 10⟩ "k" ∧
      5 - 10 < oldest ∧
      (∀ x ∈ RateLimiter.recorded ⟨fun k => if k = "k" then some [0] else none, 1, 10⟩ "k",
        5 - 10 < x → oldest ≤ x) ∧
      (5 : Int) = oldest + 10 - 5 :=
  ⟨by unfold NonDecreasing; decide, by decide, rfl, rfl,
    isAllowed_retryAfter 1 10 [(0, Call.IsAllowed "k")] (by unfold NonDecreasing; decide) 5
      (by decide) ⟨fun k => if k = "k" then some [0] else none, 1, 10⟩ [⟨0, "k", ⟨true, 0, 0⟩⟩]
      rfl "k" ⟨false, 0, 5⟩ ⟨fun k => if k = "k" then some [0] else none, 1, 10⟩ rfl rfl⟩

/-- An `IsAllowed` call for a key whose recorded attempts `ts` are all inside
the window and fewer than the limit: it allows and records `now` after them. -/
theorem isAllowed_under_limit (rl : RateLimiter) (now : Int) (key : String) (ts : List Int)
    (remaining : Int) (hrec : rl.recorded key = ts) (hvalid : ∀ x ∈ ts, now - rl.window < x)
    (hlen : (ts.length : Int) < rl.limit)
    (hrem : remaining = rl.limit - ((ts.length : Int) + 1)) :
    ∃ rl1, rl.IsAllowed now key = some (⟨true, remaining, 0⟩, rl1) ∧
      rl1.limit = rl.limit ∧ rl1.window = rl.window ∧ rl1.recorded key = ts ++ [now] := by
  have hv : validAttempts (now - rl.window) (rl.recorded key) = ts := by
    rw [hrec]
    exact validAttempts_eq_self _ _ hvalid
  obtain ⟨rl1, h1, h2, h3, h4, _⟩ := isAllowed_allow rl now key (by rw [hv]; exact hlen)
  rw [hv] at h1 h4
  exact ⟨rl1, by rw [h1, hrem], h2, h3, h4⟩

/-- C2. With a limit of 5 and a window of 15 minutes, for a key with no recorded
attempts, five successive `IsAllowed(key)` calls at non-decreasing clock
readings each answer `allowed = true` (with 4, 3, 2, 1 and 0 remaining), and a
sixth call made less than 15 minutes after the first answers `allowed = false`
with `retryAfter > 0`. -/
theorem five_allowed_sixth_refused (rl : RateLimiter) (hl : rl.limit = 5)
    (hw : rl.window = 15 * Minute) (key : String) (hfresh : rl.recorded key = [])
    (t1 t2 t3 t4 t5 t6 : Int) (h12 : t1 ≤ t2) (h23 : t2 ≤ t3) (h34 : t3 ≤ t4) (h45 : t4 ≤ t5)
    (h56 : t5 ≤ t6) (h61 : t6 < t1 + 15 * Minute) :
    ∃ rl6 retryAfter,
      rl.run [] [(t1, Call.IsAllowed key), (t2, Call.IsAllowed key), (t3, Call.IsAllowed key),
          (t4, Call.IsAllowed key), (t5, Call.IsAllowed key), (t6, Call.IsAllowed key)] =
        some (rl6, [⟨t1, key, ⟨true, 4, 0⟩⟩, ⟨t2, key, ⟨true, 3, 0⟩⟩, ⟨t3, key, ⟨true, 2, 0⟩⟩,
          ⟨t4, key, ⟨true, 1, 0⟩⟩, ⟨t5, key, ⟨true, 0, 0⟩⟩, ⟨t6, key, ⟨false, 0, retryAfter⟩⟩]) ∧
      0 < retryAfter := by
  obtain ⟨rl1, e1, l1, w1, r1⟩ := isAllowed_under_limit rl t1 key [] 4 hfresh
    (by intro x hx; cases hx) (by rw [hl]; decide) (by rw [hl]; rfl)
  rw [hl] at l1
  rw [hw] at w1
  obtain ⟨rl2, e2, l2, w2, r2⟩ := isAllowed_under_limit rl1 t2 key _ 3 r1
    (by
      intro x hx
      simp only [List.nil_append, List.mem_singleton] at hx
      rw [w1]; omega)
    (by rw [l1]; simp) (by rw [l1]; rfl)
  rw [l1] at l2
  rw [w1] at w2
  obtain ⟨rl3, e3, l3, w3, r3⟩ := isAllowed_under_limit rl2 t3 key _ 2 r2
    (by
      intro x hx
      simp only [List.nil_append, List.singleton_append, List.mem_cons, List.mem_singleton,
        List.not_mem_nil, or_false] at hx
      rw [w2]; omega)
    (by rw [l2]; simp) (by rw [l2]; rfl)
  rw [l2] at l3
  rw [w2] at w3
  obtain ⟨rl4, e4, l4, w4, r4⟩ := isAllowed_under_limit rl3 t4 key _ 1 r3
    (by
      intro x hx
      simp only [List.nil_append, List.singleton_append, List.cons_append, List.mem_cons,
        List.mem_singleton, List.not_mem_nil, or_false] at hx
      rw [w3]; omega)
    (by rw [l3]; simp) (by rw [l3]; rfl)
  rw [l3] at l4
  rw [w3] at w4
  obtain ⟨rl5, e5, l5, w5, r5⟩ := isAllowed_under_limit rl4 t5 key _ 0 r4
    (by
      intro x hx
      simp only [List.nil_append, List.singleton_append, List.cons_append, List.mem_cons,
        List.mem_singleton, List.not_mem_nil, or_false] at hx
      rw [w4]; omega)
    (by rw [l4]; simp) (by rw [l4]; rfl)
  rw [l4] at l5
  rw [w4] at w5
  have hv : validAttempts (t6 - rl5.window) (rl5.recorded key) = t1 :: [t2, t3, t4, t5] := by
    rw [r5]
    apply validAttempts_eq_self
    intro x hx
    simp only [List.nil_append, List.singleton_append, List.cons_append, List.mem_cons,
      List.mem_singleton, List.not_mem_nil, or_false] at hx
    rw [w5]; omega
  have e6 := isAllowed_deny rl5 t6 key t1 [t2, t3, t4, t5]
    (by rw [hv, l5]; simp) hv
  refine ⟨rl5, t1 + rl5.window - t6, ?_, by rw [w5]; omega⟩
  simp [RateLimiter.run, RateLimiter.step, e1, e2, e3, e4, e5, e6]

/-- Witness of `five_allowed_sixth_refused`: a new limiter, calls at minutes
0, 1, 2, 3, 4 and 14. -/
theorem five_allowed_sixth_refused_witness :
    (NewRateLimiter 5 (15 * Minute)).limit = 5 ∧
    (NewRateLimiter 5 (15 * Minute)).window = 15 * Minute ∧
    (NewRateLimiter 5 (15 * Minute)).recorded "k" = [] ∧
    (0 : Int) ≤ 1 * Minute ∧ 1 * Minute ≤ 2 * Minute ∧ 2 * Minute ≤ 3 * Minute ∧
    3 * Minute ≤ 4 * Minute ∧ 4 * Minute ≤ 14 * Minute ∧ 14 * Minute < 0 + 15 * Minute ∧
    ∃ rl6 retryAfter,
      (NewRateLimiter 5 (15 * Minute)).run []
          [(0, Call.IsAllowed "k"), (1 * Minute, Call.IsAllowed "k"),
            (2 * Minute, Call.IsAllowed "k"), (3 * Minute, Call.IsAllowed "k"),
            (4 * Minute, Call.IsAllowed "k"), (14 * Minute, Call.IsAllowed "k")] =
        some (rl6, [⟨0, "k", ⟨true, 4, 0⟩⟩, ⟨1 * Minute, "k", ⟨true, 3, 0⟩⟩,
          ⟨2 * Minute, "k", ⟨true, 2, 0⟩⟩, ⟨3 * Minute, "k", ⟨true, 1, 0⟩⟩,
          ⟨4 * Minute, "k", ⟨true, 0, 0⟩⟩, ⟨14 * Minute, "k", ⟨false, 0, retryAfter⟩⟩]) ∧
      0 < retryAfter :=
  ⟨rfl, rfl, rfl, by decide, by decide, by decide, by decide, by decide, by decide,
    five_allowed_sixth_refused (NewRateLimiter 5 (15 * Minute)) rfl rfl "k" rfl
      0 (1 * Minute) (2 * Minute) (3 * Minute) (4 * Minute) (14 * Minute)
      (by decide) (by decide) (by decide) (by decide) (by decide) (by decide)⟩

/-! ## The resend cooldown: theorems -/

theorem ceilSeconds_spec (d n : Int) :
    ceilSeconds d = n ↔ (n - 1) * Second < d ∧ d ≤ n * Second := by
  unfold ceilSeconds Second
  constructor
  · intro h
    constructor <;> omega
  · intro h
    omega

/-- C4. `CanResend(key)` at clock `now` allows exactly when no timestamp is
recorded for `key` or `now` is strictly after `lastTimestamp + duration`; with a
duration of two minutes a fresh key is allowed, and thirty seconds after
`SetCooldown(key)` the key is disallowed. -/
theorem canResend_iff :
    (∀ (rc : ResendCooldown) (now : Int) (key : String),
      (rc.CanResend now key).1 = true ↔
        (rc.cooldown key = none ∨
          ∃ lastTimestamp, rc.cooldown key = some lastTimestamp ∧
            now > lastTimestamp + rc.duration)) ∧
    (∀ (now : Int) (key : String),
      ((NewResendCooldown (2 * Minute)).CanResend now key).1 = true) ∧
    (∀ (cooldown : String → Option Int) (t : Int) (key : String),
      ((ResendCooldown.SetCooldown ⟨cooldown, 2 * Minute⟩ t key).CanResend
        (t + 30 * Second) key).1 = false) := by
  refine ⟨?_, ?_, ?_⟩
  · intro rc now key
    unfold ResendCooldown.CanResend
    cases h : rc.cooldown key with
    | none => simp
    | some lastSend =>
      by_cases hlt : lastSend + rc.duration < now
      · simp [hlt]
      · simp [hlt]
  · intro now key
    simp [ResendCooldown.CanResend, NewResendCooldown]
  · intro cooldown t key
    simp [ResendCooldown.CanResend, ResendCooldown.SetCooldown, Minute, Second]

/-- C5, refuted as stated. Two minutes of cooldown set at clock 0 and asked
about at 30.5 seconds leave 89.5 seconds: `CanResend` answers 89, and the
remaining time rounded up to whole seconds is 90. -/
theorem canResend_not_ceiling :
    ((NewResendCooldown (2 * Minute)).SetCooldown 0 "k").CanResend 30500000000 "k" = (false, 89) ∧
    ceilSeconds (0 + 2 * Minute - 30500000000) = 90 ∧
    ¬ (∀ (rc : ResendCooldown) (now : Int) (key : String) (lastTimestamp : Int),
        rc.cooldown key = some lastTimestamp → (rc.CanResend now key).1 = false →
        (rc.CanResend now key).2 = ceilSeconds (lastTimestamp + rc.duration - now)) := by
  refine ⟨by decide, by decide, ?_⟩
  intro h
  have h1 := h ((NewResendCooldown (2 * Minute)).SetCooldown 0 "k") 30500000000 "k" 0
    (by decide) (by decide)
  revert h1
  decide

/-- C5, amended. Whenever `CanResend(key)` disallows and the remaining time
is below `2^24` seconds (the range in which the conversion to whole seconds is
exact), a timestamp is recorded, the remaining time
`lastTimestamp + duration - now` is not negative, and the returned
`secondsUntil` is the remaining time rounded down to whole seconds; it is the
rounded-up value exactly when the remaining time is a whole number of
seconds. -/
theorem canResend_seconds_floor (rc : ResendCooldown) (now : Int) (key : String)
    (h : (rc.CanResend now key).1 = false)
    (hbound : ∀ lastTimestamp, rc.cooldown key = some lastTimestamp →
      lastTimestamp + rc.duration - now < exactSecondsBound) :
    ∃ lastTimestamp, rc.cooldown key = some lastTimestamp ∧
      0 ≤ lastTimestamp + rc.duration - now ∧
      lastTimestamp + rc.duration - now < exactSecondsBound ∧
      (rc.CanResend now key).2 * Second ≤ lastTimestamp + rc.duration - now ∧
      lastTimestamp + rc.duration - now < ((rc.CanResend now key).2 + 1) * Second ∧
      ((rc.CanResend now key).2 = ceilSeconds (lastTimestamp + rc.duration - now) ↔
        (lastTimestamp + rc.duration - now) % Second = 0) := by
  unfold ResendCooldown.CanResend at h ⊢
  cases hc : rc.cooldown key with
  | none => simp [hc] at h
  | some lastSend =>
    refine ⟨lastSend, rfl, ?_⟩
    have hb := hbound lastSend hc
    by_cases hlt : lastSend + rc.duration < now
    · simp [hc, hlt] at h
    · have h0 : 0 ≤ lastSend + rc.duration - now := by omega
      simp only [hlt, if_false]
      generalize lastSend + rc.duration - now = d at h0 hb
      have ht : wholeSeconds d = d / Second := by
        unfold wholeSeconds
        exact Int.tdiv_eq_ediv h0 (by decide)
      rw [ht]
      unfold ceilSeconds Second
      refine ⟨h0, hb, ?_, ?_, ?_⟩
      · omega
      · omega
      · constructor <;> intro h1 <;> omega

/-- Witness of `canResend_seconds_floor`: a cooldown of two minutes set at
clock 0 and asked about at 30.5 seconds, with 89.5 seconds remaining. -/
theorem canResend_seconds_floor_witness :
    (ResendCooldown.CanResend ⟨fun _ => some 0, 2 * Minute⟩ 30500000000 "k").1 = false ∧
    (∀ lastTimestamp, (fun _ => some 0 : String → Option Int) "k" = some lastTimestamp →
      lastTimestamp + 2 * Minute - 30500000000 < exactSecondsBound) ∧
    ∃ lastTimestamp, (fun _ => some 0 : String → Option Int) "k" = some lastTimestamp ∧
      0 ≤ lastTimestamp + 2 * Minute - 30500000000 ∧
      lastTimestamp + 2 * Minute - 30500000000 < exactSecondsBound ∧
      (ResendCooldown.CanResend ⟨fun _ => some 0, 2 * Minute⟩ 30500000000 "k").2 * Second
        ≤ lastTimestamp + 2 * Minute - 30500000000 ∧
      lastTimestamp + 2 * Minute - 30500000000
        < ((ResendCooldown.CanResend ⟨fun _ => some 0, 2 * Minute⟩ 30500000000 "k").2 + 1)
          * Second ∧
      ((ResendCooldown.CanResend ⟨fun _ => some 0, 2 * Minute⟩ 30500000000 "k").2
          = ceilSeconds (lastTimestamp + 2 * Minute - 30500000000) ↔
        (lastTimestamp + 2 * Minute - 30500000000) % Second = 0) :=
  ⟨by decide,
    fun lastTimestamp hl => by
      have h0 : lastTimestamp = 0 := (Option.some.inj hl).symm
      subst h0
      decide,
    canResend_seconds_floor ⟨fun _ => some 0, 2 * Minute⟩ 30500000000 "k" (by decide)
      (fun lastTimestamp hl => by
        have h0 : lastTimestamp = 0 := (Option.some.inj hl).symm
        subst h0
        decide)⟩

/-! ## The token generator: theorems -/

theorem charsetAt_mem (b : Fin 256) : charsetAt b ∈ charsetBytes :=
  List.get_mem _ _ _

theorem generateOTP_ok (length : Int) (bytes : Nat → Fin 256) :
    GenerateOTP length (Except.ok bytes) =
      Except.ok (String.mk (((List.range (otpLength length).toNat).map bytes).map charsetAt)) :=
  rfl

theorem otpLength_nonneg (length : Int) : 0 ≤ otpLength length := by
  unfold otpLength
  split <;> omega

/-- C6. For every integer `length` and every byte stream delivered by the
entropy source, `GenerateOTP(length)` returns a string of `length` characters
when `4 ≤ length ≤ 12` and of 6 characters otherwise, all of them characters of
the alphabet `ABCDEFGHJKLMNPQRSTUVWXYZ23456789`. -/
theorem generateOTP_length_alphabet (length : Int) (bytes : Nat → Fin 256) :
    ∃ otp, GenerateOTP length (Except.ok bytes) = Except.ok otp ∧
      (otp.length : Int) = (if 4 ≤ length ∧ length ≤ 12 then length else 6) ∧
      ∀ c ∈ otp.toList, c ∈ "ABCDEFGHJKLMNPQRSTUVWXYZ23456789".toList := by
  refine ⟨_, generateOTP_ok length bytes, ?_, ?_⟩
  · have h0 := otpLength_nonneg length
    simp only [String.length, List.length_map, List.length_range]
    rw [Int.toNat_of_nonneg h0]
    unfold otpLength
    by_cases h : 4 ≤ length ∧ length ≤ 12
    · rw [if_pos h, if_neg (by omega)]
    · rw [if_neg h, if_pos (by omega)]
  · intro c hc
    obtain ⟨b, _, rfl⟩ := List.mem_map.mp hc
    exact charsetAt_mem b

/-- C7, refuted as stated. When the entropy source delivers the byte 10 six
times, `GenerateOTP(6)` returns `LLLLLL`: the uppercase `L` is a character of
the alphabet and does occur in generated codes. -/
theorem generateOTP_has_upper_L :
    GenerateOTP 6 (Except.ok (fun _ => 10)) = Except.ok "LLLLLL" ∧
    ¬ (∀ (length : Int) (bytes : Nat → Fin 256) (otp : String),
        GenerateOTP length (Except.ok bytes) = Except.ok otp →
        ∀ c ∈ otp.toList, c ∉ ['0', 'O', '1', 'I', 'L', 'l']) := by
  refine ⟨rfl, ?_⟩
  intro h
  exact absurd (h 6 (fun _ => 10) "LLLLLL" rfl 'L' (by decide)) (by decide)

/-- C7, amended. For every length and every byte stream delivered by the entropy
source, no character of the code returned by `GenerateOTP` is `0`, `O`, `1`,
`I` or the lowercase `l`. -/
theorem generateOTP_no_confusing (length : Int) (bytes : Nat → Fin 256) :
    ∃ otp, GenerateOTP length (Except.ok bytes) = Except.ok otp ∧
      ∀ c ∈ otp.toList, c ∉ ['0', 'O', '1', 'I', 'l'] := by
  refine ⟨_, generateOTP_ok length bytes, ?_⟩
  intro c hc
  obtain ⟨b, _, rfl⟩ := List.mem_map.mp hc
  have hmem := charsetAt_mem b
  revert hmem
  generalize charsetAt b = c
  intro hmem hbad
  have hall : ∀ x ∈ charsetBytes, x ∉ ['0', 'O', '1', 'I', 'l'] := by decide
  exact hall c hmem hbad

theorem range_mod_count :
    ∀ i < 32, (List.range 256).countP (fun b => decide (b % 32 = i)) = 8 := by
  set_option maxRecDepth 1000000 in decide

theorem finRange_mod_count (i : Nat) (hi : i < 32) :
    (List.finRange 256).countP (fun b => decide (b.val % 32 = i)) = 8 := by
  have h := range_mod_count i hi
  rw [← List.map_coe_finRange, List.countP_map] at h
  exact h

theorem charsetBytes_nodup : charsetBytes.Nodup := by decide

theorem charsetBytes_length : charsetBytes.length = 32 := by decide

theorem charsetAt_eq_get_iff (b : Fin 256) (i : Fin charsetBytes.length) :
    charsetAt b = charsetBytes.get i ↔ b.val % 32 = i.val := by
  unfold charsetAt
  rw [charsetBytes_nodup.get_inj_iff, Fin.ext_iff]
  simp only [charsetBytes_length]

/-- C8. The alphabet has exactly 32 characters, they are pairwise distinct, and
under the map `b ↦ charset[b mod len(charset)]` each of them is the image of
exactly 8 of the 256 byte values. -/
theorem charsetAt_unbiased :
    charset.length = 32 ∧ charsetBytes.Nodup ∧
    ∀ c ∈ charsetBytes, ((List.finRange 256).filter (fun b => charsetAt b = c)).length = 8 := by
  refine ⟨by decide, charsetBytes_nodup, ?_⟩
  intro c hc
  obtain ⟨i, rfl⟩ := List.mem_iff_get.mp hc
  rw [← List.countP_eq_length_filter]
  have h := finRange_mod_count i.val (lt_of_lt_of_eq i.isLt charsetBytes_length)
  rw [← h]
  apply List.countP_congr
  intro b _
  simp only [decide_eq_true_eq]
  exact charsetAt_eq_get_iff b i

/-! ## The role hierarchy: theorems -/

theorem getRoleLevel_unknown (role : String)
    (h : role ∉ RoleHierarchy.map Prod.fst) : GetRoleLevel role = 0 := by
  have hnone : RoleHierarchy.lookup role = none := by
    rw [List.lookup_eq_none_iff]
    intro p hp
    by_contra hbeq
    apply h
    have : role = p.1 := by simpa using hbeq
    rw [this]
    exact List.mem_map_of_mem _ hp
  unfold GetRoleLevel
  rw [hnone]

/-- C9. `CanAssignRole(acting, target)` is true exactly when `acting` is
`superAdmin` or `nla`, or the level of `acting` is strictly above the level of
`target`, a role outside the hierarchy having level 0. A manager cannot assign
admin, superAdmin can assign superAdmin, and no role other than superAdmin and
nla can assign a role of its own level or above. -/
theorem canAssignRole_iff :
    (∀ acting target : String,
      CanAssignRole acting target = true ↔
        (acting = "superAdmin" ∨ acting = "nla" ∨
          GetRoleLevel acting > GetRoleLevel target)) ∧
    (∀ role : String, role ∉ RoleHierarchy.map Prod.fst → GetRoleLevel role = 0) ∧
    CanAssignRole "manager" "admin" = false ∧
    CanAssignRole "superAdmin" "superAdmin" = true ∧
    (∀ acting target : String, acting ≠ "superAdmin" → acting ≠ "nla" →
      GetRoleLevel acting ≤ GetRoleLevel target → CanAssignRole acting target = false) := by
  have hiff : ∀ acting target : String,
      CanAssignRole acting target = true ↔
        (acting = "superAdmin" ∨ acting = "nla" ∨
          GetRoleLevel acting > GetRoleLevel target) := by
    intro acting target
    unfold CanAssignRole SuperAdmin NLA
    by_cases h : acting = "superAdmin" ∨ acting = "nla"
    · rw [if_pos h]
      rcases h with h | h
      · exact ⟨fun _ => Or.inl h, fun _ => rfl⟩
      · exact ⟨fun _ => Or.inr (Or.inl h), fun _ => rfl⟩
    · rw [if_neg h]
      simp only [decide_eq_true_eq]
      constructor
      · intro hlt
        exact Or.inr (Or.inr hlt)
      · rintro (h1 | h1 | h1)
        · exact absurd (Or.inl h1) h
        · exact absurd (Or.inr h1) h
        · exact h1
  refine ⟨hiff, getRoleLevel_unknown, by decide, by decide, ?_⟩
  intro acting target h1 h2 hle
  rw [← Bool.not_eq_true, hiff]
  rintro (h | h | h)
  · exact h1 h
  · exact h2 h
  · omega

theorem highestStep_fold (rest : List String) :
    ∀ (before after : List String) (highest : String),
      (∀ x ∈ before, GetRoleLevel x < GetRoleLevel highest) →
      (∀ x ∈ after, GetRoleLevel x ≤ GetRoleLevel highest) →
      ∃ before1 after1,
        before ++ highest :: after ++ rest =
          before1 ++ (rest.foldl highestStep (highest, GetRoleLevel highest)).1 :: after1 ∧
        (∀ x ∈ before1,
          GetRoleLevel x < GetRoleLevel (rest.foldl highestStep (highest, GetRoleLevel highest)).1) ∧
        (∀ x ∈ after1,
          GetRoleLevel x ≤ GetRoleLevel (rest.foldl highestStep (highest, GetRoleLevel highest)).1) := by
  induction rest with
  | nil =>
    intro before after highest hb ha
    exact ⟨before, after, by simp, hb, ha⟩
  | cons role rest ih =>
    intro before after highest hb ha
    rw [List.foldl_cons]
    by_cases hgt : GetRoleLevel role > GetRoleLevel highest
    · have hstep : highestStep (highest, GetRoleLevel highest) role = (role, GetRoleLevel role) := by
        unfold highestStep
        simp only [if_pos hgt]
      rw [hstep]
      obtain ⟨b1, a1, heq, hb1, ha1⟩ := ih (before ++ highest :: after) [] role
        (by
          intro x hx
          rcases List.mem_append.mp hx with hx | hx
          · exact lt_trans (hb x hx) hgt
          · rcases List.mem_cons.mp hx with hx | hx
            · rw [hx]; exact hgt
            · exact lt_of_le_of_lt (ha x hx) hgt)
        (by intro x hx; cases hx)
      refine ⟨b1, a1, ?_, hb1, ha1⟩
      rw [← heq]
      simp
    · have hstep : highestStep (highest, GetRoleLevel highest) role
          = (highest, GetRoleLevel highest) := by
        unfold highestStep
        simp only [if_neg hgt]
      rw [hstep]
      obtain ⟨b1, a1, heq, hb1, ha1⟩ := ih before (after ++ [role]) highest hb
        (by
          intro x hx
          rcases List.mem_append.mp hx with hx | hx
          · exact ha x hx
          · rw [List.mem_singleton.mp hx]; omega)
      refine ⟨b1, a1, ?_, hb1, ha1⟩
      rw [← heq]
      simp

/-- C10. For the empty list `GetHighestRole` returns the empty string. For a
non-empty list it returns an element of the list whose level is at least the
level of every element, and the first such element in list order: the list
splits around the result into elements of strictly lower level before it and
elements of at most its level after it. `GetHighestRole(["buyer","agent"])` is
`agent`. -/
theorem getHighestRole_first_max :
    GetHighestRole [] = "" ∧
    GetHighestRole ["buyer", "agent"] = "agent" ∧
    ∀ (first : String) (rest : List String),
      GetHighestRole (first :: rest) ∈ first :: rest ∧
      (∀ x ∈ first :: rest, GetRoleLevel x ≤ GetRoleLevel (GetHighestRole (first :: rest))) ∧
      ∃ before after,
        first :: rest = before ++ GetHighestRole (first :: rest) :: after ∧
        ∀ x ∈ before, GetRoleLevel x < GetRoleLevel (GetHighestRole (first :: rest)) := by
  refine ⟨rfl, by decide, ?_⟩
  intro first rest
  obtain ⟨b1, a1, heq, hb1, ha1⟩ := highestStep_fold rest [] [] first
    (by intro x hx; cases hx) (by intro x hx; cases hx)
  have heq1 : first :: rest = b1 ++ GetHighestRole (first :: rest) :: a1 := by
    simpa [GetHighestRole] using heq
  have hb2 : ∀ x ∈ b1, GetRoleLevel x < GetRoleLevel (GetHighestRole (first :: rest)) := hb1
  have ha2 : ∀ x ∈ a1, GetRoleLevel x ≤ GetRoleLevel (GetHighestRole (first :: rest)) := ha1
  refine ⟨?_, ?_, b1, a1, heq1, hb2⟩
  · generalize GetHighestRole (first :: rest) = r at heq1
    rw [heq1]
    simp
  · intro x hx
    rw [heq1] at hx
    rcases List.mem_append.mp hx with hx | hx
    · exact le_of_lt (hb2 x hx)
    · rcases List.mem_cons.mp hx with hx | hx
      · rw [hx]
      · exact ha2 x hx

/-! ## The OTP service: theorems -/

theorem isAllowed_limit (rl : RateLimiter) (now : Int) (key : String) (v : Verdict)
    (rl1 : RateLimiter) (h : rl.IsAllowed now key = some (v, rl1)) : rl1.limit = rl.limit := by
  by_cases hlt : ((validAttempts (now - rl.window) (rl.recorded key)).length : Int) < rl.limit
  · obtain ⟨rl2, h1, h2, _⟩ := isAllowed_allow rl now key hlt
    rw [h1] at h
    injection h with h
    injection h with _ hr
    rw [← hr]
    exact h2
  · rcases isAllowed_some rl now key v rl1 h with ⟨_, _, hrec, _⟩ | ⟨_, heq, _⟩
    · obtain ⟨rl2, h1, h2, _⟩ : ∃ rl2, rl.IsAllowed now key = some (v, rl2) ∧ rl2 = rl1 ∧ True :=
        ⟨rl1, h, rfl, trivial⟩
      unfold RateLimiter.IsAllowed at h
      simp only [hlt, if_false] at h
      split at h
      · cases h
      · injection h with h
        injection h with _ hr
        rw [← hr]
    · rw [heq]

theorem expirePhone_length (db : List OTP) (phone : String) :
    (expirePhone db phone).length = db.length := by
  unfold expirePhone
  exact List.length_map _ _

theorem expirePhone_handles (db : List OTP) (phone : String) :
    (expirePhone db phone).map (fun r => r.VerificationCode)
      = db.map (fun r => r.VerificationCode) := by
  unfold expirePhone
  rw [List.map_map]
  apply List.map_congr_left
  intro r _
  simp only [Function.comp]
  split <;> rfl

/-- What a returning `SendOTP` call did. It keeps the configuration; and either
it failed, leaving the table as it was or with the rows of the phone expired, or
it generated a code, found the new handle unused, appended the issued row to the
table with the rows of the phone expired, set the cooldown and answered with the
handle. -/
theorem sendOTP_some (s : OTPService) (clock : SendClock) (src : Entropy)
    (req : SendOTPRequest) (res : Except String SendOTPResponse) (s1 : OTPService)
    (h : s.SendOTP clock src req = some (res, s1)) :
    s1.hashProvider = s.hashProvider ∧ s1.otpExpiry = s.otpExpiry ∧
    s1.rateLimiter.limit = s.rateLimiter.limit ∧
    (((∃ err, res = Except.error err) ∧
        (s1.db = s.db ∨ s1.db = expirePhone s.db req.Phone)) ∨
      (∃ otpCode, GenerateOTP 6 src = Except.ok otpCode ∧
        generateUUID clock.uuid1 clock.uuid2 ∉ s.db.map (fun r => r.VerificationCode) ∧
        s1.db = expirePhone s.db req.Phone ++ [issuedOTP s clock req otpCode] ∧
        s1.resendCooldown.cooldown req.Phone = some clock.setCooldown ∧
        res = Except.ok
          { Success := true, Message := "OTP sent to " ++ req.Phone,
            VerificationCode := generateUUID clock.uuid1 clock.uuid2, ExpiryMinutes := 10 })) := by
  unfold OTPService.SendOTP at h
  by_cases hphone : req.Phone = ""
  · simp only [hphone, if_true, Option.some.injEq, Prod.mk.injEq] at h
    obtain ⟨h1, h2⟩ := h
    subst h1
    subst h2
    exact ⟨rfl, rfl, rfl, Or.inl ⟨⟨_, rfl⟩, Or.inl rfl⟩⟩
  · simp only [hphone, if_false] at h
    cases hia : s.rateLimiter.IsAllowed clock.isAllowed req.Phone with
    | none => simp [hia] at h
    | some r =>
      obtain ⟨v, rl1⟩ := r
      have hlim := isAllowed_limit _ _ _ _ _ hia
      simp only [hia] at h
      cases hv : v.allowed with
      | false =>
        simp only [hv, if_true, Option.some.injEq, Prod.mk.injEq] at h
        obtain ⟨h1, h2⟩ := h
        subst h1
        subst h2
        exact ⟨rfl, rfl, hlim, Or.inl ⟨⟨_, rfl⟩, Or.inl rfl⟩⟩
      | true =>
        simp only [hv, Bool.true_eq_false, if_false] at h
        cases hcr : s.resendCooldown.CanResend clock.canResend req.Phone with
        | mk canResend secondsUntil =>
          simp only [hcr] at h
          cases canResend with
          | false =>
            simp only [if_true, Option.some.injEq, Prod.mk.injEq] at h
            obtain ⟨h1, h2⟩ := h
            subst h1
            subst h2
            exact ⟨rfl, rfl, hlim, Or.inl ⟨⟨_, rfl⟩, Or.inl rfl⟩⟩
          | true =>
            simp only [Bool.true_eq_false, if_false] at h
            cases hgen : GenerateOTP 6 src with
            | error err =>
              simp only [hgen, Option.some.injEq, Prod.mk.injEq] at h
              obtain ⟨h1, h2⟩ := h
              subst h1
              subst h2
              exact ⟨rfl, rfl, hlim, Or.inl ⟨⟨_, rfl⟩, Or.inr rfl⟩⟩
            | ok otpCode =>
              simp only [hgen] at h
              unfold createOTP at h
              by_cases hdup : generateUUID clock.uuid1 clock.uuid2 ∈
                  (expirePhone s.db req.Phone).map (fun r => r.VerificationCode)
              · simp only [hdup, if_true, Option.some.injEq, Prod.mk.injEq] at h
                obtain ⟨h1, h2⟩ := h
                subst h1
                subst h2
                exact ⟨rfl, rfl, hlim, Or.inl ⟨⟨_, rfl⟩, Or.inr rfl⟩⟩
              · simp only [hdup, if_false, Option.some.injEq, Prod.mk.injEq] at h
                obtain ⟨h1, h2⟩ := h
                subst h1
                subst h2
                refine ⟨rfl, rfl, hlim, Or.inr ⟨otpCode, rfl, ?_, ?_, ?_, rfl⟩⟩
                · rw [expirePhone_handles] at hdup
                  exact hdup
                · simp only [issuedOTP, expirePhone_length]
                · simp [ResendCooldown.SetCooldown]

/-- With a limit of at least 1 a `SendOTP` call returns. -/
theorem sendOTP_returns (s : OTPService) (hL : 1 ≤ s.rateLimiter.limit) (clock : SendClock)
    (src : Entropy) (req : SendOTPRequest) :
    ∃ res s1, s.SendOTP clock src req = some (res, s1) := by
  have hia : ∃ v rl1, s.rateLimiter.IsAllowed clock.isAllowed req.Phone = some (v, rl1) := by
    rcases isAllowed_cases s.rateLimiter clock.isAllowed req.Phone hL with
      ⟨_, v, rl1, hia, _⟩ | ⟨v, hia, _⟩
    · exact ⟨v, rl1, hia⟩
    · exact ⟨v, _, hia⟩
  obtain ⟨v, rl1, hia⟩ := hia
  unfold OTPService.SendOTP
  simp only [hia]
  repeat' split
  all_goals exact ⟨_, _, rfl⟩

/-- What a `VerifyOTP` call did: an error leaves the service as it was; a
success found the row `otp` of the handle, unexpired and with the digest of the
supplied code, marked it verified and reset the limiter and the cooldown of its
phone. -/
theorem verifyOTP_cases (s : OTPService) (now1 now2 : Int) (req : VerifyOTPRequest) :
    ((∃ err, (s.VerifyOTP now1 now2 req).1 = Except.error err) ∧
        (s.VerifyOTP now1 now2 req).2 = s) ∨
    (∃ otp, s.db.find? (fun r => decide (r.VerificationCode = req.VerificationCode)) = some otp ∧
      ¬ otp.ExpiresAt < now1 ∧ s.hashProvider.HashOTP req.OTPCode = otp.OTPCode ∧
      s.VerifyOTP now1 now2 req =
        (Except.ok { Success := true, Message := "OTP verified successfully" },
          { s with db := markVerified s.db otp.ID now2,
                   rateLimiter := s.rateLimiter.Reset otp.Phone,
                   resendCooldown := s.resendCooldown.Reset otp.Phone })) := by
  unfold OTPService.VerifyOTP
  cases hfind : s.db.find? (fun r => decide (r.VerificationCode = req.VerificationCode)) with
  | none => exact Or.inl ⟨⟨_, rfl⟩, rfl⟩
  | some otp =>
    by_cases hexp : otp.ExpiresAt < now1
    · simp only [hexp, if_true]
      exact Or.inl ⟨⟨_, rfl⟩, trivial⟩
    · simp only [hexp, if_false]
      cases hver : s.hashProvider.VerifyOTP req.OTPCode otp.OTPCode with
      | false =>
        simp only [if_true]
        exact Or.inl ⟨⟨_, rfl⟩, trivial⟩
      | true =>
        simp only [Bool.true_eq_false, if_false]
        refine Or.inr ⟨otp, rfl, hexp, ?_, rfl⟩
        unfold HashProvider.VerifyOTP at hver
        exact of_decide_eq_true hver

theorem activeFor_append (db1 db2 : List OTP) (phone : String) :
    activeFor (db1 ++ db2) phone = activeFor db1 phone ++ activeFor db2 phone := by
  unfold activeFor
  exact List.filter_append _ _

theorem activeFor_expirePhone_self (db : List OTP) (phone : String) :
    activeFor (expirePhone db phone) phone = [] := by
  unfold activeFor expirePhone
  rw [List.filter_eq_nil_iff]
  intro r hr
  obtain ⟨r0, _, rfl⟩ := List.mem_map.mp hr
  by_cases h : r0.Phone = phone
  · simp [h]
  · simp [h]

theorem activeFor_expirePhone_ne (db : List OTP) (phone other : String) (h : other ≠ phone) :
    activeFor (expirePhone db phone) other = activeFor db other := by
  unfold activeFor expirePhone
  rw [List.filter_map]
  have hpred : ∀ r ∈ db,
      ((fun r : OTP => decide (r.Phone = other) && decide (r.Status = "active")) ∘
        (fun r : OTP => if r.Phone = phone then { r with Status := "expired" } else r)) r
      = (fun r : OTP => decide (r.Phone = other) && decide (r.Status = "active")) r := by
    intro r _
    by_cases hr : r.Phone = phone
    · have hne : ¬ r.Phone = other := fun h1 => h (h1.symm.trans hr)
      simp only [Function.comp, if_pos hr, hne, decide_False, Bool.false_and]
    · simp only [Function.comp, if_neg hr]
  rw [List.filter_congr hpred]
  have hid : ∀ r ∈ db.filter (fun r => decide (r.Phone = other) && decide (r.Status = "active")),
      (fun r : OTP => if r.Phone = phone then { r with Status := "expired" } else r) r = id r := by
    intro r hr
    have hr2 := (List.mem_filter.mp hr).2
    simp only [Bool.and_eq_true, decide_eq_true_eq] at hr2
    have hne : ¬ r.Phone = phone := fun h1 => h (hr2.1.symm.trans h1)
    simp only [if_neg hne, id]
  rw [List.map_congr_left hid, List.map_id]

theorem activeFor_markVerified_le (db : List OTP) (id : Nat) (now : Int) (phone : String) :
    (activeFor (markVerified db id now) phone).length ≤ (activeFor db phone).length := by
  unfold activeFor markVerified
  rw [← List.countP_eq_length_filter, ← List.countP_eq_length_filter, List.countP_map]
  apply List.countP_mono_left
  intro r _ hr
  by_cases hid : r.ID = id
  · simp [Function.comp, hid] at hr
  · simpa [Function.comp, hid] using hr

/-- The invariant of the OTP store: the limit of the limiter is at least 1, and
no phone has more than one active row. -/
theorem otpStore_step (s : OTPService) (c : OTPCall)
    (hL : 1 ≤ s.rateLimiter.limit) (hinv : ∀ phone, (activeFor s.db phone).length ≤ 1) :
    ∃ s1, s.step c = some s1 ∧ 1 ≤ s1.rateLimiter.limit ∧
      ∀ phone, (activeFor s1.db phone).length ≤ 1 := by
  cases c with
  | SendOTP clock src req =>
    obtain ⟨res, s1, hsend⟩ := sendOTP_returns s hL clock src req
    refine ⟨s1, by simp [OTPService.step, hsend], ?_⟩
    obtain ⟨_, _, hlim, hcase⟩ := sendOTP_some s clock src req res s1 hsend
    refine ⟨by rw [hlim]; exact hL, ?_⟩
    have hexpired : ∀ phone, (activeFor (expirePhone s.db req.Phone) phone).length ≤ 1 := by
      intro phone
      by_cases hp : phone = req.Phone
      · rw [hp, activeFor_expirePhone_self]
        exact Nat.zero_le _
      · rw [activeFor_expirePhone_ne _ _ _ hp]
        exact hinv phone
    rcases hcase with ⟨_, hdb | hdb⟩ | ⟨otpCode, _, _, hdb, _⟩
    · rw [hdb]
      exact hinv
    · rw [hdb]
      exact hexpired
    · rw [hdb]
      intro phone
      rw [activeFor_append]
      by_cases hp : phone = req.Phone
      · rw [hp, activeFor_expirePhone_self]
        exact List.length_filter_le _ _
      · have hnone : activeFor [issuedOTP s clock req otpCode] phone = [] := by
          unfold activeFor
          rw [List.filter_eq_nil_iff]
          intro r hr
          rw [List.mem_singleton.mp hr]
          have : ¬ req.Phone = phone := fun h => hp h.symm
          simp [issuedOTP, this]
        rw [hnone, List.append_nil]
        exact hexpired phone
  | VerifyOTP now1 now2 req =>
    refine ⟨(s.VerifyOTP now1 now2 req).2, rfl, ?_⟩
    rcases verifyOTP_cases s now1 now2 req with ⟨_, heq⟩ | ⟨otp, _, _, _, heq⟩
    · rw [heq]
      exact ⟨hL, hinv⟩
    · rw [heq]
      exact ⟨hL, fun phone => le_trans (activeFor_markVerified_le _ _ _ _) (hinv phone)⟩

theorem otpStore_run (calls : List OTPCall) :
    ∀ s : OTPService, 1 ≤ s.rateLimiter.limit → (∀ phone, (activeFor s.db phone).length ≤ 1) →
      ∃ s1, s.run calls = some s1 ∧ 1 ≤ s1.rateLimiter.limit ∧
        ∀ phone, (activeFor s1.db phone).length ≤ 1 := by
  induction calls with
  | nil =>
    intro s hL hinv
    exact ⟨s, rfl, hL, hinv⟩
  | cons c rest ih =>
    intro s hL hinv
    obtain ⟨s1, hstep, hL1, hinv1⟩ := otpStore_step s c hL hinv
    obtain ⟨s2, hrun, h2⟩ := ih s1 hL1 hinv1
    exact ⟨s2, by simp only [OTPService.run, hstep]; exact hrun, h2⟩

/-- C12. From an empty OTP store, every sequence of `SendOTP` and `VerifyOTP`
calls runs to a state in which no phone has more than one row of status
`active`; and every `SendOTP` call that succeeds in such a state leaves exactly
one active row for its phone, the row it has just appended, which carries the
returned handle. -/
theorem otp_one_active_per_phone (hp : HashProvider) (calls : List OTPCall) :
    ∃ s, (NewOTPService [] hp).run calls = some s ∧
      (∀ phone, (activeFor s.db phone).length ≤ 1) ∧
      ∀ (clock : SendClock) (src : Entropy) (req : SendOTPRequest) (resp : SendOTPResponse)
        (s1 : OTPService), s.SendOTP clock src req = some (Except.ok resp, s1) →
        ∃ older created, s1.db = older ++ [created] ∧ older.length = s.db.length ∧
          created.Phone = req.Phone ∧ created.VerificationCode = resp.VerificationCode ∧
          activeFor s1.db req.Phone = [created] := by
  obtain ⟨s, hrun, _, hinv⟩ := otpStore_run calls (NewOTPService [] hp)
    (show (1 : Int) ≤ 5 by decide) (fun phone => Nat.zero_le _)
  refine ⟨s, hrun, hinv, ?_⟩
  intro clock src req resp s1 hsend
  obtain ⟨_, _, _, hcase⟩ := sendOTP_some s clock src req _ s1 hsend
  rcases hcase with ⟨⟨err, herr⟩, _⟩ | ⟨otpCode, _, _, hdb, _, hres⟩
  · cases herr
  · injection hres with hres
    refine ⟨expirePhone s.db req.Phone, issuedOTP s clock req otpCode, hdb,
      expirePhone_length _ _, rfl, by rw [hres]; rfl, ?_⟩
    rw [hdb, activeFor_append, activeFor_expirePhone_self]
    simp [activeFor, issuedOTP]

theorem markVerified_handles (db : List OTP) (id : Nat) (now : Int) :
    (markVerified db id now).map (fun r => r.VerificationCode)
      = db.map (fun r => r.VerificationCode) := by
  unfold markVerified
  rw [List.map_map]
  apply List.map_congr_left
  intro r _
  simp only [Function.comp]
  split <;> rfl

/-- A call never removes a handle from the table and keeps the limit. -/
theorem otpStep_handles (s s1 : OTPService) (c : OTPCall) (hstep : s.step c = some s1) :
    s1.rateLimiter.limit = s.rateLimiter.limit ∧
    ∀ h, h ∈ s.db.map (fun r => r.VerificationCode) →
      h ∈ s1.db.map (fun r => r.VerificationCode) := by
  cases c with
  | SendOTP clock src req =>
    unfold OTPService.step at hstep
    cases hsend : s.SendOTP clock src req with
    | none => simp [hsend] at hstep
    | some r =>
      obtain ⟨res, s2⟩ := r
      simp only [hsend, Option.map_some', Option.some.injEq] at hstep
      subst hstep
      obtain ⟨_, _, hlim, hcase⟩ := sendOTP_some s clock src req res _ hsend
      refine ⟨hlim, ?_⟩
      intro h hh
      rcases hcase with ⟨_, hdb | hdb⟩ | ⟨_, _, _, hdb, _⟩
      · simp only [hdb]
        exact hh
      · simp only [hdb, expirePhone_handles]
        exact hh
      · simp only [hdb, List.map_append, expirePhone_handles]
        exact List.mem_append_left _ hh
  | VerifyOTP now1 now2 req =>
    simp only [OTPService.step, Option.some.injEq] at hstep
    subst hstep
    rcases verifyOTP_cases s now1 now2 req with ⟨_, heq⟩ | ⟨otp, _, _, _, heq⟩
    · rw [heq]
      exact ⟨rfl, fun h hh => hh⟩
    · rw [heq]
      refine ⟨rfl, ?_⟩
      intro h hh
      simp only [markVerified_handles]
      exact hh

theorem otpRun_handles (calls : List OTPCall) :
    ∀ s s1 : OTPService, s.run calls = some s1 →
      s1.rateLimiter.limit = s.rateLimiter.limit ∧
      ∀ h, h ∈ s.db.map (fun r => r.VerificationCode) →
        h ∈ s1.db.map (fun r => r.VerificationCode) := by
  induction calls with
  | nil =>
    intro s s1 hrun
    simp only [OTPService.run, Option.some.injEq] at hrun
    subst hrun
    exact ⟨rfl, fun h hh => hh⟩
  | cons c rest ih =>
    intro s s1 hrun
    unfold OTPService.run at hrun
    cases hstep : s.step c with
    | none => simp [hstep] at hrun
    | some s2 =>
      simp only [hstep] at hrun
      obtain ⟨hl1, hh1⟩ := otpStep_handles s s2 c hstep
      obtain ⟨hl2, hh2⟩ := ih s2 s1 hrun
      exact ⟨hl2.trans hl1, fun h hh => hh2 h (hh1 h hh)⟩

/-- C16. Any two successful `SendOTP` calls, for the same or different phones,
at any clock readings and with any calls in between, return different
verification handles: the column is unique, so a call that builds a handle the
table already holds fails at `Create`. -/
theorem sendOTP_handles_distinct (s0 : OTPService)
    (clock1 : SendClock) (src1 : Entropy) (req1 : SendOTPRequest) (resp1 : SendOTPResponse)
    (s1 : OTPService) (hsend1 : s0.SendOTP clock1 src1 req1 = some (Except.ok resp1, s1))
    (calls : List OTPCall) (s2 : OTPService) (hrun : s1.run calls = some s2)
    (clock2 : SendClock) (src2 : Entropy) (req2 : SendOTPRequest) (resp2 : SendOTPResponse)
    (s3 : OTPService) (hsend2 : s2.SendOTP clock2 src2 req2 = some (Except.ok resp2, s3)) :
    resp1.VerificationCode ≠ resp2.VerificationCode := by
  obtain ⟨_, _, _, hcase1⟩ := sendOTP_some s0 clock1 src1 req1 _ s1 hsend1
  obtain ⟨_, _, _, hcase2⟩ := sendOTP_some s2 clock2 src2 req2 _ s3 hsend2
  rcases hcase1 with ⟨⟨err, herr⟩, _⟩ | ⟨c1, _, _, hdb1, _, hres1⟩
  · cases herr
  rcases hcase2 with ⟨⟨err, herr⟩, _⟩ | ⟨c2, _, hnew2, _, _, hres2⟩
  · cases herr
  injection hres1 with hres1
  injection hres2 with hres2
  rw [hres1, hres2]
  intro heq
  apply hnew2
  apply (otpRun_handles calls s1 s2 hrun).2
  rw [hdb1, List.map_append]
  apply List.mem_append_right
  simp only [List.map_cons, List.map_nil, List.mem_singleton, issuedOTP]
  exact heq.symm

theorem find_handle_map (db : List OTP) (f : OTP → OTP) (handle : String)
    (hf : ∀ r, (f r).VerificationCode = r.VerificationCode) :
    (db.map f).find? (fun r => decide (r.VerificationCode = handle))
      = (db.find? (fun r => decide (r.VerificationCode = handle))).map f := by
  rw [List.find?_map]
  have hpred : ((fun r : OTP => decide (r.VerificationCode = handle)) ∘ f)
      = (fun r : OTP => decide (r.VerificationCode = handle)) := by
    funext r
    simp only [Function.comp, hf]
  rw [hpred]

theorem issuedRow_map (db : List OTP) (f : OTP → OTP) (handle code : String) (expiry : Int)
    (phone : String)
    (hf : ∀ r, (f r).VerificationCode = r.VerificationCode ∧ (f r).OTPCode = r.OTPCode ∧
      (f r).ExpiresAt = r.ExpiresAt ∧ (f r).Phone = r.Phone)
    (h : IssuedRow db handle code expiry phone) : IssuedRow (db.map f) handle code expiry phone := by
  obtain ⟨r, hfind, h1, h2, h3⟩ := h
  refine ⟨f r, ?_, ?_, ?_, ?_⟩
  · rw [find_handle_map db f handle (fun r => (hf r).1), hfind]
    rfl
  · rw [(hf r).2.1, h1]
  · rw [(hf r).2.2.1, h2]
  · rw [(hf r).2.2.2, h3]

theorem issuedRow_expirePhone (db : List OTP) (p : String) (handle code : String)
    (expiry : Int) (phone : String) (h : IssuedRow db handle code expiry phone) :
    IssuedRow (expirePhone db p) handle code expiry phone := by
  unfold expirePhone
  apply issuedRow_map _ _ _ _ _ _ _ h
  intro r
  split <;> exact ⟨rfl, rfl, rfl, rfl⟩

theorem issuedRow_markVerified (db : List OTP) (id : Nat) (now : Int) (handle code : String)
    (expiry : Int) (phone : String) (h : IssuedRow db handle code expiry phone) :
    IssuedRow (markVerified db id now) handle code expiry phone := by
  unfold markVerified
  apply issuedRow_map _ _ _ _ _ _ _ h
  intro r
  split <;> exact ⟨rfl, rfl, rfl, rfl⟩

theorem issuedRow_append (db more : List OTP) (handle code : String) (expiry : Int)
    (phone : String) (h : IssuedRow db handle code expiry phone) :
    IssuedRow (db ++ more) handle code expiry phone := by
  obtain ⟨r, hfind, h1⟩ := h
  refine ⟨r, ?_, h1⟩
  rw [List.find?_append, hfind]
  rfl

/-- A call keeps the row issued under a handle: first found under it, with its
stored code, expiry and phone. -/
theorem otpStep_issued (s s1 : OTPService) (c : OTPCall) (hstep : s.step c = some s1)
    (handle code : String) (expiry : Int) (phone : String)
    (h : IssuedRow s.db handle code expiry phone) :
    IssuedRow s1.db handle code expiry phone := by
  cases c with
  | SendOTP clock src req =>
    unfold OTPService.step at hstep
    cases hsend : s.SendOTP clock src req with
    | none => simp [hsend] at hstep
    | some r =>
      obtain ⟨res, s2⟩ := r
      simp only [hsend, Option.map_some', Option.some.injEq] at hstep
      subst hstep
      obtain ⟨_, _, _, hcase⟩ := sendOTP_some s clock src req res _ hsend
      rcases hcase with ⟨_, hdb | hdb⟩ | ⟨_, _, _, hdb, _⟩
      · simp only [hdb]
        exact h
      · simp only [hdb]
        exact issuedRow_expirePhone _ _ _ _ _ _ h
      · simp only [hdb]
        exact issuedRow_append _ _ _ _ _ _ (issuedRow_expirePhone _ _ _ _ _ _ h)
  | VerifyOTP now1 now2 req =>
    simp only [OTPService.step, Option.some.injEq] at hstep
    subst hstep
    rcases verifyOTP_cases s now1 now2 req with ⟨_, heq⟩ | ⟨otp, _, _, _, heq⟩
    · rw [heq]
      exact h
    · rw [heq]
      exact issuedRow_markVerified _ _ _ _ _ _ _ h

theorem otpStep_hashProvider (s s1 : OTPService) (c : OTPCall) (hstep : s.step c = some s1) :
    s1.hashProvider = s.hashProvider := by
  cases c with
  | SendOTP clock src req =>
    unfold OTPService.step at hstep
    cases hsend : s.SendOTP clock src req with
    | none => simp [hsend] at hstep
    | some r =>
      obtain ⟨res, s2⟩ := r
      simp only [hsend, Option.map_some', Option.some.injEq] at hstep
      subst hstep
      exact (sendOTP_some s clock src req res _ hsend).1
  | VerifyOTP now1 now2 req =>
    simp only [OTPService.step, Option.some.injEq] at hstep
    subst hstep
    rcases verifyOTP_cases s now1 now2 req with ⟨_, heq⟩ | ⟨otp, _, _, _, heq⟩
    · rw [heq]
    · rw [heq]

theorem otpRun_issued (calls : List OTPCall) :
    ∀ s s1 : OTPService, s.run calls = some s1 →
      s1.hashProvider = s.hashProvider ∧
      ∀ (handle code : String) (expiry : Int) (phone : String),
        IssuedRow s.db handle code expiry phone → IssuedRow s1.db handle code expiry phone := by
  induction calls with
  | nil =>
    intro s s1 hrun
    simp only [OTPService.run, Option.some.injEq] at hrun
    subst hrun
    exact ⟨rfl, fun _ _ _ _ h => h⟩
  | cons c rest ih =>
    intro s s1 hrun
    unfold OTPService.run at hrun
    cases hstep : s.step c with
    | none => simp [hstep] at hrun
    | some s2 =>
      simp only [hstep] at hrun
      obtain ⟨hh2, hi2⟩ := ih s2 s1 hrun
      exact ⟨hh2.trans (otpStep_hashProvider s s2 c hstep),
        fun handle code expiry phone h =>
          hi2 _ _ _ _ (otpStep_issued s s2 c hstep _ _ _ _ h)⟩

/-- A successful `SendOTP` leaves the issued row first under its handle. -/
theorem sendOTP_issued (s : OTPService) (clock : SendClock) (src : Entropy)
    (req : SendOTPRequest) (resp : SendOTPResponse) (s1 : OTPService)
    (h : s.SendOTP clock src req = some (Except.ok resp, s1)) :
    ∃ otpCode, GenerateOTP 6 src = Except.ok otpCode ∧
      resp.VerificationCode = generateUUID clock.uuid1 clock.uuid2 ∧
      IssuedRow s1.db resp.VerificationCode (s.hashProvider.HashOTP otpCode)
        (clock.expiresAt + s.otpExpiry) req.Phone := by
  obtain ⟨_, _, _, hcase⟩ := sendOTP_some s clock src req _ s1 h
  rcases hcase with ⟨⟨err, herr⟩, _⟩ | ⟨otpCode, hgen, hnew, hdb, _, hres⟩
  · cases herr
  · injection hres with hres
    refine ⟨otpCode, hgen, by rw [hres], issuedOTP s clock req otpCode, ?_, rfl, rfl, rfl⟩
    rw [hdb, List.find?_append]
    have hnone : (expirePhone s.db req.Phone).find?
        (fun r => decide (r.VerificationCode = resp.VerificationCode)) = none := by
      rw [List.find?_eq_none]
      intro r hr hdec
      apply hnew
      rw [← expirePhone_handles s.db req.Phone]
      have hrv : r.VerificationCode = resp.VerificationCode := of_decide_eq_true hdec
      rw [hres] at hrv
      have hrv2 : r.VerificationCode = generateUUID clock.uuid1 clock.uuid2 := hrv
      rw [← hrv2]
      exact List.mem_map_of_mem (fun r => r.VerificationCode) hr
    rw [hnone, hres]
    simp [issuedOTP]

/-- C13. OTP round trip. After a successful `SendOTP(subject)` that generated
the code `otpCode` and returned the handle, and after any further calls,
`VerifyOTP(handle, otpCode)` at a clock reading not after the expiry of the row
(the reading of the issue plus 10 minutes) succeeds, leaves the row under the
handle with status `verified` and `verified_at` stamped, and clears the limiter
and the cooldown of the subject, so that in a `SendOTP(subject)` that follows
immediately the limiter allows and the cooldown gate allows. -/
theorem otp_round_trip (s0 : OTPService) (hL : 1 ≤ s0.rateLimiter.limit)
    (hE : s0.otpExpiry = 10 * Minute)
    (clock : SendClock) (src : Entropy) (req : SendOTPRequest) (resp : SendOTPResponse)
    (s1 : OTPService) (hsend : s0.SendOTP clock src req = some (Except.ok resp, s1))
    (calls : List OTPCall) (s2 : OTPService) (hrun : s1.run calls = some s2)
    (now1 now2 : Int) (hnow : now1 ≤ clock.expiresAt + 10 * Minute) :
    ∃ otpCode, GenerateOTP 6 src = Except.ok otpCode ∧
      ∃ s3, s2.VerifyOTP now1 now2 ⟨resp.VerificationCode, otpCode⟩ =
          (Except.ok { Success := true, Message := "OTP verified successfully" }, s3) ∧
        (∃ r, s3.db.find? (fun r => decide (r.VerificationCode = resp.VerificationCode)) = some r ∧
          r.Phone = req.Phone ∧ r.Status = "verified" ∧ r.VerifiedAt = some now2) ∧
        s3.rateLimiter.recorded req.Phone = [] ∧
        s3.resendCooldown.cooldown req.Phone = none ∧
        ∀ t1 t2 : Int,
          (∃ v rl1, s3.rateLimiter.IsAllowed t1 req.Phone = some (v, rl1) ∧ v.allowed = true) ∧
          (s3.resendCooldown.CanResend t2 req.Phone).1 = true := by
  obtain ⟨otpCode, hgen, _, hissued⟩ := sendOTP_issued s0 clock src req resp s1 hsend
  obtain ⟨hhp1, _, hlim1, _⟩ := sendOTP_some s0 clock src req _ s1 hsend
  obtain ⟨hhp2, hkeep⟩ := otpRun_issued calls s1 s2 hrun
  obtain ⟨hlim2, _⟩ := otpRun_handles calls s1 s2 hrun
  obtain ⟨r, hfind, hcode, hexp, hphone⟩ := hkeep _ _ _ _ hissued
  refine ⟨otpCode, hgen, ?_⟩
  rcases verifyOTP_cases s2 now1 now2 ⟨resp.VerificationCode, otpCode⟩ with
    ⟨⟨err, herr⟩, _⟩ | ⟨otp, hfind2, _, _, heq⟩
  · exfalso
    unfold OTPService.VerifyOTP at herr
    have hne : ¬ r.ExpiresAt < now1 := by rw [hexp, hE]; omega
    have hver : s2.hashProvider.VerifyOTP otpCode r.OTPCode = true := by
      unfold HashProvider.VerifyOTP
      rw [hcode, hhp2, hhp1]
      exact decide_eq_true rfl
    simp only [hfind, hne, if_false, hver, Bool.true_eq_false] at herr
    cases herr
  · have hotp : otp = r := by
      have h1 : s2.db.find? (fun r => decide (r.VerificationCode = resp.VerificationCode)) = some otp :=
        hfind2
      rw [hfind] at h1
      injection h1 with h1
      exact h1.symm
    subst hotp
    refine ⟨_, heq, ?_, ?_, ?_, ?_⟩
    · refine ⟨{ otp with Status := "verified", VerifiedAt := some now2 }, ?_, hphone, rfl, rfl⟩
      show (markVerified s2.db otp.ID now2).find? _ = _
      unfold markVerified
      rw [find_handle_map _ _ _ (by intro r; split <;> rfl), hfind]
      simp
    · show (s2.rateLimiter.Reset otp.Phone).recorded req.Phone = []
      rw [hphone]
      exact recorded_reset_self _ _
    · show (s2.resendCooldown.Reset otp.Phone).cooldown req.Phone = none
      rw [hphone]
      simp [ResendCooldown.Reset]
    · intro t1 t2
      constructor
      · have hlim : (0 : Int) < (s2.rateLimiter.Reset otp.Phone).limit := by
          show (0 : Int) < s2.rateLimiter.limit
          rw [hlim2, hlim1]
          omega
        obtain ⟨rl1, hres, _⟩ := isAllowed_under_limit (s2.rateLimiter.Reset otp.Phone) t1
          req.Phone [] _ (by rw [hphone]; exact recorded_reset_self _ _)
          (by intro x hx; cases hx) (by simpa using hlim) rfl
        exact ⟨_, rl1, hres, rfl⟩
      · show ((s2.resendCooldown.Reset otp.Phone).CanResend t2 req.Phone).1 = true
        rw [hphone]
        simp [ResendCooldown.CanResend, ResendCooldown.Reset]

/-- Witness of `otp_round_trip`: a new service over an empty table, a code sent
to one phone at clock 1000 and verified at clock 2000. -/
theorem otp_round_trip_witness :
    ∃ resp s1,
      (1 : Int) ≤ (NewOTPService [] ⟨none, fun _ _ => 0⟩).rateLimiter.limit ∧
      (NewOTPService [] ⟨none, fun _ _ => 0⟩).otpExpiry = 10 * Minute ∧
      (NewOTPService [] ⟨none, fun _ _ => 0⟩).SendOTP ⟨1000, 1000, 1000, 1000, 1000, 1000⟩
        (Except.ok (fun _ => 0)) ⟨"0788", "sms"⟩ = some (Except.ok resp, s1) ∧
      s1.run [] = some s1 ∧ (2000 : Int) ≤ 1000 + 10 * Minute ∧
      ∃ otpCode, GenerateOTP 6 (Except.ok (fun _ => 0)) = Except.ok otpCode ∧
        ∃ s3, s1.VerifyOTP 2000 2000 ⟨resp.VerificationCode, otpCode⟩ =
            (Except.ok { Success := true, Message := "OTP verified successfully" }, s3) ∧
          (∃ r, s3.db.find? (fun r => decide (r.VerificationCode = resp.VerificationCode))
              = some r ∧
            r.Phone = "0788" ∧ r.Status = "verified" ∧ r.VerifiedAt = some 2000) ∧
          s3.rateLimiter.recorded "0788" = [] ∧
          s3.resendCooldown.cooldown "0788" = none ∧
          ∀ t1 t2 : Int,
            (∃ v rl1, s3.rateLimiter.IsAllowed t1 "0788" = some (v, rl1) ∧ v.allowed = true) ∧
            (s3.resendCooldown.CanResend t2 "0788").1 = true :=
  ⟨_, _, by decide, rfl, rfl, rfl, by decide,
    otp_round_trip (NewOTPService [] ⟨none, fun _ _ => 0⟩) (by decide) rfl
      ⟨1000, 1000, 1000, 1000, 1000, 1000⟩ (Except.ok (fun _ => 0)) ⟨"0788", "sms"⟩ _ _ rfl
      [] _ rfl 2000 2000 (by decide)⟩

/-- Witness of `sendOTP_handles_distinct`: two codes sent to two phones at the
clock readings 1000 and 2000. -/
theorem sendOTP_handles_distinct_witness :
    ∃ resp1 s1 resp2 s3,
      (NewOTPService [] ⟨none, fun _ _ => 0⟩).SendOTP ⟨1000, 1000, 1000, 1000, 1000, 1000⟩
        (Except.ok (fun _ => 0)) ⟨"0788", "sms"⟩ = some (Except.ok resp1, s1) ∧
      s1.run [] = some s1 ∧
      s1.SendOTP ⟨2000, 2000, 2000, 2000, 2000, 2000⟩
        (Except.ok (fun _ => 0)) ⟨"0789", "sms"⟩ = some (Except.ok resp2, s3) ∧
      resp1.VerificationCode ≠ resp2.VerificationCode :=
  ⟨_, _, _, _, rfl, rfl, rfl,
    sendOTP_handles_distinct (NewOTPService [] ⟨none, fun _ _ => 0⟩)
      ⟨1000, 1000, 1000, 1000, 1000, 1000⟩ (Except.ok (fun _ => 0)) ⟨"0788", "sms"⟩ _ _ rfl
      [] _ rfl
      ⟨2000, 2000, 2000, 2000, 2000, 2000⟩ (Except.ok (fun _ => 0)) ⟨"0789", "sms"⟩ _ _ rfl⟩

/-- C14, refuted as stated. In the service that has sent one code (handle
`1000-500`, code `AAAAAA`), `VerifyOTP` answers a handle that matches no row
with `invalid verification code` and the existing, unexpired row queried with
the wrong code `BBBBBB` with `invalid OTP code`: two different messages. The
hash function of the example tells the two codes apart. -/
theorem verifyOTP_messages_differ :
    ∃ resp s,
      (NewOTPService [] ⟨none, fun code _ => if code = "AAAAAA" then 1 else 0⟩).SendOTP
        ⟨1000, 1000, 1000, 1000, 1000, 1000⟩ (Except.ok (fun _ => 0)) ⟨"0788", "sms"⟩
        = some (Except.ok resp, s) ∧
      resp.VerificationCode = "1000-500" ∧
      (s.VerifyOTP 2000 2000 ⟨"no-such-handle", "AAAAAA"⟩).1
        = Except.error "invalid verification code" ∧
      (s.VerifyOTP 2000 2000 ⟨"1000-500", "BBBBBB"⟩).1 = Except.error "invalid OTP code" ∧
      (s.VerifyOTP 2000 2000 ⟨"no-such-handle", "AAAAAA"⟩).1
        ≠ (s.VerifyOTP 2000 2000 ⟨"1000-500", "BBBBBB"⟩).1 := by
  refine ⟨_, _, rfl, rfl, rfl, rfl, ?_⟩
  intro h
  have h1 : (Except.error "invalid verification code" : Except String VerifyOTPResponse)
      = Except.error "invalid OTP code" := h
  injection h1 with h1
  revert h1
  decide

/-- C14, amended. `VerifyOTP` answers a handle that matches no row with the
message `invalid verification code`, and an existing, unexpired row queried with
a code whose digest is not the stored one with the message `invalid OTP code`;
the two messages are different, and both failures leave the service as it was.
-/
theorem verifyOTP_failure_messages (s : OTPService) (now1 now2 : Int)
    (unknown wrong : VerifyOTPRequest) (otp : OTP)
    (hnone : s.db.find? (fun r => decide (r.VerificationCode = unknown.VerificationCode)) = none)
    (hsome : s.db.find? (fun r => decide (r.VerificationCode = wrong.VerificationCode)) = some otp)
    (hlive : ¬ otp.ExpiresAt < now1)
    (hwrong : s.hashProvider.HashOTP wrong.OTPCode ≠ otp.OTPCode) :
    s.VerifyOTP now1 now2 unknown = (Except.error "invalid verification code", s) ∧
    s.VerifyOTP now1 now2 wrong = (Except.error "invalid OTP code", s) ∧
    (s.VerifyOTP now1 now2 unknown).1 ≠ (s.VerifyOTP now1 now2 wrong).1 := by
  have h1 : s.VerifyOTP now1 now2 unknown = (Except.error "invalid verification code", s) := by
    unfold OTPService.VerifyOTP
    rw [hnone]
  have h2 : s.VerifyOTP now1 now2 wrong = (Except.error "invalid OTP code", s) := by
    unfold OTPService.VerifyOTP
    have hver : s.hashProvider.VerifyOTP wrong.OTPCode otp.OTPCode = false := by
      unfold HashProvider.VerifyOTP
      exact decide_eq_false hwrong
    simp only [hsome, hlive, if_false, hver, if_true]
  refine ⟨h1, h2, ?_⟩
  rw [h1, h2]
  intro h
  injection h with h
  revert h
  decide

/-- Witness of `verifyOTP_failure_messages`: a table with one row, stored code
`00`, which is the digest of no code under the hash function of the example
(its digests are 64 digits long). -/
theorem verifyOTP_failure_messages_witness :
    (NewOTPService [⟨1, "", "0788", "00", "h-1", "active", 5000, none⟩]
        ⟨none, fun _ _ => 0⟩).db.find?
      (fun r => decide (r.VerificationCode = "no-such-handle")) = none ∧
    (NewOTPService [⟨1, "", "0788", "00", "h-1", "active", 5000, none⟩]
        ⟨none, fun _ _ => 0⟩).db.find?
      (fun r => decide (r.VerificationCode = "h-1"))
        = some ⟨1, "", "0788", "00", "h-1", "active", 5000, none⟩ ∧
    ¬ ((5000 : Int) < 2000) ∧
    HashProvider.HashOTP ⟨none, fun _ _ => 0⟩ "AAAAAA" ≠ "00" ∧
    (NewOTPService [⟨1, "", "0788", "00", "h-1", "active", 5000, none⟩]
        ⟨none, fun _ _ => 0⟩).VerifyOTP 2000 2000 ⟨"no-such-handle", "AAAAAA"⟩ =
      (Except.error "invalid verification code",
        NewOTPService [⟨1, "", "0788", "00", "h-1", "active", 5000, none⟩]
          ⟨none, fun _ _ => 0⟩) ∧
    (NewOTPService [⟨1, "", "0788", "00", "h-1", "active", 5000, none⟩]
        ⟨none, fun _ _ => 0⟩).VerifyOTP 2000 2000 ⟨"h-1", "AAAAAA"⟩ =
      (Except.error "invalid OTP code",
        NewOTPService [⟨1, "", "0788", "00", "h-1", "active", 5000, none⟩]
          ⟨none, fun _ _ => 0⟩) ∧
    ((NewOTPService [⟨1, "", "0788", "00", "h-1", "active", 5000, none⟩]
        ⟨none, fun _ _ => 0⟩).VerifyOTP 2000 2000 ⟨"no-such-handle", "AAAAAA"⟩).1 ≠
      ((NewOTPService [⟨1, "", "0788", "00", "h-1", "active", 5000, none⟩]
        ⟨none, fun _ _ => 0⟩).VerifyOTP 2000 2000 ⟨"h-1", "AAAAAA"⟩).1 :=
  ⟨by decide, by decide, by decide, by decide,
    verifyOTP_failure_messages
      (NewOTPService [⟨1, "", "0788", "00", "h-1", "active", 5000, none⟩] ⟨none, fun _ _ => 0⟩)
      2000 2000 ⟨"no-such-handle", "AAAAAA"⟩ ⟨"h-1", "AAAAAA"⟩
      ⟨1, "", "0788", "00", "h-1", "active", 5000, none⟩
      (by decide) (by decide) (by decide) (by decide)⟩

theorem hexEncode_length (bytes : List (Fin 256)) :
    (hexEncode bytes).length = 2 * bytes.length := by
  unfold hexEncode
  show (bytes.flatMap _).length = _
  induction bytes with
  | nil => rfl
  | cons b rest ih =>
    rw [List.flatMap_cons, List.length_append, ih, List.length_cons]
    simp only [List.length_cons, List.length_nil]
    omega

/-- The digest `HashOTP(otp)` is always 64 characters long. -/
theorem hashOTP_length (hp : HashProvider) (otp : String) : (hp.HashOTP otp).length = 64 := by
  unfold HashProvider.HashOTP
  rw [hexEncode_length, List.length_map, List.length_finRange]

/-- C15, the failing input. With an entropy source that delivers zero bytes,
`generateMixedOTP(6)` is `AAAAAA`; `sendEmailOTP` and `sendSMSOTP` then save a
row whose code field is `AAAAAA` itself, the plaintext code, which is the digest
`HashOTP("AAAAAA")` under no hash function (a digest has 64 characters); the
row issued by `SendOTP` is the one that stores the digest. -/
theorem handlers_store_plaintext :
    generateMixedOTP 6 (Except.ok (fun _ => 0)) = "AAAAAA" ∧
    sendEmailOTP [] 0 (Except.ok (fun _ => 0)) "u-1" none ⟨"a@b.c", "", "email"⟩ =
      [⟨1, "", "a@b.c", "AAAAAA", "u-1", "active", 10 * Minute, none⟩] ∧
    sendSMSOTP [] 0 (Except.ok (fun _ => 0)) "u-2" none ⟨"", "0788", "phone"⟩ =
      [⟨1, "", "0788", "AAAAAA", "u-2", "active", 10 * Minute, none⟩] ∧
    (∀ hp : HashProvider, hp.HashOTP "AAAAAA" ≠ "AAAAAA") ∧
    (∀ (s : OTPService) (clock : SendClock) (req : SendOTPRequest) (otpCode : String),
      (issuedOTP s clock req otpCode).OTPCode = s.hashProvider.HashOTP otpCode) := by
  refine ⟨rfl, rfl, rfl, ?_, fun _ _ _ _ => rfl⟩
  intro hp h
  have hlen := hashOTP_length hp "AAAAAA"
  rw [h] at hlen
  revert hlen
  decide

/-! ## Password strength: theorems -/

theorem matchesRange_iff (lo hi : Char) (s : String) :
    matchesRange lo hi s = true ↔ ∃ c ∈ s.toList, lo ≤ c ∧ c ≤ hi := by
  unfold matchesRange
  rw [List.any_eq_true]
  constructor
  · rintro ⟨c, hc, h⟩
    simp only [Bool.and_eq_true, decide_eq_true_eq] at h
    exact ⟨c, hc, h.1, h.2⟩
  · rintro ⟨c, hc, h1, h2⟩
    refine ⟨c, hc, ?_⟩
    simp only [Bool.and_eq_true, decide_eq_true_eq]
    exact ⟨h1, h2⟩

theorem matchesSpecial_iff (s : String) :
    matchesSpecial s = true ↔ ∃ c ∈ s.toList, c ∈ specialChars := by
  unfold matchesSpecial
  rw [List.any_eq_true]
  constructor
  · rintro ⟨c, hc, h⟩
    exact ⟨c, hc, of_decide_eq_true h⟩
  · rintro ⟨c, hc, h⟩
    exact ⟨c, hc, decide_eq_true h⟩

/-- C11. `validatePassword` returns no error exactly when the password has
length at least 8 (the length `len(password)` of the Go string, its number of
UTF-8 bytes) and contains an uppercase letter `A`-`Z`, a lowercase letter
`a`-`z`, a digit `0`-`9` and a character of the special set. It rejects `abc`
and `abcdefgh` and accepts `Abcdef1!`. -/
theorem validatePassword_iff :
    (∀ password : String,
      validatePassword password = Except.ok () ↔
        (8 ≤ password.utf8ByteSize ∧
          (∃ c ∈ password.toList, 'A' ≤ c ∧ c ≤ 'Z') ∧
          (∃ c ∈ password.toList, 'a' ≤ c ∧ c ≤ 'z') ∧
          (∃ c ∈ password.toList, '0' ≤ c ∧ c ≤ '9') ∧
          (∃ c ∈ password.toList, c ∈ specialChars))) ∧
    validatePassword "abc" = Except.error "password must be at least 8 characters long" ∧
    validatePassword "abcdefgh"
      = Except.error "password must contain at least one uppercase letter" ∧
    validatePassword "Abcdef1!" = Except.ok () := by
  refine ⟨?_, rfl, rfl, rfl⟩
  intro password
  rw [← matchesRange_iff, ← matchesRange_iff, ← matchesRange_iff, ← matchesSpecial_iff]
  unfold validatePassword
  by_cases h0 : password.utf8ByteSize < 8
  · simp only [h0, if_true]
    constructor
    · intro h
      cases h
    · intro h
      omega
  · cases h1 : matchesRange 'A' 'Z' password <;> cases h2 : matchesRange 'a' 'z' password <;>
      cases h3 : matchesRange '0' '9' password <;> cases h4 : matchesSpecial password <;>
      simp [h0]
    all_goals omega

/-! ## Password reset: theorems -/

/-- What a `ConfirmPasswordReset` call did: an error leaves the service as it
was; a success validated the password, found the active row `reset` of the
token, unexpired, hashed the password and committed both updates. -/
theorem confirm_cases (s : AuthService) (now1 now2 : Int) (bcrypt : Except String String)
    (faults : TxFaults) (req : ConfirmPasswordResetRequest) :
    (∃ err, s.ConfirmPasswordReset now1 now2 bcrypt faults req = (Except.error err, s)) ∨
    (∃ reset passwordHash,
      validatePassword req.Password = Except.ok () ∧
      findActiveReset s.resets req.Token = some reset ∧ ¬ reset.ExpiresAt < now1 ∧
      bcrypt = Except.ok passwordHash ∧
      s.ConfirmPasswordReset now1 now2 bcrypt faults req =
        (Except.ok { Success := true, Message := "Password reset successfully" },
          { s with users := setPassword s.users reset.UserID passwordHash,
                   resets := markUsed s.resets reset.ID now2 })) := by
  unfold AuthService.ConfirmPasswordReset
  cases hval : validatePassword req.Password with
  | error err => exact Or.inl ⟨_, rfl⟩
  | ok u =>
    cases hfind : findActiveReset s.resets req.Token with
    | none => exact Or.inl ⟨_, rfl⟩
    | some reset =>
      by_cases hexp : reset.ExpiresAt < now1
      · simp only [hexp, if_true]
        exact Or.inl ⟨_, rfl⟩
      · simp only [hexp, if_false]
        cases bcrypt with
        | error err => exact Or.inl ⟨_, rfl⟩
        | ok passwordHash =>
          unfold resetTransaction
          cases h1 : faults.updateUser with
          | some err => exact Or.inl ⟨_, rfl⟩
          | none =>
            cases h2 : faults.updateReset with
            | some err => exact Or.inl ⟨_, rfl⟩
            | none =>
              cases h3 : faults.commit with
              | some err => exact Or.inl ⟨_, rfl⟩
              | none => exact Or.inr ⟨reset, passwordHash, trivial, rfl, hexp, rfl, rfl⟩

theorem findActiveReset_some (resets : List PasswordReset) (token : String)
    (reset : PasswordReset) (h : findActiveReset resets token = some reset) :
    reset ∈ resets ∧ reset.Token = token ∧ reset.Status = "active" := by
  unfold findActiveReset at h
  have hp := List.find?_some h
  simp only [Bool.and_eq_true, decide_eq_true_eq] at hp
  exact ⟨List.mem_of_find?_eq_some h, hp.1, hp.2⟩

theorem markUsed_tokens (resets : List PasswordReset) (id : Nat) (now : Int) :
    (markUsed resets id now).map (fun r => r.Token) = resets.map (fun r => r.Token) := by
  unfold markUsed
  rw [List.map_map]
  apply List.map_congr_left
  intro r _
  simp only [Function.comp]
  split <;> rfl

theorem setPassword_no_user (users : List User) (userID : Nat) (hash : String)
    (h : ∀ u ∈ users, u.ID = userID → u.DeletedAt ≠ none) :
    setPassword users userID hash = users := by
  unfold setPassword
  have hmap : users.map (fun u =>
      if u.ID = userID ∧ u.DeletedAt = none then { u with Password := hash } else u)
      = users.map id := by
    apply List.map_congr_left
    intro u hu
    rw [if_neg]
    · rfl
    · rintro ⟨h1, h2⟩
      exact h u hu h1 h2
  rw [hmap, List.map_id]

/-- C19, the failing input. The table of resets holds an active, unexpired row
of token `tok` whose `UserID` is 99, and the table of users holds no user 99.
`ConfirmPasswordReset` with a valid password answers `Password reset
successfully`; afterwards the row of the token has status `used` with `used_at`
stamped, and the table of users is what it was: the token is consumed and no
credential is replaced. In general a call either returns an error and leaves
the service as it was (this includes a failure of either update and of the
commit), or succeeds with the row of the token marked used and the password
replaced for the undeleted users under the `UserID` of the row; when there is
no such user the table of users is unchanged. -/
theorem confirm_uses_token_without_user :
    (∃ s1,
      AuthService.ConfirmPasswordReset
          (NewAuthService [⟨1, "a@b.c", "old", none⟩]
            [⟨1, 99, "x@y.z", "tok", "active", 1000, none⟩])
          0 5 (Except.ok "hash") ⟨none, none, none⟩ ⟨"tok", "Abcdef1!"⟩
        = (Except.ok { Success := true, Message := "Password reset successfully" }, s1) ∧
      s1.users = [⟨1, "a@b.c", "old", none⟩] ∧
      s1.resets = [⟨1, 99, "x@y.z", "tok", "used", 1000, some 5⟩]) ∧
    (∀ (s : AuthService) (now1 now2 : Int) (bcrypt : Except String String)
      (faults : TxFaults) (req : ConfirmPasswordResetRequest),
      (∃ err, s.ConfirmPasswordReset now1 now2 bcrypt faults req = (Except.error err, s)) ∨
      (∃ reset passwordHash s1,
        findActiveReset s.resets req.Token = some reset ∧ bcrypt = Except.ok passwordHash ∧
        s.ConfirmPasswordReset now1 now2 bcrypt faults req =
          (Except.ok { Success := true, Message := "Password reset successfully" }, s1) ∧
        s1.users = setPassword s.users reset.UserID passwordHash ∧
        s1.resets = markUsed s.resets reset.ID now2 ∧
        (∃ r ∈ s1.resets, r.ID = reset.ID ∧ r.Token = req.Token ∧ r.Status = "used" ∧
          r.UsedAt = some now2) ∧
        (∀ u ∈ s1.users, u.ID = reset.UserID → u.DeletedAt = none →
          u.Password = passwordHash) ∧
        ((∀ u ∈ s.users, u.ID = reset.UserID → u.DeletedAt ≠ none) →
          s1.users = s.users))) := by
  refine ⟨⟨_, rfl, rfl, rfl⟩, ?_⟩
  intro s now1 now2 bcrypt faults req
  rcases confirm_cases s now1 now2 bcrypt faults req with herr | ⟨reset, hash, _, hfind, _, hb, heq⟩
  · exact Or.inl herr
  · refine Or.inr ⟨reset, hash, _, hfind, hb, heq, rfl, rfl, ?_, ?_, ?_⟩
    · obtain ⟨hmem, htok, _⟩ := findActiveReset_some _ _ _ hfind
      refine ⟨{ reset with Status := "used", UsedAt := some now2 }, ?_, rfl, htok, rfl, rfl⟩
      show _ ∈ markUsed s.resets reset.ID now2
      unfold markUsed
      refine List.mem_map.mpr ⟨reset, hmem, ?_⟩
      rw [if_pos rfl]
    · intro u hu hid hdel
      obtain ⟨u0, _, hu0⟩ := List.mem_map.mp hu
      by_cases hc : u0.ID = reset.UserID ∧ u0.DeletedAt = none
      · rw [if_pos hc] at hu0
        rw [← hu0]
      · rw [if_neg hc] at hu0
        rw [← hu0] at hid hdel
        exact absurd ⟨hid, hdel⟩ hc
    · intro hno
      exact setPassword_no_user s.users reset.UserID hash hno

/-- C17, the failing input. With one reset row of token `tok` and status `used`,
`ConfirmPasswordReset` with a valid password answers the token `tok` and a token
`zzz` that matches no row with the same error, `invalid or expired reset link`;
and so it does whenever the lookup of an active row of the token finds none. -/
theorem confirm_used_same_error :
    (AuthService.ConfirmPasswordReset
        (NewAuthService [⟨1, "a@b.c", "old", none⟩]
          [⟨1, 1, "a@b.c", "tok", "used", 1000, some 5⟩])
        0 0 (Except.ok "hash") ⟨none, none, none⟩ ⟨"tok", "Abcdef1!"⟩).1
      = Except.error "invalid or expired reset link" ∧
    (AuthService.ConfirmPasswordReset
        (NewAuthService [⟨1, "a@b.c", "old", none⟩]
          [⟨1, 1, "a@b.c", "tok", "used", 1000, some 5⟩])
        0 0 (Except.ok "hash") ⟨none, none, none⟩ ⟨"zzz", "Abcdef1!"⟩).1
      = Except.error "invalid or expired reset link" ∧
    (∀ (s : AuthService) (now1 now2 : Int) (bcrypt : Except String String) (faults : TxFaults)
      (req : ConfirmPasswordResetRequest),
      validatePassword req.Password = Except.ok () →
      findActiveReset s.resets req.Token = none →
      s.ConfirmPasswordReset now1 now2 bcrypt faults req
        = (Except.error "invalid or expired reset link", s)) := by
  refine ⟨rfl, rfl, ?_⟩
  intro s now1 now2 bcrypt faults req hval hfind
  unfold AuthService.ConfirmPasswordReset
  rw [hval]
  simp only [hfind]

/-- What a returning `RequestPasswordReset` call did to the tables and what it
answered: the users are untouched, the reset table is as it was or has one more
row, under a token it did not hold; and every response, on whichever branch,
reports success with the generic message. -/
theorem request_some (s : AuthService) (now1 now2 : Int) (src : Entropy) (email : String)
    (res : Except String RequestPasswordResetResponse) (s1 : AuthService)
    (h : s.RequestPasswordReset now1 now2 src email = some (res, s1)) :
    s1.users = s.users ∧
    (s1.resets = s.resets ∨
      ∃ row, row.Token ∉ s.resets.map (fun r => r.Token) ∧ s1.resets = s.resets ++ [row]) ∧
    ∀ resp, res = Except.ok resp →
      resp.Success = true ∧
      resp.Message = "If this email exists, a password reset link has been sent" := by
  unfold AuthService.RequestPasswordReset at h
  cases hia : s.rateLimiter.IsAllowed now1 email with
  | none => simp [hia] at h
  | some r =>
    obtain ⟨v, rl1⟩ := r
    simp only [hia] at h
    cases hv : v.allowed with
    | false =>
      simp only [hv, if_true, Option.some.injEq, Prod.mk.injEq] at h
      obtain ⟨h1, h2⟩ := h
      subst h1
      subst h2
      refine ⟨rfl, Or.inl rfl, ?_⟩
      intro resp hresp
      injection hresp with hresp
      rw [← hresp]
      exact ⟨rfl, rfl⟩
    | true =>
      simp only [hv, Bool.true_eq_false, if_false] at h
      cases hfind : findUserByEmail s.users email with
      | none =>
        simp only [hfind, Option.some.injEq, Prod.mk.injEq] at h
        obtain ⟨h1, h2⟩ := h
        subst h1
        subst h2
        refine ⟨rfl, Or.inl rfl, ?_⟩
        intro resp hresp
        injection hresp with hresp
        rw [← hresp]
        exact ⟨rfl, rfl⟩
      | some user =>
        simp only [hfind] at h
        cases hgen : GenerateToken src with
        | error err =>
          simp only [hgen, Option.some.injEq, Prod.mk.injEq] at h
          obtain ⟨h1, h2⟩ := h
          subst h1
          subst h2
          refine ⟨rfl, Or.inl rfl, ?_⟩
          intro resp hresp
          cases hresp
        | ok token =>
          simp only [hgen] at h
          unfold createPasswordReset at h
          by_cases hdup : token ∈ s.resets.map (fun r => r.Token)
          · simp only [hdup, if_true, Option.some.injEq, Prod.mk.injEq] at h
            obtain ⟨h1, h2⟩ := h
            subst h1
            subst h2
            refine ⟨rfl, Or.inl rfl, ?_⟩
            intro resp hresp
            cases hresp
          · simp only [hdup, if_false, Option.some.injEq, Prod.mk.injEq] at h
            obtain ⟨h1, h2⟩ := h
            subst h1
            subst h2
            refine ⟨rfl, Or.inr ⟨_, ?_, rfl⟩, ?_⟩
            · exact hdup
            · intro resp hresp
              injection hresp with hresp
              rw [← hresp]
              exact ⟨rfl, rfl⟩

/-- A call keeps a spent token spent. -/
theorem authStep_spent (s s1 : AuthService) (c : AuthCall) (hstep : s.step c = some s1)
    (token : String) (h : TokenSpent s.resets token) : TokenSpent s1.resets token := by
  obtain ⟨hmem, hall⟩ := h
  cases c with
  | RequestPasswordReset now1 now2 src email =>
    unfold AuthService.step at hstep
    cases hreq : s.RequestPasswordReset now1 now2 src email with
    | none => simp [hreq] at hstep
    | some r =>
      obtain ⟨res, s2⟩ := r
      simp only [hreq, Option.map_some', Option.some.injEq] at hstep
      subst hstep
      obtain ⟨_, hres, _⟩ := request_some s now1 now2 src email res _ hreq
      rcases hres with hres | ⟨row, hnew, hres⟩
      · simp only [hres]
        exact ⟨hmem, hall⟩
      · simp only [hres]
        refine ⟨?_, ?_⟩
        · rw [List.map_append]
          exact List.mem_append_left _ hmem
        · intro r hr htok
          rcases List.mem_append.mp hr with hr | hr
          · exact hall r hr htok
          · rw [List.mem_singleton.mp hr] at htok
            rw [htok] at hnew
            exact absurd hmem hnew
  | ConfirmPasswordReset now1 now2 bcrypt faults req =>
    simp only [AuthService.step, Option.some.injEq] at hstep
    subst hstep
    rcases confirm_cases s now1 now2 bcrypt faults req with ⟨err, heq⟩ | ⟨reset, hash, _, _, _, _, heq⟩
    · rw [heq]
      exact ⟨hmem, hall⟩
    · rw [heq]
      refine ⟨?_, ?_⟩
      · show token ∈ (markUsed s.resets reset.ID now2).map (fun r => r.Token)
        rw [markUsed_tokens]
        exact hmem
      · intro r hr htok
        have hr1 : r ∈ markUsed s.resets reset.ID now2 := hr
        unfold markUsed at hr1
        obtain ⟨r0, hr0, hmap⟩ := List.mem_map.mp hr1
        by_cases hid : r0.ID = reset.ID
        · rw [if_pos hid] at hmap
          rw [← hmap]
          show "used" ≠ "active"
          decide
        · rw [if_neg hid] at hmap
          rw [← hmap] at htok ⊢
          exact hall r0 hr0 htok

theorem authRun_spent (calls : List AuthCall) :
    ∀ s s1 : AuthService, s.run calls = some s1 → ∀ token,
      TokenSpent s.resets token → TokenSpent s1.resets token := by
  induction calls with
  | nil =>
    intro s s1 hrun token h
    simp only [AuthService.run, Option.some.injEq] at hrun
    subst hrun
    exact h
  | cons c rest ih =>
    intro s s1 hrun token h
    unfold AuthService.run at hrun
    cases hstep : s.step c with
    | none => simp [hstep] at hrun
    | some s2 =>
      simp only [hstep] at hrun
      exact ih s2 s1 hrun token (authStep_spent s s2 c hstep token h)

/-- C18. Single use. Over a reset table that honours its unique index on the
token, after `ConfirmPasswordReset` has succeeded for a token, and after any
further `RequestPasswordReset` and `ConfirmPasswordReset` calls, every
`ConfirmPasswordReset` call with that token, with any password and at any clock
reading, returns an error and leaves the service, with the stored credentials
and the reset rows, as it was. -/
theorem confirm_single_use (s0 : AuthService)
    (hunique : (s0.resets.map (fun r => r.Token)).Nodup)
    (now1 now2 : Int) (bcrypt : Except String String) (faults : TxFaults)
    (req : ConfirmPasswordResetRequest) (resp : ConfirmPasswordResetResponse)
    (s1 : AuthService)
    (hfirst : s0.ConfirmPasswordReset now1 now2 bcrypt faults req = (Except.ok resp, s1))
    (calls : List AuthCall) (s2 : AuthService) (hrun : s1.run calls = some s2)
    (now3 now4 : Int) (bcrypt2 : Except String String) (faults2 : TxFaults)
    (password : String) :
    ∃ err, s2.ConfirmPasswordReset now3 now4 bcrypt2 faults2 ⟨req.Token, password⟩
      = (Except.error err, s2) := by
  have hspent1 : TokenSpent s1.resets req.Token := by
    rcases confirm_cases s0 now1 now2 bcrypt faults req with
      ⟨err, heq⟩ | ⟨reset, hash, _, hfind, _, _, heq⟩
    · rw [heq] at hfirst
      injection hfirst with h _
      cases h
    · rw [heq] at hfirst
      injection hfirst with _ hs
      rw [← hs]
      obtain ⟨hmem, htok, _⟩ := findActiveReset_some _ _ _ hfind
      refine ⟨?_, ?_⟩
      · show req.Token ∈ (markUsed s0.resets reset.ID now2).map (fun r => r.Token)
        rw [markUsed_tokens, ← htok]
        exact List.mem_map_of_mem (fun r => r.Token) hmem
      · intro r hr hrtok
        have hr1 : r ∈ markUsed s0.resets reset.ID now2 := hr
        unfold markUsed at hr1
        obtain ⟨r0, hr0, hmap⟩ := List.mem_map.mp hr1
        by_cases hid : r0.ID = reset.ID
        · rw [if_pos hid] at hmap
          rw [← hmap]
          show "used" ≠ "active"
          decide
        · rw [if_neg hid] at hmap
          rw [← hmap] at hrtok
          have heq0 : r0 = reset :=
            List.inj_on_of_nodup_map hunique hr0 hmem (hrtok.trans htok.symm)
          rw [heq0] at hid
          exact absurd rfl hid
  have hspent2 := authRun_spent calls s1 s2 hrun req.Token hspent1
  rcases confirm_cases s2 now3 now4 bcrypt2 faults2 ⟨req.Token, password⟩ with
    herr | ⟨reset, hash, _, hfind, _, _, _⟩
  · exact herr
  · obtain ⟨hmem, htok, hact⟩ := findActiveReset_some _ _ _ hfind
    exact absurd hact (hspent2.2 reset hmem htok)

/-- Witness of `confirm_single_use`: one user, one active reset row of token
`tok`, confirmed at clock 5 and tried again at clock 7. -/
theorem confirm_single_use_witness :
    ∃ resp s1,
      ((NewAuthService [⟨1, "a@b.c", "old", none⟩]
          [⟨1, 1, "a@b.c", "tok", "active", 1000, none⟩]).resets.map (fun r => r.Token)).Nodup ∧
      (NewAuthService [⟨1, "a@b.c", "old", none⟩]
          [⟨1, 1, "a@b.c", "tok", "active", 1000, none⟩]).ConfirmPasswordReset
        5 6 (Except.ok "hash") ⟨none, none, none⟩ ⟨"tok", "Abcdef1!"⟩ = (Except.ok resp, s1) ∧
      s1.run [] = some s1 ∧
      ∃ err, s1.ConfirmPasswordReset 7 8 (Except.ok "hash2") ⟨none, none, none⟩
        ⟨"tok", "Xyzxyz2?"⟩ = (Except.error err, s1) :=
  ⟨_, _, by decide, rfl, rfl,
    confirm_single_use
      (NewAuthService [⟨1, "a@b.c", "old", none⟩] [⟨1, 1, "a@b.c", "tok", "active", 1000, none⟩])
      (by decide) 5 6 (Except.ok "hash") ⟨none, none, none⟩ ⟨"tok", "Abcdef1!"⟩ _ _ rfl
      [] _ rfl 7 8 (Except.ok "hash2") ⟨none, none, none⟩ "Xyzxyz2?"⟩

/-- C20. Enumeration resistance of `RequestPasswordReset`. Every response, on
whichever branch, has `Success = true` and the one generic message; a request
that the limiter refuses (whether or not the email belongs to a user) and a
request for an email that belongs to no user return the same response, field by
field, with an empty token. The last two parts show both on examples: the
fourth request in an hour for the email of a user, and a request for an
unknown email. -/
theorem requestPasswordReset_generic :
    (∀ (s : AuthService) (now1 now2 : Int) (src : Entropy) (email : String)
      (resp : RequestPasswordResetResponse) (s1 : AuthService),
      s.RequestPasswordReset now1 now2 src email = some (Except.ok resp, s1) →
      resp.Success = true ∧
      resp.Message = "If this email exists, a password reset link has been sent") ∧
    (∀ (s : AuthService) (now1 now2 : Int) (src : Entropy) (email : String) (v : Verdict)
      (rl1 : RateLimiter),
      s.rateLimiter.IsAllowed now1 email = some (v, rl1) → v.allowed = false →
      (s.RequestPasswordReset now1 now2 src email).map Prod.fst =
        some (Except.ok
          { Success := true,
            Message := "If this email exists, a password reset link has been sent",
            Token := "" })) ∧
    (∀ (s : AuthService) (now1 now2 : Int) (src : Entropy) (email : String) (v : Verdict)
      (rl1 : RateLimiter),
      s.rateLimiter.IsAllowed now1 email = some (v, rl1) → v.allowed = true →
      findUserByEmail s.users email = none →
      (s.RequestPasswordReset now1 now2 src email).map Prod.fst =
        some (Except.ok
          { Success := true,
            Message := "If this email exists, a password reset link has been sent",
            Token := "" })) ∧
    (∃ s3, (NewAuthService [⟨1, "a@b.c", "old", none⟩] []).run
        [AuthCall.RequestPasswordReset 0 0 (Except.ok (fun _ => 1)) "a@b.c",
         AuthCall.RequestPasswordReset 1 1 (Except.ok (fun _ => 2)) "a@b.c",
         AuthCall.RequestPasswordReset 2 2 (Except.ok (fun _ => 3)) "a@b.c"] = some s3 ∧
      (s3.RequestPasswordReset 3 3 (Except.ok (fun _ => 4)) "a@b.c").map Prod.fst =
        some (Except.ok
          { Success := true,
            Message := "If this email exists, a password reset link has been sent",
            Token := "" })) ∧
    ((NewAuthService [⟨1, "a@b.c", "old", none⟩] []).RequestPasswordReset 3 3
        (Except.ok (fun _ => 4)) "x@y.z").map Prod.fst =
      some (Except.ok
        { Success := true,
          Message := "If this email exists, a password reset link has been sent",
          Token := "" }) := by
  refine ⟨?_, ?_, ?_, ⟨_, rfl, rfl⟩, rfl⟩
  · intro s now1 now2 src email resp s1 h
    exact (request_some s now1 now2 src email _ s1 h).2.2 resp rfl
  · intro s now1 now2 src email v rl1 hia hv
    unfold AuthService.RequestPasswordReset
    simp only [hia, hv, if_true, Option.map_some']
  · intro s now1 now2 src email v rl1 hia hv hfind
    unfold AuthService.RequestPasswordReset
    simp only [hia, hv, Bool.true_eq_false, if_false, hfind, Option.map_some']

/-! ## The digests and the HMAC: theorems -/

/-- C23. With a nil or an empty HMAC secret, `VerifyHMAC(data, signature)` is
false for every data and every signature, under every hash and HMAC function;
`GenerateHMAC` returns the empty signature in that configuration, and
`VerifyHMAC` is false for that signature too. -/
theorem verifyHMAC_no_secret (sha : String → Fin 32 → Fin 256) (mac : HmacSha256)
    (data signature : String) :
    HashProvider.VerifyHMAC ⟨none, sha⟩ mac data signature = false ∧
    HashProvider.VerifyHMAC ⟨some [], sha⟩ mac data signature = false ∧
    HashProvider.GenerateHMAC ⟨none, sha⟩ mac data = "" ∧
    HashProvider.GenerateHMAC ⟨some [], sha⟩ mac data = "" ∧
    HashProvider.VerifyHMAC ⟨none, sha⟩ mac data
      (HashProvider.GenerateHMAC ⟨none, sha⟩ mac data) = false ∧
    HashProvider.VerifyHMAC ⟨some [], sha⟩ mac data
      (HashProvider.GenerateHMAC ⟨some [], sha⟩ mac data) = false :=
  ⟨rfl, rfl, rfl, rfl, rfl, rfl⟩

/-- C24. For every code and every stored digest, `VerifyOTP(otp, h)` is true
exactly when `h` is `HashOTP(otp)`, so `VerifyOTP(otp, HashOTP(otp))` is always
true; and likewise for `VerifyPassword` with `HashPassword` and for
`VerifyToken` with `HashToken`. -/
theorem verify_iff_digest (hp : HashProvider) (secret h : String) :
    (hp.VerifyOTP secret h = true ↔ h = hp.HashOTP secret) ∧
    hp.VerifyOTP secret (hp.HashOTP secret) = true ∧
    (hp.VerifyPassword secret h = true ↔ h = hp.HashPassword secret) ∧
    hp.VerifyPassword secret (hp.HashPassword secret) = true ∧
    (hp.VerifyToken secret h = true ↔ h = hp.HashToken secret) ∧
    hp.VerifyToken secret (hp.HashToken secret) = true := by
  unfold HashProvider.VerifyOTP HashProvider.VerifyPassword HashProvider.VerifyToken
  simp only [decide_eq_true_eq]
  exact ⟨eq_comm, trivial, eq_comm, trivial, eq_comm, trivial⟩

/-- C25, the failing input. When the entropy source fails, `GenerateToken` and
`GenerateOTP` return an error, but `generateMixedOTP` returns the fixed code
`A1B2C3` and `generateResetToken` returns the result of `uuid.NewString()`:
neither reports the failure. -/
theorem handlers_degrade_on_entropy_failure :
    (∀ err : String, GenerateToken (Except.error err)
      = Except.error ("failed to generate token: " ++ err)) ∧
    (∀ (err : String) (length : Int), GenerateOTP length (Except.error err)
      = Except.error ("failed to generate OTP: " ++ err)) ∧
    (∀ (err : String) (length : Nat), generateMixedOTP length (Except.error err) = "A1B2C3") ∧
    (∀ err uuid : String, generateResetToken (Except.error err) uuid = uuid) ∧
    generateMixedOTP 6 (Except.error "entropy source unavailable") = "A1B2C3" :=
  ⟨fun _ => rfl, fun _ _ => rfl, fun _ _ => rfl, fun _ _ => rfl, rfl⟩

/-! ## The limiter inside the services: theorems -/

/-- With a limit of at least 1 every call returns and keeps the limit. -/
theorem limiterStep_returns (rl : RateLimiter) (hL : 1 ≤ rl.limit) (now : Int) (c : Call) :
    ∃ rl1 out, rl.step now c = some (rl1, out) ∧ rl1.limit = rl.limit := by
  cases c with
  | IsAllowed key =>
    have hsome : ∃ v rl1, rl.IsAllowed now key = some (v, rl1) := by
      rcases isAllowed_cases rl now key hL with ⟨_, v, rl1, h, _⟩ | ⟨v, h, _⟩
      · exact ⟨v, rl1, h⟩
      · exact ⟨v, rl, h⟩
    obtain ⟨v, rl1, h⟩ := hsome
    exact ⟨rl1, [⟨now, key, v⟩], by simp [RateLimiter.step, h], isAllowed_limit rl now key v rl1 h⟩
  | Reset key => exact ⟨rl.Reset key, [], rfl, rfl⟩
  | cleanupExpired => exact ⟨rl.cleanupExpired now, [], rfl, rfl⟩

theorem limiterRun_returns (calls : List (Int × Call)) :
    ∀ (rl : RateLimiter) (log : List Outcome), 1 ≤ rl.limit →
      ∃ rl1 log1, rl.run log calls = some (rl1, log1) ∧ rl1.limit = rl.limit := by
  induction calls with
  | nil =>
    intro rl log _
    exact ⟨rl, log, rfl, rfl⟩
  | cons p rest ih =>
    intro rl log hL
    obtain ⟨now, c⟩ := p
    obtain ⟨rl1, out, hstep, hlim⟩ := limiterStep_returns rl hL now c
    obtain ⟨rl2, log2, hrun, hlim2⟩ := ih rl1 (log ++ out) (by rw [hlim]; exact hL)
    refine ⟨rl2, log2, ?_, hlim2.trans hlim⟩
    simp only [RateLimiter.run, hstep]
    exact hrun

/-- C29. For a limiter built with a limit of at least 1, every sequence of
`IsAllowed`, `Reset` and `cleanupExpired` calls at any clock readings runs
without a panic, and in the state it reaches `IsAllowed` returns for every key
and clock reading: when it refuses, the list of retained attempts that the
refusing branch indexes at 0 is not empty. -/
theorem isAllowed_index_in_range (L W : Int) (hL : 1 ≤ L) (calls : List (Int × Call)) :
    ∃ rl log, (NewRateLimiter L W).run [] calls = some (rl, log) ∧
      ∀ (now : Int) (key : String),
        ∃ v rl1, rl.IsAllowed now key = some (v, rl1) ∧
          (v.allowed = false → validAttempts (now - rl.window) (rl.recorded key) ≠ []) := by
  obtain ⟨rl, log, hrun, hlim⟩ := limiterRun_returns calls (NewRateLimiter L W) [] hL
  refine ⟨rl, log, hrun, ?_⟩
  intro now key
  have hL1 : 1 ≤ rl.limit := by rw [hlim]; exact hL
  have hsome : ∃ v rl1, rl.IsAllowed now key = some (v, rl1) := by
    rcases isAllowed_cases rl now key hL1 with ⟨_, v, rl1, h, _⟩ | ⟨v, h, _⟩
    · exact ⟨v, rl1, h⟩
    · exact ⟨v, rl, h⟩
  obtain ⟨v, rl1, h⟩ := hsome
  refine ⟨v, rl1, h, ?_⟩
  intro hden
  rcases isAllowed_some rl now key v rl1 h with ⟨hal, _⟩ | ⟨_, _, oldest, others, hvalid, _⟩
  · rw [hal] at hden
    cases hden
  · rw [hvalid]
    exact List.cons_ne_nil _ _

/-- Witness of `isAllowed_index_in_range`: a limit of 1, one allowed call, a
reset of another key and a sweep. -/
theorem isAllowed_index_in_range_witness :
    (1 : Int) ≤ 1 ∧
    ∃ rl log, (NewRateLimiter 1 10).run []
        [(0, Call.IsAllowed "k"), (3, Call.Reset "j"), (2, Call.cleanupExpired)]
        = some (rl, log) ∧
      ∀ (now : Int) (key : String),
        ∃ v rl1, rl.IsAllowed now key = some (v, rl1) ∧
          (v.allowed = false → validAttempts (now - rl.window) (rl.recorded key) ≠ []) :=
  ⟨by decide, isAllowed_index_in_range 1 10 (by decide)
    [(0, Call.IsAllowed "k"), (3, Call.Reset "j"), (2, Call.cleanupExpired)]⟩

theorem otpService_eta (s : OTPService) : { s with rateLimiter := s.rateLimiter } = s := by
  cases s
  rfl

/-- C30. A `SendOTP` call for an empty phone, and one that the limiter refuses,
return an error and leave the service (limiter, cooldown and store) as it was.
A call that the limiter allows and the cooldown gate refuses returns an error,
leaves the store and the cooldown as they were, and leaves the limiter as
`IsAllowed` left it: with the reading of the clock recorded after the retained
attempts of the phone, and the other keys untouched. The last part shows it on
a second call one second after a first. -/
theorem sendOTP_frame :
    (∀ (s : OTPService) (clock : SendClock) (src : Entropy) (req : SendOTPRequest),
      req.Phone = "" →
      s.SendOTP clock src req = some (Except.error "phone is required", s)) ∧
    (∀ (s : OTPService) (clock : SendClock) (src : Entropy) (req : SendOTPRequest)
      (v : Verdict) (rl1 : RateLimiter),
      req.Phone ≠ "" →
      s.rateLimiter.IsAllowed clock.isAllowed req.Phone = some (v, rl1) →
      v.allowed = false →
      ∃ err, s.SendOTP clock src req = some (Except.error err, s)) ∧
    (∀ (s : OTPService) (clock : SendClock) (src : Entropy) (req : SendOTPRequest)
      (v : Verdict) (rl1 : RateLimiter),
      req.Phone ≠ "" →
      s.rateLimiter.IsAllowed clock.isAllowed req.Phone = some (v, rl1) →
      v.allowed = true →
      (s.resendCooldown.CanResend clock.canResend req.Phone).1 = false →
      ∃ err s1, s.SendOTP clock src req = some (Except.error err, s1) ∧
        s1.db = s.db ∧ s1.resendCooldown = s.resendCooldown ∧ s1.rateLimiter = rl1 ∧
        rl1.recorded req.Phone =
          validAttempts (clock.isAllowed - s.rateLimiter.window)
            (s.rateLimiter.recorded req.Phone) ++ [clock.isAllowed] ∧
        ∀ k, k ≠ req.Phone → rl1.recorded k = s.rateLimiter.recorded k) ∧
    (∃ resp s1 err s2,
      (NewOTPService [] ⟨none, fun _ _ => 0⟩).SendOTP ⟨0, 0, 0, 0, 0, 0⟩
        (Except.ok (fun _ => 0)) ⟨"0788", "sms"⟩ = some (Except.ok resp, s1) ∧
      s1.SendOTP ⟨Second, Second, Second, Second, Second, Second⟩
        (Except.ok (fun _ => 0)) ⟨"0788", "sms"⟩ = some (Except.error err, s2) ∧
      err = "too frequent requests, wait 119 seconds" ∧
      s1.rateLimiter.recorded "0788" = [0] ∧ s2.rateLimiter.recorded "0788" = [0, Second] ∧
      s2.db = s1.db ∧ s2.resendCooldown.cooldown "0788" = some 0) := by
  refine ⟨?_, ?_, ?_, ⟨_, _, _, _, rfl, rfl, rfl, rfl, rfl, rfl, rfl⟩⟩
  · intro s clock src req hphone
    unfold OTPService.SendOTP
    rw [if_pos hphone]
  · intro s clock src req v rl1 hphone hia hv
    have hrl : rl1 = s.rateLimiter := by
      rcases isAllowed_some _ _ _ _ _ hia with ⟨hal, _⟩ | ⟨_, heq, _⟩
      · rw [hal] at hv
        cases hv
      · exact heq
    subst hrl
    unfold OTPService.SendOTP
    simp only [hphone, if_false, hia, hv, if_true, otpService_eta]
    exact ⟨_, rfl⟩
  · intro s clock src req v rl1 hphone hia hv hcool
    have hrec : rl1.recorded req.Phone =
          validAttempts (clock.isAllowed - s.rateLimiter.window)
            (s.rateLimiter.recorded req.Phone) ++ [clock.isAllowed] ∧
        ∀ k, k ≠ req.Phone → rl1.recorded k = s.rateLimiter.recorded k := by
      rcases isAllowed_some _ _ _ _ _ hia with ⟨_, _, h1, h2⟩ | ⟨hden, _⟩
      · exact ⟨h1, h2⟩
      · rw [hden] at hv
        cases hv
    cases hcr : s.resendCooldown.CanResend clock.canResend req.Phone with
    | mk canResend secondsUntil =>
      rw [hcr] at hcool
      have hcan : canResend = false := hcool
      subst hcan
      refine ⟨"too frequent requests, wait " ++ toString secondsUntil ++ " seconds",
        { s with rateLimiter := rl1 }, ?_, rfl, rfl, rfl, hrec.1, hrec.2⟩
      unfold OTPService.SendOTP
      simp only [hphone, if_false, hia, hv, Bool.true_eq_false, hcr, if_true]

/-! ## The role checks of `UpdateUserRole`: theorems -/

theorem checkNewRoles_ok (highestRole : String) (newRoles : List String)
    (h : checkNewRoles highestRole newRoles = Except.ok ()) :
    ∀ r ∈ newRoles, IsValidRole r = true ∧ CanAssignRole highestRole r = true := by
  induction newRoles with
  | nil =>
    intro r hr
    cases hr
  | cons newRole rest ih =>
    unfold checkNewRoles at h
    cases hvalid : IsValidRole newRole with
    | false => simp [hvalid] at h
    | true =>
      cases hcan : CanAssignRole highestRole newRole with
      | false => simp [hvalid, hcan] at h
      | true =>
        simp only [hvalid, hcan, Bool.true_eq_false, if_false] at h
        intro r hr
        rcases List.mem_cons.mp hr with hr | hr
        · rw [hr]
          exact ⟨hvalid, hcan⟩
        · exact ih h r hr

theorem canAssign_lower (acting target : String) (h1 : acting ≠ "superAdmin")
    (h2 : acting ≠ "nla") (h : CanAssignRole acting target = true) :
    GetRoleLevel target < GetRoleLevel acting := by
  unfold CanAssignRole SuperAdmin NLA at h
  have hne : ¬ (acting = "superAdmin" ∨ acting = "nla") := by
    rintro (h3 | h3)
    · exact h1 h3
    · exact h2 h3
  rw [if_neg hne] at h
  exact of_decide_eq_true h

theorem isValidRole_mem (role : String) (h : IsValidRole role = true) :
    role ∈ ["superAdmin", "nla", "admin", "manager", "agent", "notary", "blocker",
      "paterns", "buyer"] := by
  unfold IsValidRole at h
  obtain ⟨level, hlevel⟩ := Option.isSome_iff_exists.mp h
  obtain ⟨l1, l2, heq, _⟩ := List.lookup_eq_some_iff.mp hlevel
  have hmem : role ∈ RoleHierarchy.map Prod.fst := by
    rw [heq]
    simp
  exact hmem

theorem updateUserRoleChecks_ok (currentUserRoles : Option (List String))
    (req : Except String UpdateUserRoleRequest) (targetFound : Bool)
    (h : updateUserRoleChecks currentUserRoles req targetFound = Except.ok ()) :
    ∃ userRoles r, currentUserRoles = some userRoles ∧ req = Except.ok r ∧
      ∀ role ∈ r.Roles, IsValidRole role = true ∧
        CanAssignRole (GetHighestRole userRoles) role = true := by
  unfold updateUserRoleChecks at h
  cases currentUserRoles with
  | none => simp at h
  | some userRoles =>
    cases req with
    | error err =>
      simp only at h
      split at h <;> cases h
    | ok r =>
      refine ⟨userRoles, r, rfl, rfl, ?_⟩
      intro role hrole
      simp only at h
      split at h
      · cases h
      · split at h
        · cases h
        · exact checkNewRoles_ok _ _ h role hrole

theorem updateUserRoleChecks_low (userRoles : List String)
    (req : Except String UpdateUserRoleRequest) (targetFound : Bool)
    (hle : GetRoleLevel (GetHighestRole userRoles) ≤ GetRoleLevel "agent") :
    updateUserRoleChecks (some userRoles) req targetFound
      = Except.error (403, "You don't have permission to manage roles") := by
  unfold updateUserRoleChecks
  have hagent : GetRoleLevel "agent" = 5 := by decide
  rw [hagent] at hle
  have hcan : (decide (GetHighestRole userRoles = SuperAdmin)
      || decide (GetHighestRole userRoles = NLA)
      || decide (GetHighestRole userRoles = Admin)
      || decide (GetHighestRole userRoles = Manager)) = false := by
    rw [Bool.eq_false_iff]
    intro h
    simp only [Bool.or_eq_true, decide_eq_true_eq] at h
    have h9 : GetRoleLevel SuperAdmin = 9 := by decide
    have h8 : GetRoleLevel NLA = 8 := by decide
    have h7 : GetRoleLevel Admin = 7 := by decide
    have h6 : GetRoleLevel Manager = 6 := by decide
    rcases h with ((h | h) | h) | h
    · rw [h, h9] at hle
      omega
    · rw [h, h8] at hle
      omega
    · rw [h, h7] at hle
      omega
    · rw [h, h6] at hle
      omega
  simp only [hcan, if_true]

/-- C28. Whenever the permission checks of `UpdateUserRole` pass, the local
`user_id` was a string, the acting user was found, the request parsed, and,
when the highest role of the actor is neither superAdmin nor nla, every
requested role is one of the nine role names (superAdmin, nla, admin, manager,
agent, notary, blocker, paterns, buyer) and its level is strictly below the
level of the highest role of the actor. An actor whose highest role has the
level of agent or a lower one never passes the checks: the handler answers
status 403 when the local `user_id` is a string, and panics at its first
statement when it is not, as for every actor. The last two parts are examples: a
manager may assign agent and buyer, an agent may assign nothing. -/
theorem updateUserRole_hierarchy :
    (∀ (userIDLocal : Option String) (currentUserRoles : Option (List String))
      (req : Except String UpdateUserRoleRequest) (targetFound : Bool),
      UpdateUserRole userIDLocal currentUserRoles req targetFound = some (Except.ok ()) →
      ∃ userIDStr userRoles r, userIDLocal = some userIDStr ∧
        currentUserRoles = some userRoles ∧ req = Except.ok r ∧
        (GetHighestRole userRoles ≠ "superAdmin" → GetHighestRole userRoles ≠ "nla" →
          ∀ role ∈ r.Roles,
            role ∈ ["superAdmin", "nla", "admin", "manager", "agent", "notary", "blocker",
              "paterns", "buyer"] ∧
            GetRoleLevel role < GetRoleLevel (GetHighestRole userRoles))) ∧
    (∀ (userIDLocal : Option String) (userRoles : List String)
      (req : Except String UpdateUserRoleRequest) (targetFound : Bool),
      GetRoleLevel (GetHighestRole userRoles) ≤ GetRoleLevel "agent" →
      UpdateUserRole userIDLocal (some userRoles) req targetFound ≠ some (Except.ok ()) ∧
      (∀ userIDStr, userIDLocal = some userIDStr →
        UpdateUserRole userIDLocal (some userRoles) req targetFound
          = some (Except.error (403, "You don't have permission to manage roles")))) ∧
    (∀ (currentUserRoles : Option (List String)) (req : Except String UpdateUserRoleRequest)
      (targetFound : Bool), UpdateUserRole none currentUserRoles req targetFound = none) ∧
    UpdateUserRole (some "7") (some ["buyer", "manager"]) (Except.ok ⟨3, ["agent", "buyer"]⟩) true
      = some (Except.ok ()) ∧
    UpdateUserRole (some "7") (some ["manager"]) (Except.ok ⟨3, ["bogus"]⟩) true
      = some (Except.error (400, "Invalid role: bogus")) ∧
    UpdateUserRole (some "7") (some ["manager"]) (Except.ok ⟨3, ["manager"]⟩) true
      = some (Except.error (403, "You cannot assign role: manager")) ∧
    UpdateUserRole (some "7") (some ["agent"]) (Except.ok ⟨3, ["buyer"]⟩) true
      = some (Except.error (403, "You don't have permission to manage roles")) := by
  refine ⟨?_, ?_, fun _ _ _ => rfl, rfl, rfl, rfl, rfl⟩
  · intro userIDLocal currentUserRoles req targetFound h
    cases userIDLocal with
    | none => cases h
    | some userIDStr =>
      have h1 : updateUserRoleChecks currentUserRoles req targetFound = Except.ok () :=
        Option.some.inj h
      obtain ⟨userRoles, r, hu, hr, hall⟩ := updateUserRoleChecks_ok _ _ _ h1
      refine ⟨userIDStr, userRoles, r, rfl, hu, hr, ?_⟩
      intro hs hn role hrole
      obtain ⟨hv, hc⟩ := hall role hrole
      exact ⟨isValidRole_mem role hv, canAssign_lower _ _ hs hn hc⟩
  · intro userIDLocal userRoles req targetFound hle
    have hlow := updateUserRoleChecks_low userRoles req targetFound hle
    cases userIDLocal with
    | none =>
      refine ⟨?_, ?_⟩
      · intro h
        cases h
      · intro userIDStr h
        cases h
    | some userIDStr =>
      have heq : UpdateUserRole (some userIDStr) (some userRoles) req targetFound
          = some (Except.error (403, "You don't have permission to manage roles")) := by
        show some (updateUserRoleChecks (some userRoles) req targetFound) = _
        rw [hlow]
      refine ⟨?_, fun _ _ => heq⟩
      rw [heq]
      intro h
      cases Option.some.inj h

/-! ## The bearer tokens: theorems -/

theorem claimsValid_access (nowUnix : Int) (id : String) (roles : List String) (exp : Int) :
    claimsValid nowUnix [("id", ClaimValue.str id), ("role", ClaimValue.strs roles),
      ("expires", ClaimValue.num exp)] = Except.ok () := by
  have h1 : numClaim [("id", ClaimValue.str id), ("role", ClaimValue.strs roles),
      ("expires", ClaimValue.num exp)] "exp" = none := rfl
  have h2 : numClaim [("id", ClaimValue.str id), ("role", ClaimValue.strs roles),
      ("expires", ClaimValue.num exp)] "iat" = none := rfl
  have h3 : numClaim [("id", ClaimValue.str id), ("role", ClaimValue.strs roles),
      ("expires", ClaimValue.num exp)] "nbf" = none := rfl
  unfold claimsValid
  simp only [h1, h2, h3, Bool.false_eq_true, if_false]

theorem claimsValid_frontend (nowUnix exp : Int) :
    claimsValid nowUnix [("type", ClaimValue.str "frontend"), ("expires", ClaimValue.num exp)]
      = Except.ok () := by
  have h1 : numClaim [("type", ClaimValue.str "frontend"), ("expires", ClaimValue.num exp)]
      "exp" = none := rfl
  have h2 : numClaim [("type", ClaimValue.str "frontend"), ("expires", ClaimValue.num exp)]
      "iat" = none := rfl
  have h3 : numClaim [("type", ClaimValue.str "frontend"), ("expires", ClaimValue.num exp)]
      "nbf" = none := rfl
  unfold claimsValid
  simp only [h1, h2, h3, Bool.false_eq_true, if_false]

theorem claimsValid_refresh (nowUnix : Int) (id : String) (exp : Int) :
    claimsValid nowUnix [("id", ClaimValue.str id), ("expires", ClaimValue.num exp)]
      = Except.ok () := by
  have h1 : numClaim [("id", ClaimValue.str id), ("expires", ClaimValue.num exp)]
      "exp" = none := rfl
  have h2 : numClaim [("id", ClaimValue.str id), ("expires", ClaimValue.num exp)]
      "iat" = none := rfl
  have h3 : numClaim [("id", ClaimValue.str id), ("expires", ClaimValue.num exp)]
      "nbf" = none := rfl
  unfold claimsValid
  simp only [h1, h2, h3, Bool.false_eq_true, if_false]

/-- The parse of `GetUserIDFromToken` accepts every access token of the same
configuration, at every clock reading. -/
theorem jwtParse_access (config : String → String) (t now : Int) (id : String)
    (roles : List String) :
    jwtParse now (accessKeyFunc config) (GenerateNewAccessToken config t id roles)
      = Except.ok (GenerateNewAccessToken config t id roles) := by
  unfold jwtParse accessKeyFunc GenerateNewAccessToken
  simp only [isHMAC, decide_True, Bool.true_or, if_true, claimsValid_access]

/-- The parse of `GetUserIDFromToken` accepts every frontend token of the same
configuration, at every clock reading. -/
theorem jwtParse_frontend (config : String → String) (t now : Int) :
    jwtParse now (accessKeyFunc config) (GenerateFrontendToken config t)
      = Except.ok (GenerateFrontendToken config t) := by
  unfold jwtParse accessKeyFunc GenerateFrontendToken
  simp only [isHMAC, decide_True, Bool.true_or, if_true, claimsValid_frontend]

/-- C21, the failing input. `GetUserIDFromToken` returns the subject id of an
access token at every clock reading, however long after it was minted: the
expiry is stored under the claim `expires`, which neither `jwt.Parse` nor the
function reads. A token minted at clock 0 with an expiration of 15 minutes
carries `expires = 900` and is accepted at minute 16 and after 100 hours; the
sibling `VerifyFrontendToken` does read `expires` and answers `Token expired`
for a frontend token 25 hours old. -/
theorem getUserID_accepts_lapsed :
    (∀ (config : String → String) (t now : Int) (id : String) (roles : List String),
      GetUserIDFromToken config now
        (Authorization.token (GenerateNewAccessToken config t id roles))
        = some (Except.ok id)) ∧
    (GenerateNewAccessToken (fun k => if k = "ACCESS_TOKEN_EXPIRATION" then "15" else "s")
      0 "42" ["buyer"]).claims.lookup "expires" = some (ClaimValue.num 900) ∧
    GetUserIDFromToken (fun k => if k = "ACCESS_TOKEN_EXPIRATION" then "15" else "s")
      (16 * Minute)
      (Authorization.token
        (GenerateNewAccessToken (fun k => if k = "ACCESS_TOKEN_EXPIRATION" then "15" else "s")
          0 "42" ["buyer"])) = some (Except.ok "42") ∧
    GetUserIDFromToken (fun k => if k = "ACCESS_TOKEN_EXPIRATION" then "15" else "s")
      (100 * Hour)
      (Authorization.token
        (GenerateNewAccessToken (fun k => if k = "ACCESS_TOKEN_EXPIRATION" then "15" else "s")
          0 "42" ["buyer"])) = some (Except.ok "42") ∧
    VerifyFrontendToken (fun _ => "s") 0 (25 * Hour)
      (Authorization.token (GenerateFrontendToken (fun _ => "s") 0))
      = Except.error "Token expired" := by
  refine ⟨?_, by decide, rfl, rfl, rfl⟩
  intro config t now id roles
  unfold GetUserIDFromToken
  simp only [jwtParse_access]
  rfl

/-- C22, refuted as stated. `GenerateFrontendToken` and `GenerateNewAccessToken`
read the same configuration entry, so the two tokens carry the same key and the
parse of `GetUserIDFromToken` accepts the frontend token: here with the entry
`JWT_SECRET` set to `s1` and every other entry to `s2`. -/
theorem frontend_token_passes_access_parse :
    (GenerateFrontendToken (fun k => if k = "JWT_SECRET" then "s1" else "s2") 0).key
      = (GenerateNewAccessToken (fun k => if k = "JWT_SECRET" then "s1" else "s2")
          0 "42" ["buyer"]).key ∧
    jwtParse 0 (accessKeyFunc (fun k => if k = "JWT_SECRET" then "s1" else "s2"))
        (GenerateFrontendToken (fun k => if k = "JWT_SECRET" then "s1" else "s2") 0)
      = Except.ok (GenerateFrontendToken (fun k => if k = "JWT_SECRET" then "s1" else "s2") 0) ∧
    ¬ (∀ (config : String → String) (t now : Int),
        ∃ err, jwtParse now (accessKeyFunc config) (GenerateFrontendToken config t)
          = Except.error err) := by
  refine ⟨rfl, rfl, ?_⟩
  intro h
  obtain ⟨err, herr⟩ := h (fun k => if k = "JWT_SECRET" then "s1" else "s2") 0 0
  rw [jwtParse_frontend] at herr
  cases herr

/-- C22, amended. Refresh tokens are signed with the configuration entry
`JWT_REFRESH_SECRET`, access tokens and frontend tokens both with the entry
`JWT_SECRET`. A frontend token therefore passes the signature check of the parse
of `GetUserIDFromToken`; a refresh token fails it when the two entries differ;
and `VerifyFrontendToken` tells an access token from a frontend token by the
type marker, which an access token lacks. -/
theorem token_kinds_and_secrets (config : String → String) (t now1 now2 : Int) (id : String)
    (roles : List String) :
    (GenerateNewRefreshToken config t id).key = config "JWT_REFRESH_SECRET" ∧
    (GenerateNewAccessToken config t id roles).key = config "JWT_SECRET" ∧
    (GenerateFrontendToken config t).key = config "JWT_SECRET" ∧
    jwtParse now1 (accessKeyFunc config) (GenerateFrontendToken config t)
      = Except.ok (GenerateFrontendToken config t) ∧
    (config "JWT_REFRESH_SECRET" ≠ config "JWT_SECRET" →
      jwtParse now1 (accessKeyFunc config) (GenerateNewRefreshToken config t id)
        = Except.error "signature is invalid") ∧
    VerifyFrontendToken config now1 now2
        (Authorization.token (GenerateNewAccessToken config t id roles))
      = Except.error "Invalid token type" := by
  refine ⟨rfl, rfl, rfl, jwtParse_frontend config t now1, ?_, ?_⟩
  · intro hne
    unfold jwtParse accessKeyFunc GenerateNewRefreshToken
    simp only [isHMAC, decide_True, Bool.true_or, if_true, claimsValid_refresh, hne, if_false]
  · unfold VerifyFrontendToken
    simp only [jwtParse_access]
    rfl

/-! ## The supersede step: theorems -/

/-- C26, the failing input. A code is sent to a phone at clock 0 and a second
one three minutes later, which supersedes the first: its row has status
`expired`. `VerifyOTP` with the handle and the code of the first row at minute
4, before its expiry at minute 10, still succeeds and marks the row verified:
`VerifyOTP` never reads the status. -/
theorem superseded_otp_still_verifies :
    ∃ resp1 s1 resp2 s2 s3,
      (NewOTPService [] ⟨none, fun _ _ => 0⟩).SendOTP ⟨0, 0, 0, 0, 0, 0⟩
        (Except.ok (fun _ => 0)) ⟨"0788", "sms"⟩ = some (Except.ok resp1, s1) ∧
      s1.SendOTP
        ⟨3 * Minute, 3 * Minute, 3 * Minute, 3 * Minute, 3 * Minute, 3 * Minute⟩
        (Except.ok (fun _ => 0)) ⟨"0788", "sms"⟩ = some (Except.ok resp2, s2) ∧
      GenerateOTP 6 (Except.ok (fun _ => 0)) = Except.ok "AAAAAA" ∧
      (s2.db.find? (fun r => decide (r.VerificationCode = resp1.VerificationCode))).map
        (fun r => (r.Status, r.ExpiresAt)) = some ("expired", 10 * Minute) ∧
      s2.VerifyOTP (4 * Minute) (4 * Minute) ⟨resp1.VerificationCode, "AAAAAA"⟩
        = (Except.ok { Success := true, Message := "OTP verified successfully" }, s3) ∧
      (s3.db.find? (fun r => decide (r.VerificationCode = resp1.VerificationCode))).map
        (fun r => r.Status) = some "verified" :=
  ⟨_, _, _, _, _, rfl, rfl, rfl, rfl, rfl, rfl⟩

/-- C27, refuted as stated. A code is sent to a phone and verified, so that its
row has status `verified`; the next `SendOTP` for the phone, three minutes after
the first, leaves that row with status `expired`. -/
theorem supersede_expires_verified :
    ∃ resp1 s1 s2 resp3 s3,
      (NewOTPService [] ⟨none, fun _ _ => 0⟩).SendOTP ⟨0, 0, 0, 0, 0, 0⟩
        (Except.ok (fun _ => 0)) ⟨"0788", "sms"⟩ = some (Except.ok resp1, s1) ∧
      s1.VerifyOTP Minute Minute ⟨resp1.VerificationCode, "AAAAAA"⟩
        = (Except.ok { Success := true, Message := "OTP verified successfully" }, s2) ∧
      (s2.db.find? (fun r => decide (r.VerificationCode = resp1.VerificationCode))).map
        (fun r => r.Status) = some "verified" ∧
      s2.SendOTP
        ⟨3 * Minute, 3 * Minute, 3 * Minute, 3 * Minute, 3 * Minute, 3 * Minute⟩
        (Except.ok (fun _ => 0)) ⟨"0788", "sms"⟩ = some (Except.ok resp3, s3) ∧
      (s3.db.find? (fun r => decide (r.VerificationCode = resp1.VerificationCode))).map
        (fun r => r.Status) = some "expired" :=
  ⟨_, _, _, _, _, rfl, rfl, rfl, rfl, rfl⟩

theorem expirePhone_rows (db : List OTP) (phone : String) :
    List.Forall₂
      (fun old new =>
        new.ID = old.ID ∧
        (old.Phone = phone → new.Status = "expired") ∧
        (old.Phone ≠ phone → new = old))
      db (expirePhone db phone) := by
  unfold expirePhone
  induction db with
  | nil => exact List.Forall₂.nil
  | cons r rest ih =>
    rw [List.map_cons]
    refine List.Forall₂.cons ?_ ih
    by_cases h : r.Phone = phone
    · rw [if_pos h]
      exact ⟨rfl, fun _ => rfl, fun hne => absurd h hne⟩
    · rw [if_neg h]
      exact ⟨rfl, fun heq => absurd heq h, fun _ => rfl⟩

/-- C27, amended. A successful `SendOTP(subject)` leaves the table as the rows
it held, in order and under their keys, followed by the issued row; a row of
the subject has status `expired` afterwards whatever its status was, a verified
row included, and a row of another subject is unchanged. -/
theorem supersede_expires_phone_rows (s : OTPService) (clock : SendClock) (src : Entropy)
    (req : SendOTPRequest) (resp : SendOTPResponse) (s1 : OTPService)
    (h : s.SendOTP clock src req = some (Except.ok resp, s1)) :
    ∃ older created, s1.db = older ++ [created] ∧
      List.Forall₂
        (fun old new =>
          new.ID = old.ID ∧
          (old.Phone = req.Phone → new.Status = "expired") ∧
          (old.Phone ≠ req.Phone → new = old))
        s.db older := by
  obtain ⟨_, _, _, hcase⟩ := sendOTP_some s clock src req _ s1 h
  rcases hcase with ⟨⟨err, herr⟩, _⟩ | ⟨otpCode, _, _, hdb, _⟩
  · cases herr
  · exact ⟨expirePhone s.db req.Phone, issuedOTP s clock req otpCode, hdb,
      expirePhone_rows s.db req.Phone⟩

/-- Witness of `supersede_expires_phone_rows`: a table with a verified row of
the phone and an active row of another phone. -/
theorem supersede_expires_phone_rows_witness :
    ∃ resp s1,
      (NewOTPService
          [⟨1, "", "0788", "00", "h-1", "verified", 5000, some 7⟩,
           ⟨2, "", "0789", "00", "h-2", "active", 5000, none⟩]
          ⟨none, fun _ _ => 0⟩).SendOTP ⟨0, 0, 0, 0, 0, 0⟩
        (Except.ok (fun _ => 0)) ⟨"0788", "sms"⟩ = some (Except.ok resp, s1) ∧
      ∃ older created, s1.db = older ++ [created] ∧
        List.Forall₂
          (fun old new =>
            new.ID = old.ID ∧
            (old.Phone = "0788" → new.Status = "expired") ∧
            (old.Phone ≠ "0788" → new = old))
          [⟨1, "", "0788", "00", "h-1", "verified", 5000, some 7⟩,
           ⟨2, "", "0789", "00", "h-2", "active", 5000, none⟩] older :=
  ⟨_, _, rfl,
    supersede_expires_phone_rows
      (NewOTPService
        [⟨1, "", "0788", "00", "h-1", "verified", 5000, some 7⟩,
         ⟨2, "", "0789", "00", "h-2", "active", 5000, none⟩]
        ⟨none, fun _ _ => 0⟩) ⟨0, 0, 0, 0, 0, 0⟩
      (Except.ok (fun _ => 0)) ⟨"0788", "sms"⟩ _ _ rfl⟩

end SafeLand
